import Mathlib

/-!
The neo4j-go-driver: result cursor, value encoder and message builders.

A shallow embedding of

* `result.go` (the result cursor `Result`),
* `neo4j/dbtype/spatial.go`, `neo4j/dbtype/temporal.go` (the domain types and
  their `SerializeNeo4j` methods),
* `neo4j/packstream/packstream.go` (the `Packer` interface),
* `neo4j/internal/bolt/outgoing.go` (the value encoder `packX` and the
  message builders),

followed by theorems about them.
-/

namespace Neo4j

/-! ## result.go -/

/-- A Go `error` value, identified by its message. -/
abbrev GoError := String

/-- Values of type `interface{}` found in metadata maps and record fields. -/
inductive Val where
  | null
  | bool (b : Bool)
  | int64 (i : Int)
  | str (s : String)
  | strings (l : List String)
  | list (l : List Val)
  | dict (d : List (String × Val))

/-- A `map[string]interface{}`: the entries of the map, each key once. -/
abbrev Dict := List (String × Val)

/-- Map index expression `m[key]` in its comma-ok form. -/
def Dict.get (m : Dict) (key : String) : Option Val :=
  match m with
  | [] => none
  | (k, v) :: rest => if k = key then some v else Dict.get rest key

/-- The statement type of a summary; `unknown` is the zero value. -/
inductive StatementType where
  | unknown
  | readOnly
  | readWrite
  | writeOnly
  | schemaWrite
deriving DecidableEq, Repr

/-- The counters of a result summary. -/
structure Counters where
  nodesCreated : Int := 0
  nodesDeleted : Int := 0
  relationshipsCreated : Int := 0
  relationshipsDeleted : Int := 0
  propertiesSet : Int := 0
  labelsAdded : Int := 0
  labelsRemoved : Int := 0
  indexesAdded : Int := 0
  indexesRemoved : Int := 0
  constraintsAdded : Int := 0
  constraintsRemoved : Int := 0
deriving DecidableEq, Repr

/-- The fields of `ResultSummary` that `result.go` writes. -/
structure ResultSummary where
  resultsAvailableAfter : Int := 0
  resultsConsumedAfter : Int := 0
  statementType : StatementType := StatementType.unknown
  counters : Counters := {}
deriving DecidableEq, Repr

/-- A record: the key list of its result and its field values. -/
structure Record where
  keys : List String
  values : List Val

/-- One protocol reply, as decoded for the statement runner. -/
inductive Reply where
  | runAck (metadata : Option Dict)
  | record (fields : Option (List Val))
  | summary (metadata : Option Dict)
  | failure (err : GoError)

/-- The statement runner a `Result` points to: the replies the connection
will still deliver, and how many times `receive` has been invoked. -/
structure StatementRunner where
  replies : List Reply
  receives : Nat := 0

/-- The struct `Result`. A nil slice is the empty list, a nil pointer or nil
error is `none`. The request handles are omitted: nothing in `result.go`
reads them. -/
structure Result where
  keys : List String := []
  records : List Record := []
  current : Option Record := none
  summary : ResultSummary := {}
  runner : StatementRunner := { replies := [] }
  err : Option GoError := none
  runCompleted : Bool := false
  resultCompleted : Bool := false

/-- Type assertion `value.(int64)`; `none` is the run-time panic of a failed
assertion. -/
def Val.assertInt64 : Val → Option Int
  | Val.int64 i => some i
  | _ => none

/-- Type assertion `value.(string)`. -/
def Val.assertString : Val → Option String
  | Val.str s => some s
  | _ => none

/-- Type assertion `value.([]string)`. -/
def Val.assertStrings : Val → Option (List String)
  | Val.strings l => some l
  | _ => none

/-- Function `extractIntValue`: the value under `key` converted to `int`, or 0
when the key is absent; `none` when the stored value is not an `int64`. -/
def extractIntValue (dict : Dict) (key : String) : Option Int :=
  match dict.get key with
  | some value => value.assertInt64
  | none => some 0

/-- The `"fields"` step of `collectMetadata`. -/
def collectFields (metadata : Dict) (result : Result) : Option Result :=
  match metadata.get "fields" with
  | some fields => (fields.assertStrings).map (fun l => { result with keys := l })
  | none => some result

/-- The `"result_available_after"` step of `collectMetadata`. -/
def collectAvailableAfter (metadata : Dict) (result : Result) : Option Result :=
  match metadata.get "result_available_after" with
  | some t => (t.assertInt64).map
      (fun i => { result with summary := { result.summary with resultsAvailableAfter := i } })
  | none => some result

/-- The `"result_consumed_after"` step of `collectMetadata`. -/
def collectConsumedAfter (metadata : Dict) (result : Result) : Option Result :=
  match metadata.get "result_consumed_after" with
  | some t => (t.assertInt64).map
      (fun i => { result with summary := { result.summary with resultsConsumedAfter := i } })
  | none => some result

/-- The switch over the `"type"` string in `collectMetadata`. -/
def statementTypeOf (typeString : String) (old : StatementType) : StatementType :=
  if typeString = "r" then StatementType.readOnly
  else if typeString = "rw" then StatementType.readWrite
  else if typeString = "w" then StatementType.writeOnly
  else if typeString = "s" then StatementType.schemaWrite
  else old

/-- The `"type"` step of `collectMetadata`. -/
def collectType (metadata : Dict) (result : Result) : Option Result :=
  match metadata.get "type" with
  | some t => (t.assertString).map
      (fun s => { result with
        summary := { result.summary with
          statementType := statementTypeOf s result.summary.statementType } })
  | none => some result

/-- The eleven `extractIntValue` assignments of `collectMetadata`. -/
def collectCounters (statsDict : Dict) : Option Counters := do
  let nodesCreated ← extractIntValue statsDict "nodes-created"
  let nodesDeleted ← extractIntValue statsDict "nodes-deleted"
  let relationshipsCreated ← extractIntValue statsDict "relationships-created"
  let relationshipsDeleted ← extractIntValue statsDict "relationships-deleted"
  let propertiesSet ← extractIntValue statsDict "properties-set"
  let labelsAdded ← extractIntValue statsDict "labels-added"
  let labelsRemoved ← extractIntValue statsDict "labels-removed"
  let indexesAdded ← extractIntValue statsDict "indexes-added"
  let indexesRemoved ← extractIntValue statsDict "indexes-removed"
  let constraintsAdded ← extractIntValue statsDict "constraints-added"
  let constraintsRemoved ← extractIntValue statsDict "constraints-removed"
  pure { nodesCreated, nodesDeleted, relationshipsCreated, relationshipsDeleted,
         propertiesSet, labelsAdded, labelsRemoved, indexesAdded, indexesRemoved,
         constraintsAdded, constraintsRemoved }

/-- The `"stats"` step of `collectMetadata`; a value that is not a dictionary
is skipped (comma-ok assertion). -/
def collectStats (metadata : Dict) (result : Result) : Option Result :=
  match metadata.get "stats" with
  | some (Val.dict statsDict) => (collectCounters statsDict).map
      (fun c => { result with summary := { result.summary with counters := c } })
  | _ => some result

/-- Method `Result.collectMetadata`. `none` is a panic from a failed type
assertion. -/
def Result.collectMetadata (result : Result) (metadata : Option Dict) : Option Result :=
  match metadata with
  | none => some result
  | some m => do
    let r1 ← collectFields m result
    let r2 ← collectAvailableAfter m r1
    let r3 ← collectConsumedAfter m r2
    let r4 ← collectType m r3
    collectStats m r4

/-- Method `Result.collectRecord`. -/
def Result.collectRecord (result : Result) (fields : Option (List Val)) : Result :=
  match fields with
  | some f => { result with records := result.records ++ [{ keys := result.keys, values := f }] }
  | none => result

/-- Method `Result.Err`. -/
def Result.Err (result : Result) : Option GoError := result.err

/-- Method `Result.Record`. -/
def Result.Record (result : Result) : Option Record := result.current

/-- Modelled from the spec: `statementRunner.receive` is not among the
sources; this is the per-reply part of the `receive()` operation of the
Result Cursor state machine, which "decodes exactly one protocol reply and
updates state". A run acknowledgment captures the metadata and sets
`runCompleted`; a record reply appends a record; a summary reply captures the
metadata and sets `resultCompleted`; an error reply latches the error and
returns it. The outer `none` is a panic inside `collectMetadata`. The replies
admitted here are more than the spec describes (a record reply without field
values, an acknowledgment of a run already acknowledged); `conforming` singles
out the scripts that the spec describes. -/
def deliver (reply : Reply) (result : Result) : Option (Result × Option GoError) :=
  match reply with
  | Reply.runAck metadata =>
      (result.collectMetadata metadata).map (fun r => ({ r with runCompleted := true }, none))
  | Reply.record fields => some (result.collectRecord fields, none)
  | Reply.summary metadata =>
      (result.collectMetadata metadata).map (fun r => ({ r with resultCompleted := true }, none))
  | Reply.failure e => some ({ result with err := some e }, some e)

/-- The error `receive` returns when the connection has no reply left. -/
def errConnectionClosed : GoError := "connection closed"

/-- Records in `result.runner` that one reply was taken by `receive`. -/
def Result.consumed (result : Result) (rest : List Reply) : Result :=
  { result with runner := { replies := rest, receives := result.runner.receives + 1 } }

/-- Modelled from the spec: `statementRunner.receive`, absent from the
sources. One call decodes exactly one reply of the connection and updates the
result (see `deliver`); when the connection has nothing left to deliver the
call fails with a transport error, which is latched like any other. -/
def receive (result : Result) : Option (Result × Option GoError) :=
  match result.runner.replies with
  | [] => some ({ result.consumed [] with err := some errConnectionClosed },
                some errConnectionClosed)
  | reply :: rest => deliver reply (result.consumed rest)

/-- The loop `for !result.runCompleted { _, err := result.runner.receive(); ... }`
shared by `Keys` and `Next`, by recursion on the replies still to come
(`pending` is `result.runner.replies`). Returns the result reached and the
error that ended the loop, if any. -/
def awaitRun : (pending : List Reply) → Result → Option (Result × Option GoError)
  | [], result =>
      if result.runCompleted then some (result, none)
      else some ({ result.consumed [] with err := some errConnectionClosed },
                 some errConnectionClosed)
  | reply :: rest, result =>
      if result.runCompleted then some (result, none)
      else
        match deliver reply (result.consumed rest) with
        | none => none
        | some (r, some e) => some (r, some e)
        | some (r, none) => awaitRun rest r

/-- The loop `for !result.resultCompleted { ... receive() ... }` shared by
`Summary` and `Consume`. -/
def awaitResult : (pending : List Reply) → Result → Option (Result × Option GoError)
  | [], result =>
      if result.resultCompleted then some (result, none)
      else some ({ result.consumed [] with err := some errConnectionClosed },
                 some errConnectionClosed)
  | reply :: rest, result =>
      if result.resultCompleted then some (result, none)
      else
        match deliver reply (result.consumed rest) with
        | none => none
        | some (r, some e) => some (r, some e)
        | some (r, none) => awaitResult rest r

/-- Method `Result.Keys`: the returned pair `(keys, err)` and the result
afterwards. -/
def Result.Keys (result : Result) : Option ((List String × Option GoError) × Result) :=
  match awaitRun result.runner.replies result with
  | none => none
  | some (r, some e) => some (([], some e), r)
  | some (r, none) => some ((r.keys, none), r)

/-- The tail of `Result.Next`, from `if len(result.records) > 0`. -/
def Result.advance (result : Result) : Bool × Result :=
  match result.records with
  | first :: rest => (true, { result with current := some first, records := rest })
  | [] => (false, { result with current := none })

/-- Method `Result.Next`: the returned boolean and the result afterwards. -/
def Result.Next (result : Result) : Option (Bool × Result) :=
  match awaitRun result.runner.replies result with
  | none => none
  | some (r, some e) => some (false, { r with err := some e })
  | some (r, none) =>
      if !r.resultCompleted && r.records.length == 0 then
        match receive r with
        | none => none
        | some (r2, some e) => some (false, { r2 with err := some e })
        | some (r2, none) => some r2.advance
      else some r.advance

/-- Method `Result.Summary`: the returned pair `(summary, err)` and the result
afterwards. -/
def Result.Summary (result : Result) :
    Option ((Option ResultSummary × Option GoError) × Result) :=
  match awaitResult result.runner.replies result with
  | none => none
  | some (r, some e) => some ((none, some e), r)
  | some (r, none) => some ((some r.summary, none), r)

/-- Method `Result.Consume`: the returned pair `(summary, err)` and the result
afterwards. -/
def Result.Consume (result : Result) :
    Option ((Option ResultSummary × Option GoError) × Result) :=
  match awaitResult result.runner.replies result with
  | none => none
  | some (r, some e) => some ((none, some e), r)
  | some (r, none) => some ((some r.summary, none), r)

/-! ## Go values -/

/-- The kinds of `reflect.Kind`. -/
inductive GoKind where
  | invalid | bool
  | int | int8 | int16 | int32 | int64
  | uint | uint8 | uint16 | uint32 | uint64 | uintptr
  | float32 | float64 | complex64 | complex128
  | array | chan | func | interface | map | ptr | slice | string | struct
  | unsafePointer
deriving DecidableEq, Repr

/-- The signed integer types. -/
inductive IntWidth where
  | int | int8 | int16 | int32 | int64
deriving DecidableEq, Repr

/-- The unsigned integer types the kind switch of `packX` lists. -/
inductive UintWidth where
  | uint | uint8 | uint16 | uint32 | uint64
deriving DecidableEq, Repr

/-- The floating-point types. -/
inductive FloatWidth where
  | float32 | float64
deriving DecidableEq, Repr

/-- The seven types of package `dbtype` with a `SerializeNeo4j` method. -/
inductive DbType where
  | point2D | point3D | date | time | localTime | localDateTime | duration
deriving DecidableEq, Repr

/-- Run-time types (`reflect.Type`), as far as `packX` distinguishes them. -/
inductive GoType where
  | bool
  | int (w : IntWidth)
  | uint (w : UintWidth)
  | uintptr
  | float (w : FloatWidth)
  | complex64
  | complex128
  | string
  | unsafePointer
  /-- The empty interface, as the element type of a slice, map or pointer. -/
  | any
  | ptr (elem : GoType)
  | slice (elem : GoType)
  | array (len : Nat) (elem : GoType)
  | map (key : GoType) (elem : GoType)
  | chan (elem : GoType)
  | func (signature : String)
  /-- A struct type without a `SerializeNeo4j` method, by its name. -/
  | struct (name : String)
  /-- One of the types of package `dbtype`. -/
  | dbtype (t : DbType)
  /-- A declared type without a `SerializeNeo4j` method. -/
  | named (name : String) (underlying : GoType)
  /-- A declared type of the caller with a value-receiver `SerializeNeo4j`
  method, of the given kind. -/
  | serializer (name : String) (kind : GoKind)
deriving DecidableEq, Repr

/-- Method `reflect.Type.Kind`. -/
def GoType.kind : GoType → GoKind
  | GoType.bool => GoKind.bool
  | GoType.int IntWidth.int => GoKind.int
  | GoType.int IntWidth.int8 => GoKind.int8
  | GoType.int IntWidth.int16 => GoKind.int16
  | GoType.int IntWidth.int32 => GoKind.int32
  | GoType.int IntWidth.int64 => GoKind.int64
  | GoType.uint UintWidth.uint => GoKind.uint
  | GoType.uint UintWidth.uint8 => GoKind.uint8
  | GoType.uint UintWidth.uint16 => GoKind.uint16
  | GoType.uint UintWidth.uint32 => GoKind.uint32
  | GoType.uint UintWidth.uint64 => GoKind.uint64
  | GoType.uintptr => GoKind.uintptr
  | GoType.float FloatWidth.float32 => GoKind.float32
  | GoType.float FloatWidth.float64 => GoKind.float64
  | GoType.complex64 => GoKind.complex64
  | GoType.complex128 => GoKind.complex128
  | GoType.string => GoKind.string
  | GoType.unsafePointer => GoKind.unsafePointer
  | GoType.any => GoKind.interface
  | GoType.ptr _ => GoKind.ptr
  | GoType.slice _ => GoKind.slice
  | GoType.array _ _ => GoKind.array
  | GoType.map _ _ => GoKind.map
  | GoType.chan _ => GoKind.chan
  | GoType.func _ => GoKind.func
  | GoType.struct _ => GoKind.struct
  | GoType.dbtype _ => GoKind.struct
  | GoType.named _ u => u.kind
  | GoType.serializer _ k => k

/-- Whether the type declares `SerializeNeo4j` with a value receiver, so that
the method is in the method set of the type and of the pointer to it. -/
def GoType.declaresSerializeNeo4j : GoType → Bool
  | GoType.dbtype _ => true
  | GoType.serializer _ _ => true
  | _ => false

/-- A `float32` or `float64` value by the number it stands for,
`(-1)^neg * mantissa * 2^exponent`, an infinity or a NaN. Every `float32` is
exactly a `float64`, so the conversion `float64(f)` keeps the number. -/
inductive GoFloat where
  | finite (neg : Bool) (mantissa : Nat) (exponent : Int)
  | inf (neg : Bool)
  | nan
deriving DecidableEq, Repr

/-- A `time.Time` without monotonic clock reading: the seconds since the Unix
epoch that `Unix()` returns (an `int64`), the nanosecond within the second, and
the offset east of UTC, in seconds, of its location. The location is a zone of
fixed offset. -/
structure GoTime where
  unix : Int
  nsec : Nat
  offset : Int
deriving DecidableEq, Repr

/-- Conversion to `int64` of an integer result (two's complement wrap-around). -/
def wrapInt64 (x : Int) : Int := (x + 2 ^ 63) % 2 ^ 64 - 2 ^ 63

/-- Method `Time.Unix`. -/
def GoTime.Unix (t : GoTime) : Int := t.unix

/-- The offset returned by method `Time.Zone`. -/
def GoTime.Zone (t : GoTime) : Int := t.offset

/-- Method `Time.Nanosecond`. -/
def GoTime.Nanosecond (t : GoTime) : Int := t.nsec

/-- Constant `unixToInternal` of package `time`: the seconds from January 1 of
year 1, the zero of the seconds a `time.Time` holds, to the Unix epoch. -/
def unixToInternal : Int := 62135596800

/-- The sum `unixToInternal + internalToAbsolute` of package `time`: the
seconds from the absolute zero of the package, January 1 of year
-292277022399, to the Unix epoch. It is 106751991073094 days. -/
def unixToAbsolute : Int := 9223372028715321600

/-- Method `Time.sec`: the seconds since January 1 of year 1 that the value
holds, an `int64`. -/
def GoTime.sec (t : GoTime) : Int := wrapInt64 (t.unix + unixToInternal)

/-- Method `Time.abs`: the seconds of the wall clock since the absolute zero,
a `uint64`. The sum wraps around: a wall clock before the absolute zero reads
as a time two to the 64 seconds later. -/
def GoTime.abs (t : GoTime) : Int := (t.unix + t.offset + unixToAbsolute) % 2 ^ 64

/-- Method `Time.Hour`: `int(abs % secondsPerDay) / secondsPerHour`. -/
def GoTime.Hour (t : GoTime) : Int := t.abs % 86400 / 3600

/-- Method `Time.Minute`: `int(abs % secondsPerHour) / secondsPerMinute`. -/
def GoTime.Minute (t : GoTime) : Int := t.abs % 3600 / 60

/-- Method `Time.Second`: `int(abs % secondsPerMinute)`. -/
def GoTime.Second (t : GoTime) : Int := t.abs % 60

/-- The civil date `(year, month, day)` of a day number counted from
1970-01-01, in the proleptic Gregorian calendar. -/
def civilFromDays (z : Int) : Int × Int × Int :=
  let z1 := z + 719468
  let era := z1 / 146097
  let doe := z1 - era * 146097
  let yoe := (doe - doe / 1460 + doe / 36524 - doe / 146096) / 365
  let doy := doe - (365 * yoe + yoe / 4 - yoe / 100)
  let mp := (5 * doy + 2) / 153
  let d := doy - (153 * mp + 2) / 5 + 1
  let m := if mp < 10 then mp + 3 else mp - 9
  let y := yoe + era * 400
  (if m ≤ 2 then y + 1 else y, m, d)

/-- The day number, counted from 1970-01-01, of a civil date. -/
def daysFromCivil (y m d : Int) : Int :=
  let y1 := if m ≤ 2 then y - 1 else y
  let era := y1 / 400
  let yoe := y1 - era * 400
  let doy := (153 * (if m > 2 then m - 3 else m + 9) + 2) / 5 + d - 1
  let doe := yoe * 365 + yoe / 4 - yoe / 100 + doy
  era * 146097 + doe - 719468

/-- Methods `Time.Year`, `Time.Month` and `Time.Day` together: the civil date
of the day `abs / secondsPerDay`, counted from the absolute zero. -/
def GoTime.civil (t : GoTime) : Int × Int × Int :=
  civilFromDays (t.abs / 86400 - unixToAbsolute / 86400)

/-- The call `time.Date(year, month, day, 0, 0, 0, 0, loc)` for the location of
offset `offset` and a date of the calendar: the seconds of that midnight are
computed in `uint64` and `int64`, so they wrap around. -/
def GoTime.midnight (year month day offset : Int) : GoTime :=
  { unix := wrapInt64 (daysFromCivil year month day * 86400 - offset), nsec := 0,
    offset := offset }

/-- Method `Time.Sub` followed by `Duration.Nanoseconds`: the difference of the
two instants in nanoseconds, held at the least or greatest `int64` when out of
range. The instants are compared by the seconds they hold (`Time.sec`). -/
def GoTime.subNanoseconds (t u : GoTime) : Int :=
  let d := (t.sec - u.sec) * 1000000000 + ((t.nsec : Int) - (u.nsec : Int))
  if d < -(2 ^ 63) then -(2 ^ 63) else if d > 2 ^ 63 - 1 then 2 ^ 63 - 1 else d

/-! ## neo4j/packstream/packstream.go and the internal packer -/

/-- One call of a value-writing method of the packer. The first nineteen are
the methods of interface `packstream.Packer`; the remaining seven are the
methods of the internal packer that `outgoing.go` calls besides. -/
inductive PackCall where
  | nil
  | bool (b : Bool)
  | int (i : Int)
  | int8 (i : Int)
  | int16 (i : Int)
  | int32 (i : Int)
  | int64 (i : Int)
  | uint (i : Nat)
  | uint8 (i : Nat)
  | uint16 (i : Nat)
  | uint32 (i : Nat)
  | uint64 (i : Nat)
  | float32 (f : GoFloat)
  | float64 (f : GoFloat)
  | string (s : String)
  | bytes (b : List Nat)
  | mapHeader (l : Nat)
  | arrayHeader (l : Nat)
  | structHeader (tag : Nat) (num : Nat)
  | ints (s : List Int)
  | int64s (s : List Int)
  | strings (s : List String)
  | float64s (s : List GoFloat)
  | intMap (m : List (String × Int))
  | stringMap (m : List (String × String))
  | time (t : GoTime)
deriving DecidableEq, Repr

/-! ## neo4j/dbtype -/

/-- Struct `Point2D`. -/
structure Point2D where
  X : GoFloat
  Y : GoFloat
  SpatialRefId : Nat
deriving DecidableEq, Repr

/-- Struct `Point3D`. -/
structure Point3D where
  X : GoFloat
  Y : GoFloat
  Z : GoFloat
  SpatialRefId : Nat
deriving DecidableEq, Repr

/-- Struct `Duration`. -/
structure Duration where
  Months : Int
  Days : Int
  Seconds : Int
  Nanos : Int
deriving DecidableEq, Repr

/-- Method `Point2D.SerializeNeo4j`: the calls it makes on the packer. -/
def Point2D.SerializeNeo4j (p : Point2D) : List PackCall :=
  [PackCall.structHeader 'X'.toNat 3,
   PackCall.uint32 p.SpatialRefId,
   PackCall.float64 p.X,
   PackCall.float64 p.Y]

/-- Method `Point3D.SerializeNeo4j`. -/
def Point3D.SerializeNeo4j (p : Point3D) : List PackCall :=
  [PackCall.structHeader 'Y'.toNat 4,
   PackCall.uint32 p.SpatialRefId,
   PackCall.float64 p.X,
   PackCall.float64 p.Y,
   PackCall.float64 p.Z]

/-- Method `LocalDateTime.SerializeNeo4j`. -/
def LocalDateTime.SerializeNeo4j (tt : GoTime) : List PackCall :=
  let offset := tt.Zone
  let secs := wrapInt64 (tt.Unix + offset)
  [PackCall.structHeader 'd'.toNat 2,
   PackCall.int64 secs,
   PackCall.int tt.Nanosecond]

/-- Method `LocalTime.SerializeNeo4j`. -/
def LocalTime.SerializeNeo4j (tt : GoTime) : List PackCall :=
  let nanos := wrapInt64 (3600000000000 * tt.Hour + 60000000000 * tt.Minute
    + 1000000000 * tt.Second + tt.Nanosecond)
  [PackCall.structHeader 't'.toNat 1,
   PackCall.int64 nanos]

/-- Method `Date.SerializeNeo4j`; the division of Go truncates toward zero. -/
def Date.SerializeNeo4j (tt : GoTime) : List PackCall :=
  let secs := tt.Unix
  let offset := tt.Zone
  let secs := wrapInt64 (secs + offset)
  let days := Int.tdiv secs (60 * 60 * 24)
  [PackCall.structHeader 'D'.toNat 1,
   PackCall.int64 days]

/-- Method `Time.SerializeNeo4j`. -/
def Time.SerializeNeo4j (tt : GoTime) : List PackCall :=
  let tzOffsetSecs := tt.Zone
  let d := tt.subNanoseconds
    (GoTime.midnight tt.civil.1 tt.civil.2.1 tt.civil.2.2 tt.offset)
  [PackCall.structHeader 'T'.toNat 2,
   PackCall.int64 d,
   PackCall.int tzOffsetSecs]

/-- Method `Duration.SerializeNeo4j`. -/
def Duration.SerializeNeo4j (d : Duration) : List PackCall :=
  [PackCall.structHeader 'E'.toNat 4,
   PackCall.int64 d.Months,
   PackCall.int64 d.Days,
   PackCall.int64 d.Seconds,
   PackCall.int d.Nanos]

/-- A value of one of the seven serializable types of package `dbtype`. -/
inductive DbValue where
  | point2D (p : Point2D)
  | point3D (p : Point3D)
  | date (t : GoTime)
  | time (t : GoTime)
  | localTime (t : GoTime)
  | localDateTime (t : GoTime)
  | duration (d : Duration)
deriving DecidableEq, Repr

/-- The type of a `dbtype` value. -/
def DbValue.type : DbValue → DbType
  | DbValue.point2D _ => DbType.point2D
  | DbValue.point3D _ => DbType.point3D
  | DbValue.date _ => DbType.date
  | DbValue.time _ => DbType.time
  | DbValue.localTime _ => DbType.localTime
  | DbValue.localDateTime _ => DbType.localDateTime
  | DbValue.duration _ => DbType.duration

/-- Dynamic dispatch of `SerializeNeo4j` on a `dbtype` value. -/
def DbValue.SerializeNeo4j : DbValue → List PackCall
  | DbValue.point2D p => p.SerializeNeo4j
  | DbValue.point3D p => p.SerializeNeo4j
  | DbValue.date t => Date.SerializeNeo4j t
  | DbValue.time t => Time.SerializeNeo4j t
  | DbValue.localTime t => LocalTime.SerializeNeo4j t
  | DbValue.localDateTime t => LocalDateTime.SerializeNeo4j t
  | DbValue.duration d => d.SerializeNeo4j

/-! ## Values of type `any` handed to `packX` -/

/-- A value of type `any`, as `packX` can tell values apart. `name` is the name
of the declared type of the value, `none` for the predeclared or unnamed type.
The constructors `bytes` to `anys` and `intMap` to `anyMap` are the slice and
map types singled out by the type switches of `packX`; `slice` and `map` stand
for values of every other slice or map type. -/
inductive GoValue where
  /-- The nil interface value. -/
  | nil
  | bool (name : Option String) (b : Bool)
  | int (name : Option String) (w : IntWidth) (i : Int)
  | uint (name : Option String) (w : UintWidth) (n : Nat)
  | float (name : Option String) (w : FloatWidth) (f : GoFloat)
  | string (name : Option String) (s : String)
  /-- A nil pointer of type `*elem`. -/
  | nilPtr (elem : GoType)
  /-- A non-nil pointer and the value it points to. -/
  | ptrTo (target : GoValue)
  /-- A `time.Time`. -/
  | time (t : GoTime)
  /-- A value of a struct type other than `time.Time` that has no
  `SerializeNeo4j` method. -/
  | struct (name : String)
  /-- A value of one of the serializable types of package `dbtype`. -/
  | dbtype (d : DbValue)
  /-- A value of a type of the caller, of kind `kind`, whose value-receiver
  method `SerializeNeo4j` makes the calls `calls` on the packer. -/
  | custom (name : String) (kind : GoKind) (calls : List PackCall)
  | bytes (s : List Nat)
  | ints (s : List Int)
  | int64s (s : List Int)
  | strings (s : List String)
  | float64s (s : List GoFloat)
  | anys (s : List GoValue)
  | slice (name : Option String) (elem : GoType) (s : List GoValue)
  | intMap (m : List (String × Int))
  | stringMap (m : List (String × String))
  | anyMap (m : List (String × GoValue))
  /-- A map of another type, in the order `MapRange` visits it; each key is
  given by what `Key().String()` returns. -/
  | map (name : Option String) (key : GoType) (elem : GoType) (m : List (String × GoValue))
  /-- A value of a kind the switch of `packX` does not list: `uintptr`, a
  complex number, an array, a channel, a function, an `unsafe.Pointer`. -/
  | other (t : GoType)

/-- Wraps a type in the declared name of the value, if it has one. -/
def withName (name : Option String) (t : GoType) : GoType :=
  match name with
  | some n => GoType.named n t
  | none => t

/-- Function `reflect.TypeOf`; `none` for the nil interface. -/
def GoValue.typeOf : GoValue → Option GoType
  | GoValue.nil => none
  | GoValue.bool name _ => some (withName name GoType.bool)
  | GoValue.int name w _ => some (withName name (GoType.int w))
  | GoValue.uint name w _ => some (withName name (GoType.uint w))
  | GoValue.float name w _ => some (withName name (GoType.float w))
  | GoValue.string name _ => some (withName name GoType.string)
  | GoValue.nilPtr elem => some (GoType.ptr elem)
  | GoValue.ptrTo target =>
      match target.typeOf with
      | some t => some (GoType.ptr t)
      | none => some (GoType.ptr GoType.any)
  | GoValue.time _ => some (GoType.struct "time.Time")
  | GoValue.struct name => some (GoType.struct name)
  | GoValue.dbtype d => some (GoType.dbtype d.type)
  | GoValue.custom name kind _ => some (GoType.serializer name kind)
  | GoValue.bytes _ => some (GoType.slice (GoType.uint UintWidth.uint8))
  | GoValue.ints _ => some (GoType.slice (GoType.int IntWidth.int))
  | GoValue.int64s _ => some (GoType.slice (GoType.int IntWidth.int64))
  | GoValue.strings _ => some (GoType.slice GoType.string)
  | GoValue.float64s _ => some (GoType.slice (GoType.float FloatWidth.float64))
  | GoValue.anys _ => some (GoType.slice GoType.any)
  | GoValue.slice name elem _ => some (withName name (GoType.slice elem))
  | GoValue.intMap _ => some (GoType.map GoType.string (GoType.int IntWidth.int))
  | GoValue.stringMap _ => some (GoType.map GoType.string GoType.string)
  | GoValue.anyMap _ => some (GoType.map GoType.string GoType.any)
  | GoValue.map name key elem _ => some (withName name (GoType.map key elem))
  | GoValue.other t => some t

/-- The calls of the value-receiver method `SerializeNeo4j` declared by the
type of the value, `none` when the type declares no such method. -/
def GoValue.declaredSerializeNeo4j : GoValue → Option (List PackCall)
  | GoValue.dbtype d => some d.SerializeNeo4j
  | GoValue.custom _ _ calls => some calls
  | _ => none

/-! ## neo4j/internal/bolt/outgoing.go -/

/-- An encode error handed to `onPackErr`: an `UnsupportedTypeError` with its
`Type` field, or the error returned by `packer.End`. -/
inductive PackError where
  | unsupportedType (type : Option GoType)
  | packer (message : String)
deriving DecidableEq, Repr

/-- What `outgoing` does to its collaborators, in the order it does it. -/
inductive Event where
  /-- A call `boltLogger.LogClientMessage(logId, format, ...)`. -/
  | logClientMessage (format : String)
  /-- A call `chunker.beginMessage()`. -/
  | beginMessage
  /-- A call `packer.Begin(buf)`. -/
  | packerBegin
  /-- A call of a value-writing method of the packer. -/
  | pack (c : PackCall)
  /-- A call `packer.End()`. -/
  | packerEnd
  /-- A call `chunker.endMessage()`. -/
  | endMessage
  /-- A call `onPackErr(err)`. -/
  | onPackErr (err : PackError)
  /-- A call `chunker.send(ctx, wr)`. -/
  | send
  /-- A call `onIoErr(ctx, err)`. -/
  | onIoErr (err : GoError)
deriving DecidableEq, Repr

/-- What a piece of code did: the events in order, and whether it stopped in a
run-time panic instead of returning. -/
structure Trace where
  events : List Event := []
  panicked : Bool := false
deriving DecidableEq, Repr

/-- The trace of one event. -/
def Trace.emit (e : Event) : Trace := { events := [e] }

/-- The trace of one packer call. -/
def Trace.call (c : PackCall) : Trace := Trace.emit (Event.pack c)

/-- The trace of a sequence of packer calls. -/
def Trace.calls (cs : List PackCall) : Trace := { events := cs.map Event.pack }

/-- The trace of a panic. -/
def Trace.panic : Trace := { events := [], panicked := true }

/-- Sequential composition: `b` runs after `a` unless `a` panicked. -/
def Trace.andThen (a b : Trace) : Trace :=
  if a.panicked then a else { events := a.events ++ b.events, panicked := b.panicked }

/-- The packer calls among the events. -/
def packCalls : List Event → List PackCall
  | [] => []
  | Event.pack c :: rest => c :: packCalls rest
  | _ :: rest => packCalls rest

/-- The errors handed to `onPackErr` among the events. -/
def packErrors : List Event → List PackError
  | [] => []
  | Event.onPackErr e :: rest => e :: packErrors rest
  | _ :: rest => packErrors rest

mutual
/-- Method `outgoing.packX`, with `outgoing.packStruct` inlined in the cases
`time` and `struct`. -/
def packX : GoValue → Trace
  -- if x == nil
  | GoValue.nil => Trace.call PackCall.nil
  -- if v, ok := x.(interface{ SerializeNeo4j(Packer) }); ok
  | GoValue.dbtype d => Trace.calls d.SerializeNeo4j
  | GoValue.custom _ _ calls => Trace.calls calls
  -- switch v.Kind()
  | GoValue.bool _ b => Trace.call (PackCall.bool b)
  | GoValue.int _ _ i => Trace.call (PackCall.int64 i)
  | GoValue.uint _ UintWidth.uint8 n => Trace.call (PackCall.uint32 (n % 2 ^ 32))
  | GoValue.uint _ UintWidth.uint16 n => Trace.call (PackCall.uint32 (n % 2 ^ 32))
  | GoValue.uint _ UintWidth.uint32 n => Trace.call (PackCall.uint32 (n % 2 ^ 32))
  | GoValue.uint _ UintWidth.uint64 n => Trace.call (PackCall.uint64 n)
  | GoValue.uint _ UintWidth.uint n => Trace.call (PackCall.uint64 n)
  | GoValue.float _ _ f => Trace.call (PackCall.float64 f)
  | GoValue.string _ s => Trace.call (PackCall.string s)
  | GoValue.nilPtr elem =>
      -- the method set of `*elem` holds the value-receiver methods of `elem`;
      -- calling one through a nil pointer panics
      if elem.declaresSerializeNeo4j then Trace.panic
      else Trace.call PackCall.nil
  | GoValue.ptrTo target =>
      match target.declaredSerializeNeo4j with
      | some calls => Trace.calls calls
      | none => packX target
  | GoValue.time t => Trace.call (PackCall.time t)
  | GoValue.struct name =>
      Trace.emit (Event.onPackErr (PackError.unsupportedType (some (GoType.struct name))))
  | GoValue.bytes s => Trace.call (PackCall.bytes s)
  | GoValue.ints s => Trace.call (PackCall.ints s)
  | GoValue.int64s s => Trace.call (PackCall.int64s s)
  | GoValue.strings s => Trace.call (PackCall.strings s)
  | GoValue.float64s s => Trace.call (PackCall.float64s s)
  | GoValue.anys s => (Trace.call (PackCall.arrayHeader s.length)).andThen (packXs s)
  | GoValue.slice _ _ s => (Trace.call (PackCall.arrayHeader s.length)).andThen (packXs s)
  | GoValue.intMap m => Trace.call (PackCall.intMap m)
  | GoValue.stringMap m => Trace.call (PackCall.stringMap m)
  | GoValue.anyMap m => (Trace.call (PackCall.mapHeader m.length)).andThen (packEntries m)
  | GoValue.map name key elem m =>
      if key.kind ≠ GoKind.string then
        Trace.emit (Event.onPackErr
          (PackError.unsupportedType (some (withName name (GoType.map key elem)))))
      else (Trace.call (PackCall.mapHeader m.length)).andThen (packEntries m)
  | GoValue.other t => Trace.emit (Event.onPackErr (PackError.unsupportedType (some t)))
/-- The loop `for _, e := range s { o.packX(e) }`. -/
def packXs : List GoValue → Trace
  | [] => {}
  | e :: rest => (packX e).andThen (packXs rest)
/-- The loop `for k, v := range m { o.packer.String(k); o.packX(v) }`, over
the entries in the order the range visits them. -/
def packEntries : List (String × GoValue) → Trace
  | [] => {}
  | (k, v) :: rest =>
      ((Trace.call (PackCall.string k)).andThen (packX v)).andThen (packEntries rest)
end

/-- Method `outgoing.packMap`, over the entries of `m` in the order the range
visits them. -/
def packMap (m : List (String × GoValue)) : Trace :=
  (Trace.call (PackCall.mapHeader m.length)).andThen (packEntries m)

/-- The constants `outgoing.go` takes from files that are not among the
sources: the message tags and `idb.DefaultDatabase`. -/
structure Constants where
  msgHello : Nat
  msgLogon : Nat
  msgLogoff : Nat
  msgBegin : Nat
  msgCommit : Nat
  msgRollback : Nat
  msgRun : Nat
  msgPullN : Nat
  msgDiscardN : Nat
  msgPullAll : Nat
  msgRoute : Nat
  msgReset : Nat
  msgGoodbye : Nat
  msgTelemetry : Nat
  DefaultDatabase : String

/-- The struct `outgoing` together with what it has done so far.
`boltLogger` tells whether a logger is set. `packer` is the state of the
internal packer: the calls written since `Begin`. `packerErr` is the error
`packer.End` returns for the calls written (the internal packer is not among
the sources), `sendErr` the error `chunker.send` returns. -/
structure Outgoing where
  boltLogger : Bool := false
  packerErr : List PackCall → Option PackError := fun _ => none
  sendErr : Option GoError := none
  packer : List PackCall := []
  events : List Event := []
  panicked : Bool := false

/-- Runs a piece of code on `o`: its events are appended and its packer calls
written, unless a panic has already unwound the stack. -/
def Outgoing.run (o : Outgoing) (t : Trace) : Outgoing :=
  if o.panicked then o
  else { o with
    events := o.events ++ t.events
    packer := o.packer ++ packCalls t.events
    panicked := t.panicked }

/-- The guarded call `if o.boltLogger != nil { o.boltLogger.LogClientMessage(...) }`. -/
def Outgoing.logClientMessage (o : Outgoing) (format : String) : Outgoing :=
  if o.boltLogger then o.run (Trace.emit (Event.logClientMessage format)) else o

/-- Method `outgoing.begin`. -/
def Outgoing.begin (o : Outgoing) : Outgoing :=
  if o.panicked then o
  else { o with events := o.events ++ [Event.beginMessage, Event.packerBegin], packer := [] }

/-- Method `outgoing.end`. -/
def Outgoing.end' (o : Outgoing) : Outgoing :=
  if o.panicked then o
  else
    let err := o.packerErr o.packer
    let o1 := { o with events := o.events ++ [Event.packerEnd, Event.endMessage] }
    match err with
    | some e => { o1 with events := o1.events ++ [Event.onPackErr e] }
    | none => o1

/-- A call `o.packer.M(...)` of a value-writing packer method. -/
def Outgoing.pack (o : Outgoing) (c : PackCall) : Outgoing := o.run (Trace.call c)

/-- The loop `for k, v := range context { o.packer.String(k); o.packer.String(v) }`. -/
def stringEntryCalls : List (String × String) → List PackCall
  | [] => []
  | (k, v) :: rest => PackCall.string k :: PackCall.string v :: stringEntryCalls rest

/-- The loop `for _, bookmark := range bookmarks { o.packer.String(bookmark) }`. -/
def stringCalls : List String → List PackCall
  | [] => []
  | b :: rest => PackCall.string b :: stringCalls rest

/-- Method `outgoing.appendHello`. -/
def Outgoing.appendHello (c : Constants) (o : Outgoing) (hello : List (String × GoValue)) :
    Outgoing :=
  (((((o.logClientMessage "HELLO %s").begin).pack (PackCall.structHeader c.msgHello 1)).run
    (packMap hello))).end'

/-- Method `outgoing.appendLogoff`. -/
def Outgoing.appendLogoff (c : Constants) (o : Outgoing) : Outgoing :=
  (((o.logClientMessage "LOGOFF").begin).pack (PackCall.structHeader c.msgLogoff 0)).end'

/-- Method `outgoing.appendLogon`. -/
def Outgoing.appendLogon (c : Constants) (o : Outgoing) (logon : List (String × GoValue)) :
    Outgoing :=
  (((((o.logClientMessage "LOGON %s").begin).pack (PackCall.structHeader c.msgLogon 1)).run
    (packMap logon))).end'

/-- Method `outgoing.appendBegin`. -/
def Outgoing.appendBegin (c : Constants) (o : Outgoing) (metadata : List (String × GoValue)) :
    Outgoing :=
  (((((o.logClientMessage "BEGIN %s").begin).pack (PackCall.structHeader c.msgBegin 1)).run
    (packMap metadata))).end'

/-- Method `outgoing.appendCommit`. -/
def Outgoing.appendCommit (c : Constants) (o : Outgoing) : Outgoing :=
  (((o.logClientMessage "COMMIT").begin).pack (PackCall.structHeader c.msgCommit 0)).end'

/-- Method `outgoing.appendRollback`. -/
def Outgoing.appendRollback (c : Constants) (o : Outgoing) : Outgoing :=
  (((o.logClientMessage "ROLLBACK").begin).pack (PackCall.structHeader c.msgRollback 0)).end'

/-- Method `outgoing.appendRun`. -/
def Outgoing.appendRun (c : Constants) (o : Outgoing) (cypher : String)
    (params metadata : List (String × GoValue)) : Outgoing :=
  (((((((o.logClientMessage "RUN %q %s %s").begin).pack (PackCall.structHeader c.msgRun 3)).pack
    (PackCall.string cypher)).run (packMap params)).run (packMap metadata))).end'

/-- Method `outgoing.appendPullN`. -/
def Outgoing.appendPullN (c : Constants) (o : Outgoing) (n : Int) : Outgoing :=
  ((((((o.logClientMessage "PULL %s").begin).pack (PackCall.structHeader c.msgPullN 1)).pack
    (PackCall.mapHeader 1)).pack (PackCall.string "n")).pack (PackCall.int n)).end'

/-- Method `outgoing.appendPullNQid`. -/
def Outgoing.appendPullNQid (c : Constants) (o : Outgoing) (n : Int) (qid : Int) : Outgoing :=
  ((((((((o.logClientMessage "PULL %s").begin).pack (PackCall.structHeader c.msgPullN 1)).pack
    (PackCall.mapHeader 2)).pack (PackCall.string "n")).pack (PackCall.int n)).pack
    (PackCall.string "qid")).pack (PackCall.int64 qid)).end'

/-- Method `outgoing.appendDiscardN`. -/
def Outgoing.appendDiscardN (c : Constants) (o : Outgoing) (n : Int) : Outgoing :=
  ((((((o.logClientMessage "DISCARD %s").begin).pack (PackCall.structHeader c.msgDiscardN 1)).pack
    (PackCall.mapHeader 1)).pack (PackCall.string "n")).pack (PackCall.int n)).end'

/-- Method `outgoing.appendDiscardNQid`. -/
def Outgoing.appendDiscardNQid (c : Constants) (o : Outgoing) (n : Int) (qid : Int) : Outgoing :=
  ((((((((o.logClientMessage "DISCARD %s").begin).pack
    (PackCall.structHeader c.msgDiscardN 1)).pack
    (PackCall.mapHeader 2)).pack (PackCall.string "n")).pack (PackCall.int n)).pack
    (PackCall.string "qid")).pack (PackCall.int64 qid)).end'

/-- Method `outgoing.appendPullAll`. -/
def Outgoing.appendPullAll (c : Constants) (o : Outgoing) : Outgoing :=
  (((o.logClientMessage "PULL ALL").begin).pack (PackCall.structHeader c.msgPullAll 0)).end'

/-- Method `outgoing.appendRouteToV43`. -/
def Outgoing.appendRouteToV43 (c : Constants) (o : Outgoing) (context : List (String × String))
    (bookmarks : List String) (database : String) : Outgoing :=
  ((((((((o.logClientMessage "ROUTE %s %s %q").begin).pack
    (PackCall.structHeader c.msgRoute 3)).pack
    (PackCall.mapHeader context.length)).run (Trace.calls (stringEntryCalls context))).pack
    (PackCall.arrayHeader bookmarks.length)).run (Trace.calls (stringCalls bookmarks))).pack
    (if database = c.DefaultDatabase then PackCall.nil else PackCall.string database)).end'

/-- Method `outgoing.appendRoute`. -/
def Outgoing.appendRoute (c : Constants) (o : Outgoing) (context : List (String × String))
    (bookmarks : List String) (what : List (String × GoValue)) : Outgoing :=
  ((((((((o.logClientMessage "ROUTE %s %s %s").begin).pack
    (PackCall.structHeader c.msgRoute 3)).pack
    (PackCall.mapHeader context.length)).run (Trace.calls (stringEntryCalls context))).pack
    (PackCall.arrayHeader bookmarks.length)).run (Trace.calls (stringCalls bookmarks))).run
    (packMap what)).end'

/-- Method `outgoing.appendReset`. -/
def Outgoing.appendReset (c : Constants) (o : Outgoing) : Outgoing :=
  (((o.logClientMessage "RESET").begin).pack (PackCall.structHeader c.msgReset 0)).end'

/-- Method `outgoing.appendGoodbye`. -/
def Outgoing.appendGoodbye (c : Constants) (o : Outgoing) : Outgoing :=
  (((o.logClientMessage "GOODBYE").begin).pack (PackCall.structHeader c.msgGoodbye 0)).end'

/-- Method `outgoing.appendTelemetry`. -/
def Outgoing.appendTelemetry (c : Constants) (o : Outgoing) (api : Int) : Outgoing :=
  ((((o.logClientMessage "TELEMETRY %d").begin).pack
    (PackCall.structHeader c.msgTelemetry 1)).pack (PackCall.int api)).end'

/-- Method `outgoing.appendX`. -/
def Outgoing.appendX (o : Outgoing) (tag : Nat) (fields : List GoValue) : Outgoing :=
  (((o.begin).pack (PackCall.structHeader tag fields.length)).run (packXs fields)).end'

/-- Method `outgoing.send`. -/
def Outgoing.send (o : Outgoing) : Outgoing :=
  if o.panicked then o
  else
    match o.sendErr with
    | some err => { o with events := o.events ++ [Event.send, Event.onIoErr err] }
    | none => { o with events := o.events ++ [Event.send] }

/-! ## Wire values, as sequences of packer calls -/

/-- What a reader of the packed stream expects next: a value, or the string
key of a map entry. -/
inductive Expect where
  | value
  | key
deriving DecidableEq, Repr

/-- The expectations `n` map entries open: a string key and a value each. -/
def entryExpect : Nat → List Expect
  | 0 => []
  | n + 1 => Expect.key :: Expect.value :: entryExpect n

/-- What a packer call leaves to be written after it: `ArrayHeader(n)` and
`StructHeader(tag, n)` announce `n` values, `MapHeader(n)` announces `n`
entries; every other call writes a whole value by itself. -/
def PackCall.opens : PackCall → List Expect
  | PackCall.arrayHeader l => List.replicate l Expect.value
  | PackCall.structHeader _ num => List.replicate num Expect.value
  | PackCall.mapHeader l => entryExpect l
  | _ => []

/-- Reads a sequence of packer calls against the expectations `todo` and
returns what is still expected at its end; `none` when a call comes that
nothing announced, or a map key is not written by `String`. -/
def remaining : List Expect → List PackCall → Option (List Expect)
  | todo, [] => some todo
  | [], _ :: _ => none
  | Expect.key :: todo, c :: cs =>
      match c with
      | PackCall.string _ => remaining todo cs
      | _ => none
  | Expect.value :: todo, c :: cs => remaining (c.opens ++ todo) cs

/-- The calls are exactly `k` complete wire values, one after the other: every
announced count is matched by what follows, and nothing is left over. -/
def completeValues (k : Nat) (calls : List PackCall) : Prop :=
  remaining (List.replicate k Expect.value) calls = some []

/-- The calls of interface `Packer` that write a value without fields of its
own, that is all but the three headers. -/
def PackCall.isScalar : PackCall → Bool
  | PackCall.nil => true
  | PackCall.bool _ => true
  | PackCall.int _ => true
  | PackCall.int8 _ => true
  | PackCall.int16 _ => true
  | PackCall.int32 _ => true
  | PackCall.int64 _ => true
  | PackCall.uint _ => true
  | PackCall.uint8 _ => true
  | PackCall.uint16 _ => true
  | PackCall.uint32 _ => true
  | PackCall.uint64 _ => true
  | PackCall.float32 _ => true
  | PackCall.float64 _ => true
  | PackCall.string _ => true
  | PackCall.bytes _ => true
  | _ => false

/-! ## Sequences of cursor calls -/

/-- Calls `collectRecord` with each of the field lists in turn. -/
def Result.collectRecords (result : Result) : List (List Val) → Result
  | [] => result
  | f :: rest => (result.collectRecord (some f)).collectRecords rest

/-- Calls `Next` `n` times in a row and lists, for each call, the boolean it
returned and what `Record()` gives right after it. -/
def Result.nextCalls : Nat → Result → Option (List (Bool × Option Neo4j.Record) × Result)
  | 0, result => some ([], result)
  | n + 1, result =>
      match result.Next with
      | none => none
      | some (b, r1) =>
          match Result.nextCalls n r1 with
          | none => none
          | some (outs, r2) => some ((b, r1.Record) :: outs, r2)

/-! ## Concrete inputs -/

/-- A result with the error `"boom"` latched after its run was acknowledged,
on a connection that still holds one record. -/
def latchedResult : Result :=
  { keys := ["n"], err := some "boom", runCompleted := true,
    runner := { replies := [Reply.record (some [Val.int64 1])] } }

/-- A completed result with one record still queued. -/
def queuedResult : Result :=
  { keys := ["n"], runCompleted := true, resultCompleted := true,
    records := [{ keys := ["n"], values := [Val.int64 1] }] }

/-- The calls are one struct value of tag `tag` with `n` scalar fields: one
`StructHeader(tag, n)` first, then exactly `n` scalar calls, and nothing else. -/
def isStructOfScalars (tag : Char) (n : Nat) (calls : List PackCall) : Prop :=
  ∃ fields : List PackCall,
    calls = PackCall.structHeader tag.toNat n :: fields
      ∧ fields.length = n ∧ ∀ c ∈ fields, c.isScalar = true

/-- Method `reflect.Value.Kind` of `reflect.ValueOf(x)`; `none` for the nil
interface. -/
def GoValue.kind (x : GoValue) : Option GoKind := x.typeOf.map GoType.kind

mutual
/-- Every `SerializeNeo4j` call that `packX` makes for the value writes one
complete value: the method of a type of the caller does, and no method is
called through a nil pointer, where it writes nothing. (The methods of package
`dbtype` write one complete value whatever their receiver.) -/
def GoValue.serializersComplete : GoValue → Bool
  | GoValue.custom _ _ calls => remaining [Expect.value] calls == some []
  | GoValue.nilPtr elem => !elem.declaresSerializeNeo4j
  | GoValue.ptrTo target => target.serializersComplete
  | GoValue.anys s => serializersCompleteList s
  | GoValue.slice _ _ s => serializersCompleteList s
  | GoValue.anyMap m => serializersCompleteEntries m
  | GoValue.map _ _ _ m => serializersCompleteEntries m
  | _ => true
/-- The same for every element of a slice. -/
def serializersCompleteList : List GoValue → Bool
  | [] => true
  | e :: rest => e.serializersComplete && serializersCompleteList rest
/-- The same for every value of a map. -/
def serializersCompleteEntries : List (String × GoValue) → Bool
  | [] => true
  | (_, v) :: rest => v.serializersComplete && serializersCompleteEntries rest
end

/-! ## The message builders, taken together -/

/-- One call of an outgoing message builder, with its arguments. -/
inductive Message where
  | hello (hello : List (String × GoValue))
  | logon (logon : List (String × GoValue))
  | logoff
  | begin (metadata : List (String × GoValue))
  | commit
  | rollback
  | run (cypher : String) (params metadata : List (String × GoValue))
  | pullN (n : Int)
  | pullNQid (n : Int) (qid : Int)
  | discardN (n : Int)
  | discardNQid (n : Int) (qid : Int)
  | pullAll
  | routeToV43 (context : List (String × String)) (bookmarks : List String) (database : String)
  | route (context : List (String × String)) (bookmarks : List String)
      (what : List (String × GoValue))
  | reset
  | goodbye
  | telemetry (api : Int)

/-- Calls the builder the message names. -/
def Outgoing.append (c : Constants) (o : Outgoing) : Message → Outgoing
  | Message.hello hello => o.appendHello c hello
  | Message.logon logon => o.appendLogon c logon
  | Message.logoff => o.appendLogoff c
  | Message.begin metadata => o.appendBegin c metadata
  | Message.commit => o.appendCommit c
  | Message.rollback => o.appendRollback c
  | Message.run cypher params metadata => o.appendRun c cypher params metadata
  | Message.pullN n => o.appendPullN c n
  | Message.pullNQid n qid => o.appendPullNQid c n qid
  | Message.discardN n => o.appendDiscardN c n
  | Message.discardNQid n qid => o.appendDiscardNQid c n qid
  | Message.pullAll => o.appendPullAll c
  | Message.routeToV43 context bookmarks database =>
      o.appendRouteToV43 c context bookmarks database
  | Message.route context bookmarks what => o.appendRoute c context bookmarks what
  | Message.reset => o.appendReset c
  | Message.goodbye => o.appendGoodbye c
  | Message.telemetry api => o.appendTelemetry c api

/-- The struct tag of each command. -/
def Message.tag (c : Constants) : Message → Nat
  | Message.hello _ => c.msgHello
  | Message.logon _ => c.msgLogon
  | Message.logoff => c.msgLogoff
  | Message.begin _ => c.msgBegin
  | Message.commit => c.msgCommit
  | Message.rollback => c.msgRollback
  | Message.run _ _ _ => c.msgRun
  | Message.pullN _ => c.msgPullN
  | Message.pullNQid _ _ => c.msgPullN
  | Message.discardN _ => c.msgDiscardN
  | Message.discardNQid _ _ => c.msgDiscardN
  | Message.pullAll => c.msgPullAll
  | Message.routeToV43 _ _ _ => c.msgRoute
  | Message.route _ _ _ => c.msgRoute
  | Message.reset => c.msgReset
  | Message.goodbye => c.msgGoodbye
  | Message.telemetry _ => c.msgTelemetry

/-- The field arity of each command, as the specification fixes it: 0 for
LOGOFF, COMMIT, ROLLBACK, PULL ALL, RESET and GOODBYE; 1 for HELLO, LOGON,
BEGIN, PULL, DISCARD and TELEMETRY; 3 for RUN and both ROUTE variants. -/
def Message.arity : Message → Nat
  | Message.logoff => 0
  | Message.commit => 0
  | Message.rollback => 0
  | Message.pullAll => 0
  | Message.reset => 0
  | Message.goodbye => 0
  | Message.hello _ => 1
  | Message.logon _ => 1
  | Message.begin _ => 1
  | Message.pullN _ => 1
  | Message.pullNQid _ _ => 1
  | Message.discardN _ => 1
  | Message.discardNQid _ _ => 1
  | Message.telemetry _ => 1
  | Message.run _ _ _ => 3
  | Message.routeToV43 _ _ _ => 3
  | Message.route _ _ _ => 3

/-- Every `SerializeNeo4j` call made for the arguments of the message writes
one complete value (see `GoValue.serializersComplete`). -/
def Message.serializersComplete : Message → Bool
  | Message.hello m => serializersCompleteEntries m
  | Message.logon m => serializersCompleteEntries m
  | Message.begin m => serializersCompleteEntries m
  | Message.run _ params metadata =>
      serializersCompleteEntries params && serializersCompleteEntries metadata
  | Message.route _ _ what => serializersCompleteEntries what
  | _ => true

/-- The format string each builder hands to the logger. -/
def Message.format : Message → String
  | Message.hello _ => "HELLO %s"
  | Message.logon _ => "LOGON %s"
  | Message.logoff => "LOGOFF"
  | Message.begin _ => "BEGIN %s"
  | Message.commit => "COMMIT"
  | Message.rollback => "ROLLBACK"
  | Message.run _ _ _ => "RUN %q %s %s"
  | Message.pullN _ => "PULL %s"
  | Message.pullNQid _ _ => "PULL %s"
  | Message.discardN _ => "DISCARD %s"
  | Message.discardNQid _ _ => "DISCARD %s"
  | Message.pullAll => "PULL ALL"
  | Message.routeToV43 _ _ _ => "ROUTE %s %s %q"
  | Message.route _ _ _ => "ROUTE %s %s %s"
  | Message.reset => "RESET"
  | Message.goodbye => "GOODBYE"
  | Message.telemetry _ => "TELEMETRY %d"

/-- What each builder does between its struct header and `end`. -/
def Message.fields (c : Constants) : Message → Trace
  | Message.hello m => packMap m
  | Message.logon m => packMap m
  | Message.begin m => packMap m
  | Message.run cypher params metadata =>
      (Trace.call (PackCall.string cypher)).andThen ((packMap params).andThen (packMap metadata))
  | Message.pullN n =>
      Trace.calls [PackCall.mapHeader 1, PackCall.string "n", PackCall.int n]
  | Message.pullNQid n qid =>
      Trace.calls [PackCall.mapHeader 2, PackCall.string "n", PackCall.int n,
        PackCall.string "qid", PackCall.int64 qid]
  | Message.discardN n =>
      Trace.calls [PackCall.mapHeader 1, PackCall.string "n", PackCall.int n]
  | Message.discardNQid n qid =>
      Trace.calls [PackCall.mapHeader 2, PackCall.string "n", PackCall.int n,
        PackCall.string "qid", PackCall.int64 qid]
  | Message.routeToV43 context bookmarks database =>
      Trace.calls (PackCall.mapHeader context.length :: stringEntryCalls context
        ++ PackCall.arrayHeader bookmarks.length :: stringCalls bookmarks
        ++ [if database = c.DefaultDatabase then PackCall.nil else PackCall.string database])
  | Message.route context bookmarks what =>
      (Trace.calls (PackCall.mapHeader context.length :: stringEntryCalls context
        ++ PackCall.arrayHeader bookmarks.length :: stringCalls bookmarks)).andThen (packMap what)
  | Message.telemetry api => Trace.calls [PackCall.int api]
  | _ => Trace.calls []

/-- The frame every builder shares: the guarded log call, `begin`, the packer
work `body`, `end`. -/
def Outgoing.message (o : Outgoing) (format : String) (body : Trace) : Outgoing :=
  (((o.logClientMessage format).begin).run body).end'

/-- A piece of code that, when it reports no encode error, returns and takes
a reader of the packed stream from expecting `s` to expecting `s'`. -/
def Trace.writes (t : Trace) (s s' : List Expect) : Prop :=
  packErrors t.events = [] →
    t.panicked = false
      ∧ ∀ (u : List Expect) (ds : List PackCall),
          remaining (s ++ u) (packCalls t.events ++ ds) = remaining (s' ++ u) ds

/-- A sample choice of the constants; the theorems hold for every choice. -/
def boltConstants : Constants :=
  { msgHello := 0x01, msgLogon := 0x6a, msgLogoff := 0x6b, msgBegin := 0x11,
    msgCommit := 0x12, msgRollback := 0x13, msgRun := 0x10, msgPullN := 0x3f,
    msgDiscardN := 0x2f, msgPullAll := 0x3f, msgRoute := 0x66, msgReset := 0x0f,
    msgGoodbye := 0x02, msgTelemetry := 0x54, DefaultDatabase := "" }

/-- A HELLO dictionary holding a value of a type of the caller whose
`SerializeNeo4j` method writes nothing. -/
def helloWithSilentSerializer : List (String × GoValue) :=
  [("a", GoValue.custom "main.Silent" GoKind.struct [])]

/-- A list holding an integer, a pointer to a point and a dictionary. -/
def sampleValue : GoValue :=
  GoValue.anys
    [GoValue.int none IntWidth.int 1,
     GoValue.ptrTo (GoValue.dbtype (DbValue.point2D
       { X := GoFloat.finite false 1 0, Y := GoFloat.finite false 1 1, SpatialRefId := 7203 })),
     GoValue.anyMap [("k", GoValue.string none "v")]]

/-- The events `packX` can produce: packer calls and calls of `onPackErr`. -/
def Event.isPacking : Event → Bool
  | Event.pack _ => true
  | Event.onPackErr _ => true
  | _ => false

/-! ## Notions used to state what `packX` does -/

/-- The key type of a map type, `none` for a type that is not a map type. -/
def GoType.mapKey : GoType → Option GoType
  | GoType.map key _ => some key
  | GoType.named _ underlying => underlying.mapKey
  | _ => none

/-- The entries of a map value, each value as the `any` it is handed to
`packX` as; `none` for a value that is not a map. -/
def GoValue.entries : GoValue → Option (List (String × GoValue))
  | GoValue.intMap m => some (m.map (fun kv => (kv.1, GoValue.int none IntWidth.int kv.2)))
  | GoValue.stringMap m => some (m.map (fun kv => (kv.1, GoValue.string none kv.2)))
  | GoValue.anyMap m => some m
  | GoValue.map _ _ _ m => some m
  | _ => none

/-- The kinds the switch of `packX` has a case for: bool, the signed integers,
uint8, uint16, uint32, uint64 and uint, the floats, string, pointer, struct,
slice and map. -/
def GoKind.listed : GoKind → Bool
  | GoKind.bool => true
  | GoKind.int => true
  | GoKind.int8 => true
  | GoKind.int16 => true
  | GoKind.int32 => true
  | GoKind.int64 => true
  | GoKind.uint8 => true
  | GoKind.uint16 => true
  | GoKind.uint32 => true
  | GoKind.uint64 => true
  | GoKind.uint => true
  | GoKind.float32 => true
  | GoKind.float64 => true
  | GoKind.string => true
  | GoKind.ptr => true
  | GoKind.struct => true
  | GoKind.slice => true
  | GoKind.map => true
  | _ => false

/-- The call `x.SerializeNeo4j(packer)` for a value whose method set holds the
method: a value of a type that declares it, or a pointer to such a value.
Through a nil pointer the call of the value-receiver method panics. `none` for
a value without the method. -/
def GoValue.SerializeNeo4j : GoValue → Option Trace
  | GoValue.dbtype d => some (Trace.calls d.SerializeNeo4j)
  | GoValue.custom _ _ calls => some (Trace.calls calls)
  | GoValue.ptrTo target => target.declaredSerializeNeo4j.map Trace.calls
  | GoValue.nilPtr elem => if elem.declaresSerializeNeo4j then some Trace.panic else none
  | _ => none

/-- The number of bits of an unsigned integer type (`uint` has 64). -/
def UintWidth.bits : UintWidth → Nat
  | UintWidth.uint8 => 8
  | UintWidth.uint16 => 16
  | UintWidth.uint32 => 32
  | UintWidth.uint64 => 64
  | UintWidth.uint => 64

/-- The events of packing each value in turn, one after the other. -/
def eventsOfValues : List GoValue → List Event
  | [] => []
  | e :: rest => (packX e).events ++ eventsOfValues rest

/-- The events of packing each map entry in turn: the key by `String`, then
the value by `packX`. -/
def eventsOfEntries : List (String × GoValue) → List Event
  | [] => []
  | (k, v) :: rest => Event.pack (PackCall.string k) :: ((packX v).events ++ eventsOfEntries rest)

/-- A HELLO dictionary holding a function value. -/
def helloWithFunction : List (String × GoValue) :=
  [("f", GoValue.other (GoType.func "func()"))]

/-- A list of an integer, a function value and a string. -/
def listWithFunction : List GoValue :=
  [GoValue.int none IntWidth.int 1, GoValue.other (GoType.func "func()"),
   GoValue.string none "a"]

/-- A `map[int]string` with one entry. -/
def intKeyedMap : GoValue :=
  GoValue.map none (GoType.int IntWidth.int) GoType.string [("1", GoValue.string none "a")]

/-- A pointer to a `Duration`. -/
def durationPointer : GoValue :=
  GoValue.ptrTo (GoValue.dbtype (DbValue.duration
    { Months := 1, Days := 0, Seconds := -1, Nanos := 500000000 }))

/-! ## Rendering of a `Duration` -/

/-- The verb `%d` of `fmt.Sprintf` on an integer: the decimal digits, after a
minus sign when the integer is negative. -/
def fmtInt (i : Int) : String :=
  if i < 0 then "-" ++ Nat.repr i.natAbs else Nat.repr i.natAbs

/-- Pads a string with zeros on the left up to a width. -/
def padZeros (width : Nat) (s : String) : String :=
  String.mk (List.replicate (width - s.length) '0') ++ s

/-- The verb `%09d` of `fmt.Sprintf`: the decimal digits padded with zeros to
nine characters, the padding coming after the minus sign of a negative integer. -/
def fmtInt09 (i : Int) : String :=
  if i < 0 then "-" ++ padZeros 8 (Nat.repr i.natAbs) else padZeros 9 (Nat.repr i.natAbs)

/-- Method `Duration.String`. -/
def Duration.String (d : Duration) : String :=
  let normalize := decide (d.Seconds < 0) && decide (d.Nanos > 0)
  let seconds := if normalize then d.Seconds + 1 else d.Seconds
  let nanos := if normalize then 1000000000 - d.Nanos else d.Nanos
  let sign := if normalize && decide (seconds = 0) then "-" else ""
  let timePart :=
    if nanos = 0 then sign ++ fmtInt seconds
    else sign ++ fmtInt seconds ++ "." ++ fmtInt09 nanos
  "P" ++ fmtInt d.Months ++ "M" ++ fmtInt d.Days ++ "DT" ++ timePart ++ "S"

/-- Method `Duration.Equal`. -/
def Duration.Equal (d1 d2 : Duration) : Bool :=
  decide (d1.Months = d2.Months) && decide (d1.Days = d2.Days)
    && decide (d1.Seconds = d2.Seconds) && decide (d1.Nanos = d2.Nanos)

/-- The plain signed decimal of the exact number of seconds
`seconds + nanos / 10^9`: a minus sign when the number is negative, the digits
of its integer part, and, unless `nanos` is zero, a point and the nine digits
of its fraction. -/
def decimalSeconds (seconds nanos : Int) : String :=
  let total := seconds * 1000000000 + nanos
  let sign := if total < 0 then "-" else ""
  let whole := total.natAbs / 1000000000
  let fraction := total.natAbs % 1000000000
  if nanos = 0 then sign ++ Nat.repr whole
  else sign ++ Nat.repr whole ++ "." ++ padZeros 9 (Nat.repr fraction)

/-! ## What a builder leaves behind -/

/-- The error report that `end` makes for the packer calls `calls`: the error
of `packer.End`, if any, handed to `onPackErr`. -/
def Outgoing.endReport (o : Outgoing) (calls : List PackCall) : List Event :=
  match o.packerErr calls with
  | some e => [Event.onPackErr e]
  | none => []

/-- The events of `o` after a builder that logs with `format`, makes exactly
the packer calls `calls` between begin and end, and returns. -/
def Outgoing.framed (o : Outgoing) (format : String) (calls : List PackCall) : List Event :=
  o.events ++ (if o.boltLogger then [Event.logClientMessage format] else [])
    ++ [Event.beginMessage, Event.packerBegin] ++ calls.map Event.pack
    ++ [Event.packerEnd, Event.endMessage] ++ o.endReport calls

/-! ## Inputs and readings for the cursor -/

/-- The integer stored under `key` in a stats dictionary, 0 when the key is
absent (or holds no `int64`). -/
def storedCounter (stats : Dict) (key : String) : Int :=
  match stats.get key with
  | some (Val.int64 i) => i
  | _ => 0

/-- Every value of the dictionary is an `int64`. -/
def Dict.allInt64 (m : Dict) : Prop := ∀ k v, (k, v) ∈ m → ∃ i, v = Val.int64 i

/-- A fresh result on a connection that acknowledges the run with the key
`n` and then fails. -/
def ackThenFailure : Result :=
  { runner := { replies := [Reply.runAck (some [("fields", Val.strings ["n"])]),
                            Reply.failure "boom"] } }

/-- A result that has delivered one record as current and whose connection
fails next. -/
def deliveredThenFailure : Result :=
  { keys := ["n"], runCompleted := true,
    current := some { keys := ["n"], values := [Val.int64 1] },
    runner := { replies := [Reply.failure "boom"] } }

/-! ## Reading decimal digits -/

/-- The number that a list of decimal digit characters denotes. -/
def digitsValue (cs : List Char) : Nat :=
  cs.foldl (fun acc c => acc * 10 + (c.toNat - 48)) 0

/-! ## The replies the spec describes -/

/-- Whether a reply is a run acknowledgment. -/
def Reply.isRunAck : Reply → Bool
  | Reply.runAck _ => true
  | _ => false

/-- Modelled from the spec: the replies that the state machine of the result
cursor describes for a run that is, or is not yet, acknowledged. A run
acknowledgment comes only for a run not yet acknowledged
(`Streaming → RunAcked`), a record reply carries field values, and a summary
or an error may come at any time. -/
def Reply.described (runCompleted : Bool) : Reply → Bool
  | Reply.runAck _ => !runCompleted
  | Reply.record fields => fields.isSome
  | Reply.summary _ => true
  | Reply.failure _ => true

/-- Modelled from the spec: a script of replies each of which the spec
describes in the state in which it arrives. -/
def conforming (runCompleted : Bool) : List Reply → Bool
  | [] => true
  | reply :: rest =>
      reply.described runCompleted && conforming (runCompleted || reply.isRunAck) rest

/-- A fresh result on a connection that acknowledges the run with the key `n`
and then sends the summary. -/
def ackThenSummary : Result :=
  { runner := { replies := [Reply.runAck (some [("fields", Val.strings ["n"])]),
                            Reply.summary none] } }

/-- A list of an integer, a nil pointer to a `Duration` and a string. -/
def listWithNilPointer : List GoValue :=
  [GoValue.int none IntWidth.int 1, GoValue.nilPtr (GoType.dbtype DbType.duration),
   GoValue.string none "a"]

/-- Query parameters with a nil pointer to a `Duration` under the key `a`. -/
def paramsWithNilPointer : List (String × GoValue) :=
  [("a", GoValue.nilPtr (GoType.dbtype DbType.duration))]

/-! ## Theorems -/

/-! ### The result cursor -/

theorem awaitRun_of_runCompleted (pending : List Reply) (r : Result)
    (h : r.runCompleted = true) : awaitRun pending r = some (r, none) := by
  cases pending <;> simp [awaitRun, h]

theorem awaitResult_of_resultCompleted (pending : List Reply) (r : Result)
    (h : r.resultCompleted = true) : awaitResult pending r = some (r, none) := by
  cases pending <;> simp [awaitResult, h]

theorem Next_of_completed (r : Result) (hRun : r.runCompleted = true)
    (hRes : r.resultCompleted = true) : r.Next = some r.advance := by
  simp [Result.Next, awaitRun_of_runCompleted _ r hRun, hRes]

theorem collectRecords_eq (fs : List (List Val)) (r : Result) :
    r.collectRecords fs
      = { r with records := r.records ++ fs.map (fun f => { keys := r.keys, values := f }) } := by
  induction fs generalizing r with
  | nil => simp [Result.collectRecords]
  | cons f rest ih =>
      rw [Result.collectRecords, ih]
      simp [Result.collectRecord, List.append_assoc]

theorem nextCalls_drain (q : List Record) (r : Result) (hRun : r.runCompleted = true)
    (hRes : r.resultCompleted = true) (hq : r.records = q) :
    r.nextCalls (q.length + 1)
      = some (q.map (fun rec => (true, some rec)) ++ [(false, none)],
              { r with records := [], current := none }) := by
  induction q generalizing r with
  | nil =>
      simp [Result.nextCalls, Next_of_completed r hRun hRes, Result.advance, hq, Result.Record]
  | cons first rest ih =>
      have hNext : r.Next = some (true, { r with current := some first, records := rest }) := by
        rw [Next_of_completed r hRun hRes]
        simp [Result.advance, hq]
      have hrec := ih { r with current := some first, records := rest } hRun hRes rfl
      rw [List.length_cons, Result.nextCalls, hNext]
      simp only [hrec]
      simp [Result.Record]

/-- C1. `Next` delivers records first in, first out. On a result whose run and
result are both completed, whose queue is empty and which has no error
latched, after `collectRecord` was called with the field lists `fs` in order,
the first `fs.length` calls of `Next` return true and `Record()` after the
i-th of them holds the i-th field list (with the keys of the result), and the
next call returns false with `Record()` nil, `Err()` nil and the queue empty. -/
theorem next_delivers_fifo (r : Result) (fs : List (List Val))
    (hRun : r.runCompleted = true) (hRes : r.resultCompleted = true)
    (hQueue : r.records = []) (hErr : r.err = none) :
    ∃ rEnd : Result,
      (r.collectRecords fs).nextCalls (fs.length + 1)
        = some (fs.map (fun f => (true, some { keys := r.keys, values := f }))
                  ++ [(false, none)], rEnd)
      ∧ rEnd.Record = none ∧ rEnd.Err = none ∧ rEnd.records = []
      ∧ rEnd.runner = r.runner := by
  have h := nextCalls_drain (fs.map (fun f => ({ keys := r.keys, values := f } : Record)))
    (r.collectRecords fs) (by rw [collectRecords_eq]; exact hRun)
    (by rw [collectRecords_eq]; exact hRes) (by rw [collectRecords_eq]; simp [hQueue])
  rw [List.length_map] at h
  refine ⟨{ r.collectRecords fs with records := [], current := none }, ?_, rfl, ?_, rfl, ?_⟩
  · rw [h, List.map_map]; rfl
  · show (r.collectRecords fs).err = none
    rw [collectRecords_eq]; exact hErr
  · show (r.collectRecords fs).runner = r.runner
    rw [collectRecords_eq]

/-- Witness of C1: keys `["n"]` and the records `[1]`, `[2]` give true, true,
false. -/
theorem next_delivers_fifo_witness :
    ∃ rEnd : Result,
      (({ keys := ["n"], runCompleted := true, resultCompleted := true } : Result).collectRecords
          [[Val.int64 1], [Val.int64 2]]).nextCalls 3
        = some ([(true, some { keys := ["n"], values := [Val.int64 1] }),
                 (true, some { keys := ["n"], values := [Val.int64 2] }),
                 (false, none)], rEnd)
      ∧ rEnd.Record = none ∧ rEnd.Err = none ∧ rEnd.records = []
      ∧ rEnd.runner = { replies := [] } :=
  next_delivers_fifo { keys := ["n"], runCompleted := true, resultCompleted := true }
    [[Val.int64 1], [Val.int64 2]] rfl rfl rfl rfl

theorem collectFields_frame (m : Dict) (r r' : Result) (h : collectFields m r = some r') :
    r' = { r with keys := r'.keys } := by
  unfold collectFields at h
  split at h
  · simp only [Option.map_eq_some'] at h
    obtain ⟨l, _, rfl⟩ := h
    rfl
  · simp only [Option.some.injEq] at h
    subst h
    rfl

theorem collectAvailableAfter_frame (m : Dict) (r r' : Result)
    (h : collectAvailableAfter m r = some r') : r' = { r with summary := r'.summary } := by
  unfold collectAvailableAfter at h
  split at h
  · simp only [Option.map_eq_some'] at h
    obtain ⟨l, _, rfl⟩ := h
    rfl
  · simp only [Option.some.injEq] at h
    subst h
    rfl

theorem collectConsumedAfter_frame (m : Dict) (r r' : Result)
    (h : collectConsumedAfter m r = some r') : r' = { r with summary := r'.summary } := by
  unfold collectConsumedAfter at h
  split at h
  · simp only [Option.map_eq_some'] at h
    obtain ⟨l, _, rfl⟩ := h
    rfl
  · simp only [Option.some.injEq] at h
    subst h
    rfl

theorem collectType_frame (m : Dict) (r r' : Result) (h : collectType m r = some r') :
    r' = { r with summary := r'.summary } := by
  unfold collectType at h
  split at h
  · simp only [Option.map_eq_some'] at h
    obtain ⟨l, _, rfl⟩ := h
    rfl
  · simp only [Option.some.injEq] at h
    subst h
    rfl

theorem collectStats_frame (m : Dict) (r r' : Result) (h : collectStats m r = some r') :
    r' = { r with summary := r'.summary } := by
  unfold collectStats at h
  split at h
  · simp only [Option.map_eq_some'] at h
    obtain ⟨l, _, rfl⟩ := h
    rfl
  · simp only [Option.some.injEq] at h
    subst h
    rfl

/-- What `collectMetadata` leaves alone: everything but the key list and the
summary. -/
theorem collectMetadata_frame (metadata : Option Dict) (r r' : Result)
    (h : r.collectMetadata metadata = some r') :
    r' = { r with keys := r'.keys, summary := r'.summary } := by
  cases metadata with
  | none =>
      simp only [Result.collectMetadata, Option.some.injEq] at h
      subst h
      rfl
  | some m =>
      simp only [Result.collectMetadata, Option.bind_eq_bind, Option.bind_eq_some] at h
      obtain ⟨r1, h1, r2, h2, r3, h3, r4, h4, h5⟩ := h
      have e1 := collectFields_frame m r r1 h1
      have e2 := collectAvailableAfter_frame m r1 r2 h2
      have e3 := collectConsumedAfter_frame m r2 r3 h3
      have e4 := collectType_frame m r3 r4 h4
      have e5 := collectStats_frame m r4 r' h5
      rw [e5, e4, e3, e2, e1]

/-- What one delivered reply does to the latch and to the runner. -/
theorem deliver_err (reply : Reply) (r r' : Result) (oe : Option GoError)
    (h : deliver reply r = some (r', oe)) :
    r'.runner = r.runner ∧ (oe = none → r'.err = r.err) ∧ (∀ e, oe = some e → r'.err = some e) := by
  cases reply with
  | runAck metadata =>
      simp only [deliver, Option.map_eq_some', Prod.mk.injEq] at h
      obtain ⟨r1, h1, rfl, rfl⟩ := h
      have e := collectMetadata_frame metadata r r1 h1
      refine ⟨?_, ?_, ?_⟩
      · show r1.runner = r.runner
        rw [e]
      · intro _
        show r1.err = r.err
        rw [e]
      · intro e' he
        cases he
  | record fields =>
      simp only [deliver, Option.some.injEq, Prod.mk.injEq] at h
      obtain ⟨rfl, rfl⟩ := h
      cases fields <;> simp [Result.collectRecord]
  | summary metadata =>
      simp only [deliver, Option.map_eq_some', Prod.mk.injEq] at h
      obtain ⟨r1, h1, rfl, rfl⟩ := h
      have e := collectMetadata_frame metadata r r1 h1
      refine ⟨?_, ?_, ?_⟩
      · show r1.runner = r.runner
        rw [e]
      · intro _
        show r1.err = r.err
        rw [e]
      · intro e' he
        cases he
  | failure e =>
      simp only [deliver, Option.some.injEq, Prod.mk.injEq] at h
      obtain ⟨rfl, rfl⟩ := h
      simp

/-- What one `receive` does to the latch and to the count of receive calls. -/
theorem receive_err (r r' : Result) (oe : Option GoError) (h : receive r = some (r', oe)) :
    r'.runner.receives = r.runner.receives + 1
      ∧ (oe = none → r'.err = r.err) ∧ (∀ e, oe = some e → r'.err = some e) := by
  unfold receive at h
  split at h
  · simp only [Option.some.injEq, Prod.mk.injEq] at h
    obtain ⟨rfl, rfl⟩ := h
    simp [Result.consumed]
  · rename_i reply rest _
    have hd := deliver_err reply (r.consumed rest) r' oe h
    refine ⟨?_, ?_, ?_⟩
    · rw [hd.1]; rfl
    · intro hn; rw [hd.2.1 hn]; rfl
    · exact hd.2.2

/-- The loop of `Keys` and `Next`: it ends without error with the latch as it
was, or with the error of a failed receive latched. -/
theorem awaitRun_err (pending : List Reply) (r r' : Result) (oe : Option GoError)
    (h : awaitRun pending r = some (r', oe)) :
    (oe = none → r'.err = r.err ∧ r.runner.receives ≤ r'.runner.receives)
      ∧ (∀ e, oe = some e → r'.err = some e ∧ r.runner.receives < r'.runner.receives) := by
  induction pending generalizing r with
  | nil =>
      unfold awaitRun at h
      split at h
      · simp only [Option.some.injEq, Prod.mk.injEq] at h
        obtain ⟨rfl, rfl⟩ := h
        simp
      · simp only [Option.some.injEq, Prod.mk.injEq] at h
        obtain ⟨rfl, rfl⟩ := h
        simp [Result.consumed]
  | cons reply rest ih =>
      unfold awaitRun at h
      split at h
      · simp only [Option.some.injEq, Prod.mk.injEq] at h
        obtain ⟨rfl, rfl⟩ := h
        simp
      · split at h
        · cases h
        · rename_i r1 e1 hd
          simp only [Option.some.injEq, Prod.mk.injEq] at h
          obtain ⟨rfl, rfl⟩ := h
          have hd' := deliver_err reply (r.consumed rest) r1 (some e1) hd
          refine ⟨fun hn => (by cases hn), ?_⟩
          intro e he
          refine ⟨hd'.2.2 e he, ?_⟩
          rw [hd'.1]
          simp [Result.consumed]
        · rename_i r1 hd
          have hd' := deliver_err reply (r.consumed rest) r1 none hd
          have hrec := ih r1 h
          have h1 : r1.err = r.err := hd'.2.1 rfl
          have h2 : r1.runner.receives = r.runner.receives + 1 := by
            rw [hd'.1]; rfl
          refine ⟨?_, ?_⟩
          · intro hn
            have := hrec.1 hn
            exact ⟨by rw [this.1, h1], by omega⟩
          · intro e he
            have := hrec.2 e he
            exact ⟨this.1, by omega⟩

/-- The loop of `Summary` and `Consume`, likewise. -/
theorem awaitResult_err (pending : List Reply) (r r' : Result) (oe : Option GoError)
    (h : awaitResult pending r = some (r', oe)) :
    (oe = none → r'.err = r.err ∧ r.runner.receives ≤ r'.runner.receives)
      ∧ (∀ e, oe = some e → r'.err = some e ∧ r.runner.receives < r'.runner.receives) := by
  induction pending generalizing r with
  | nil =>
      unfold awaitResult at h
      split at h
      · simp only [Option.some.injEq, Prod.mk.injEq] at h
        obtain ⟨rfl, rfl⟩ := h
        simp
      · simp only [Option.some.injEq, Prod.mk.injEq] at h
        obtain ⟨rfl, rfl⟩ := h
        simp [Result.consumed]
  | cons reply rest ih =>
      unfold awaitResult at h
      split at h
      · simp only [Option.some.injEq, Prod.mk.injEq] at h
        obtain ⟨rfl, rfl⟩ := h
        simp
      · split at h
        · cases h
        · rename_i r1 e1 hd
          simp only [Option.some.injEq, Prod.mk.injEq] at h
          obtain ⟨rfl, rfl⟩ := h
          have hd' := deliver_err reply (r.consumed rest) r1 (some e1) hd
          refine ⟨fun hn => (by cases hn), ?_⟩
          intro e he
          refine ⟨hd'.2.2 e he, ?_⟩
          rw [hd'.1]
          simp [Result.consumed]
        · rename_i r1 hd
          have hd' := deliver_err reply (r.consumed rest) r1 none hd
          have hrec := ih r1 h
          have h1 : r1.err = r.err := hd'.2.1 rfl
          have h2 : r1.runner.receives = r.runner.receives + 1 := by
            rw [hd'.1]; rfl
          refine ⟨?_, ?_⟩
          · intro hn
            have := hrec.1 hn
            exact ⟨by rw [this.1, h1], by omega⟩
          · intro e he
            have := hrec.2 e he
            exact ⟨this.1, by omega⟩

theorem advance_err (r : Result) : r.advance.2.err = r.err ∧ r.advance.2.runner = r.runner := by
  unfold Result.advance
  split <;> simp

/-- C2, counterexample. With the error `"boom"` latched, `Keys` returns the
keys and a nil error, `Next` invokes `receive` and returns true, and `Summary`
invokes `receive` twice and returns another error. -/
theorem latch_not_consulted :
    latchedResult.Err = some "boom"
      ∧ latchedResult.Keys = some ((["n"], none), latchedResult)
      ∧ (latchedResult.Next).map (fun out => (out.1, out.2.runner.receives)) = some (true, 1)
      ∧ (latchedResult.Summary).map (fun out => (out.1.2, out.2.runner.receives))
          = some (some "connection closed", 2) :=
  ⟨rfl, rfl, rfl, rfl⟩

/-- C2, amended. A latched error stays latched: after `Next`, `Keys`, `Summary`
or `Consume`, `Err()` is still the same error, unless a `receive` made by the
call failed, in which case `Err()` is the error of that `receive`. The calls do
not consult the latch: a call whose completion flag is set (`runCompleted` for
`Keys`, `resultCompleted` for `Summary` and `Consume`, both for `Next`) makes no
`receive` call and returns its usual result. -/
theorem latched_error_persists (r : Result) (e : GoError) (hLatched : r.Err = some e) :
    (∀ b r', r.Next = some (b, r') →
        r'.Err = some e
          ∨ (b = false ∧ (∃ e', r'.Err = some e') ∧ r.runner.receives < r'.runner.receives))
    ∧ (∀ ks oe r', r.Keys = some ((ks, oe), r') →
        (oe = none ∧ r'.Err = some e)
          ∨ (oe ≠ none ∧ r'.Err = oe ∧ r.runner.receives < r'.runner.receives))
    ∧ (∀ s oe r', r.Summary = some ((s, oe), r') →
        (oe = none ∧ r'.Err = some e)
          ∨ (oe ≠ none ∧ r'.Err = oe ∧ r.runner.receives < r'.runner.receives))
    ∧ (∀ s oe r', r.Consume = some ((s, oe), r') →
        (oe = none ∧ r'.Err = some e)
          ∨ (oe ≠ none ∧ r'.Err = oe ∧ r.runner.receives < r'.runner.receives))
    ∧ (r.runCompleted = true → r.Keys = some ((r.keys, none), r))
    ∧ (r.resultCompleted = true →
        r.Summary = some ((some r.summary, none), r)
          ∧ r.Consume = some ((some r.summary, none), r))
    ∧ (r.runCompleted = true → r.resultCompleted = true →
        ∃ b r', r.Next = some (b, r') ∧ r'.Err = some e ∧ r'.runner = r.runner) := by
  have hErr : r.err = some e := hLatched
  refine ⟨?_, ?_, ?_, ?_, ?_, ?_, ?_⟩
  · intro b r' h
    unfold Result.Next at h
    split at h
    · cases h
    · rename_i r1 e1 ha
      simp only [Option.some.injEq, Prod.mk.injEq] at h
      obtain ⟨rfl, rfl⟩ := h
      have := (awaitRun_err _ r r1 (some e1) ha).2 e1 rfl
      exact Or.inr ⟨rfl, ⟨e1, rfl⟩, this.2⟩
    · rename_i r1 ha
      have h1 := (awaitRun_err _ r r1 none ha).1 rfl
      split at h
      · split at h
        · cases h
        · rename_i r2 e2 hr
          simp only [Option.some.injEq, Prod.mk.injEq] at h
          obtain ⟨rfl, rfl⟩ := h
          have h2 := receive_err r1 r2 (some e2) hr
          refine Or.inr ⟨rfl, ⟨e2, rfl⟩, ?_⟩
          show r.runner.receives < r2.runner.receives
          omega
        · rename_i r2 hr
          simp only [Option.some.injEq] at h
          have h2 := receive_err r1 r2 none hr
          refine Or.inl ?_
          have hr' : r' = r2.advance.2 := by rw [h]
          show r'.err = some e
          rw [hr', (advance_err r2).1, h2.2.1 rfl, h1.1, hErr]
      · simp only [Option.some.injEq] at h
        refine Or.inl ?_
        have hr' : r' = r1.advance.2 := by rw [h]
        show r'.err = some e
        rw [hr', (advance_err r1).1, h1.1, hErr]
  · intro ks oe r' h
    unfold Result.Keys at h
    split at h
    · cases h
    · rename_i r1 e1 ha
      simp only [Option.some.injEq, Prod.mk.injEq] at h
      obtain ⟨⟨_, rfl⟩, rfl⟩ := h
      have := (awaitRun_err _ r r1 (some e1) ha).2 e1 rfl
      exact Or.inr ⟨by simp, this.1, this.2⟩
    · rename_i r1 ha
      simp only [Option.some.injEq, Prod.mk.injEq] at h
      obtain ⟨⟨_, rfl⟩, rfl⟩ := h
      have := (awaitRun_err _ r r1 none ha).1 rfl
      exact Or.inl ⟨rfl, by show r1.err = some e; rw [this.1, hErr]⟩
  · intro s oe r' h
    unfold Result.Summary at h
    split at h
    · cases h
    · rename_i r1 e1 ha
      simp only [Option.some.injEq, Prod.mk.injEq] at h
      obtain ⟨⟨_, rfl⟩, rfl⟩ := h
      have := (awaitResult_err _ r r1 (some e1) ha).2 e1 rfl
      exact Or.inr ⟨by simp, this.1, this.2⟩
    · rename_i r1 ha
      simp only [Option.some.injEq, Prod.mk.injEq] at h
      obtain ⟨⟨_, rfl⟩, rfl⟩ := h
      have := (awaitResult_err _ r r1 none ha).1 rfl
      exact Or.inl ⟨rfl, by show r1.err = some e; rw [this.1, hErr]⟩
  · intro s oe r' h
    unfold Result.Consume at h
    split at h
    · cases h
    · rename_i r1 e1 ha
      simp only [Option.some.injEq, Prod.mk.injEq] at h
      obtain ⟨⟨_, rfl⟩, rfl⟩ := h
      have := (awaitResult_err _ r r1 (some e1) ha).2 e1 rfl
      exact Or.inr ⟨by simp, this.1, this.2⟩
    · rename_i r1 ha
      simp only [Option.some.injEq, Prod.mk.injEq] at h
      obtain ⟨⟨_, rfl⟩, rfl⟩ := h
      have := (awaitResult_err _ r r1 none ha).1 rfl
      exact Or.inl ⟨rfl, by show r1.err = some e; rw [this.1, hErr]⟩
  · intro hRun
    simp [Result.Keys, awaitRun_of_runCompleted _ r hRun]
  · intro hRes
    simp [Result.Summary, Result.Consume, awaitResult_of_resultCompleted _ r hRes]
  · intro hRun hRes
    refine ⟨r.advance.1, r.advance.2, ?_, ?_, ?_⟩
    · rw [Next_of_completed r hRun hRes]
    · show r.advance.2.err = some e
      rw [(advance_err r).1, hErr]
    · exact (advance_err r).2

/-- Witness of the amended C2, at the result with `"boom"` latched. -/
theorem latched_error_persists_witness :
    latchedResult.Err = some "boom"
      ∧ latchedResult.runCompleted = true
      ∧ latchedResult.Keys = some ((latchedResult.keys, none), latchedResult) :=
  ⟨rfl, rfl, (latched_error_persists latchedResult "boom" rfl).2.2.2.2.1 rfl⟩

/-- C6, the code at the failing input. On a completed result with one record
queued, `Consume` returns the summary without error and leaves the result as it
was, and the following `Next` returns true and delivers the queued record. -/
theorem consume_keeps_queued_records :
    queuedResult.Consume = some ((some queuedResult.summary, none), queuedResult)
      ∧ queuedResult.Next
          = some (true, { queuedResult with
              current := some { keys := ["n"], values := [Val.int64 1] }, records := [] }) :=
  ⟨rfl, rfl⟩

theorem collectMetadata_keys (m : Dict) (r r' : Result)
    (h : r.collectMetadata (some m) = some r') :
    ∃ r1, collectFields m r = some r1 ∧ r'.keys = r1.keys := by
  simp only [Result.collectMetadata, Option.bind_eq_bind, Option.bind_eq_some] at h
  obtain ⟨r1, h1, r2, h2, r3, h3, r4, h4, h5⟩ := h
  have e2 := collectAvailableAfter_frame m r1 r2 h2
  have e3 := collectConsumedAfter_frame m r2 r3 h3
  have e4 := collectType_frame m r3 r4 h4
  have e5 := collectStats_frame m r4 r' h5
  refine ⟨r1, h1, ?_⟩
  rw [e5, e4, e3, e2]

/-- C7, counterexample. A first `collectMetadata` stores the keys `["a"]`, a
second one whose metadata has a `"fields"` entry replaces them by `["b"]`. -/
theorem keys_overwritten :
    (({} : Result).collectMetadata (some [("fields", Val.strings ["a"])])).map
        (fun r => r.keys) = some ["a"]
      ∧ ((({} : Result).collectMetadata (some [("fields", Val.strings ["a"])])).bind
          (fun r => r.collectMetadata (some [("fields", Val.strings ["b"])]))).map
        (fun r => r.keys) = some ["b"] :=
  ⟨rfl, rfl⟩

/-- C7, amended. `collectMetadata` changes the key list only when its metadata
has a `"fields"` entry, and then stores the list of that entry; a call whose
metadata has no `"fields"` entry leaves the stored keys as they are. -/
theorem keys_changed_only_by_fields (r r' : Result) (m : Dict)
    (h : r.collectMetadata (some m) = some r') :
    (m.get "fields" = none → r'.keys = r.keys)
      ∧ (∀ l, m.get "fields" = some (Val.strings l) → r'.keys = l)
      ∧ r.collectMetadata none = some r := by
  obtain ⟨r1, h1, hk⟩ := collectMetadata_keys m r r' h
  refine ⟨?_, ?_, rfl⟩
  · intro hg
    simp only [collectFields, hg, Option.some.injEq] at h1
    rw [hk, ← h1]
  · intro l hg
    simp only [collectFields, hg, Val.assertStrings, Option.map_some', Option.some.injEq] at h1
    rw [hk, ← h1]

/-- Witness of the amended C7: a summary without `"fields"` keeps the keys. -/
theorem keys_changed_only_by_fields_witness :
    (({ keys := ["n"] } : Result).collectMetadata (some [("type", Val.str "r")])
        = some { keys := ["n"], summary := { statementType := StatementType.readOnly } })
      ∧ Dict.get [("type", Val.str "r")] "fields" = none
      ∧ ({ keys := ["n"], summary := { statementType := StatementType.readOnly } } : Result).keys
          = ({ keys := ["n"] } : Result).keys :=
  ⟨rfl, rfl, (keys_changed_only_by_fields { keys := ["n"] }
    { keys := ["n"], summary := { statementType := StatementType.readOnly } }
    [("type", Val.str "r")] rfl).1 rfl⟩

/-! ### When `Next` returns false -/

/-- What a reply delivered without error does to `runCompleted`. -/
theorem deliver_runCompleted (reply : Reply) (r r' : Result)
    (h : deliver reply r = some (r', none)) :
    r'.runCompleted = (r.runCompleted || reply.isRunAck) := by
  cases reply with
  | runAck metadata =>
      simp only [deliver, Option.map_eq_some', Prod.mk.injEq] at h
      obtain ⟨r1, _, rfl, _⟩ := h
      simp [Reply.isRunAck]
  | record fields =>
      simp only [deliver, Option.some.injEq, Prod.mk.injEq] at h
      obtain ⟨rfl, _⟩ := h
      cases fields <;> simp [Result.collectRecord, Reply.isRunAck]
  | summary metadata =>
      simp only [deliver, Option.map_eq_some', Prod.mk.injEq] at h
      obtain ⟨r1, h1, rfl, _⟩ := h
      have e := collectMetadata_frame metadata r r1 h1
      simp only [Reply.isRunAck, Bool.or_false]
      show r1.runCompleted = r.runCompleted
      rw [e]
  | failure e =>
      simp only [deliver, Option.some.injEq, Prod.mk.injEq] at h
      cases h.2

/-- After the loop of `Next` the run is acknowledged and the replies still to
come are described by the spec. -/
theorem awaitRun_conforming (pending : List Reply) (r r1 : Result)
    (hp : r.runner.replies = pending) (hc : conforming r.runCompleted pending = true)
    (h : awaitRun pending r = some (r1, none)) :
    r1.runCompleted = true ∧ conforming true r1.runner.replies = true := by
  induction pending generalizing r with
  | nil =>
      unfold awaitRun at h
      split at h
      · rename_i hRun
        simp only [Option.some.injEq, Prod.mk.injEq, and_true] at h
        subst h
        exact ⟨hRun, by rw [hp]; rfl⟩
      · simp only [Option.some.injEq, Prod.mk.injEq] at h
        cases h.2
  | cons reply rest ih =>
      unfold awaitRun at h
      split at h
      · rename_i hRun
        simp only [Option.some.injEq, Prod.mk.injEq, and_true] at h
        subst h
        refine ⟨hRun, ?_⟩
        rw [hRun] at hc
        rw [hp]
        exact hc
      · split at h
        · cases h
        · simp only [Option.some.injEq, Prod.mk.injEq] at h
          cases h.2
        · rename_i r2 hd
          have hrun := deliver_runCompleted reply (r.consumed rest) r2 hd
          have hrunner := (deliver_err reply (r.consumed rest) r2 none hd).1
          simp only [conforming, Bool.and_eq_true] at hc
          refine ih r2 ?_ ?_ h
          · rw [hrunner]
            rfl
          · rw [hrun]
            exact hc.2

/-- The single `receive` of `Next` after the acknowledgment, on an empty queue
and a reply that the spec describes: a record is queued or the result is
complete. -/
theorem receive_conforming (r r2 : Result) (hc : conforming true r.runner.replies = true)
    (hRec : r.records = []) (h : receive r = some (r2, none)) :
    r2.records ≠ [] ∨ (r2.resultCompleted = true ∧ r2.records = []) := by
  unfold receive at h
  split at h
  · simp only [Option.some.injEq, Prod.mk.injEq] at h
    cases h.2
  · rename_i reply rest hrep
    rw [hrep] at hc
    simp only [conforming, Bool.and_eq_true] at hc
    cases reply with
    | runAck metadata => simp [Reply.described] at hc
    | record fields =>
        cases fields with
        | none => simp [Reply.described] at hc
        | some f =>
            simp only [deliver, Option.some.injEq, Prod.mk.injEq, and_true] at h
            subst h
            exact Or.inl (by simp [Result.collectRecord])
    | summary metadata =>
        simp only [deliver, Option.map_eq_some', Prod.mk.injEq, and_true] at h
        obtain ⟨r1, h1, rfl⟩ := h
        have e := collectMetadata_frame metadata (r.consumed rest) r1 h1
        refine Or.inr ⟨rfl, ?_⟩
        show r1.records = []
        rw [e]
        exact hRec
    | failure e =>
        simp only [deliver, Option.some.injEq, Prod.mk.injEq] at h
        cases h.2

/-- The tail of `Next` returns false only on an empty queue, which it leaves
empty. -/
theorem advance_false (r r' : Result) (h : r.advance = (false, r')) :
    r.records = [] ∧ r'.records = [] ∧ r'.resultCompleted = r.resultCompleted := by
  unfold Result.advance at h
  split at h
  · simp only [Prod.mk.injEq] at h
    cases h.1
  · rename_i hrec
    simp only [Prod.mk.injEq, true_and] at h
    subst h
    exact ⟨hrec, hrec, rfl⟩

/-- C8. Whenever `Next()` returns false, either an error is latched (`Err()` is
non-nil) or the result is cleanly exhausted (`resultCompleted` is set and the
record queue is empty), for every reply that the state machine of the spec
lets a `receive` call deliver: a run acknowledgment of a run not yet
acknowledged, a record with its field values, a summary, an error, or a
connection that has nothing left. -/
theorem next_false_means_error_or_exhausted (r r' : Result)
    (hReplies : conforming r.runCompleted r.runner.replies = true)
    (hFalse : r.Next = some (false, r')) :
    r'.Err ≠ none ∨ (r'.resultCompleted = true ∧ r'.records = []) := by
  unfold Result.Next at hFalse
  split at hFalse
  · cases hFalse
  · simp only [Option.some.injEq, Prod.mk.injEq, true_and] at hFalse
    subst hFalse
    exact Or.inl (by simp [Result.Err])
  · rename_i r1 ha
    obtain ⟨_, hc1⟩ := awaitRun_conforming _ r r1 rfl hReplies ha
    split at hFalse
    · rename_i hcond
      simp only [Bool.and_eq_true, Bool.not_eq_true', beq_iff_eq, List.length_eq_zero] at hcond
      split at hFalse
      · cases hFalse
      · simp only [Option.some.injEq, Prod.mk.injEq, true_and] at hFalse
        subst hFalse
        exact Or.inl (by simp [Result.Err])
      · rename_i r2 hr
        simp only [Option.some.injEq] at hFalse
        obtain ⟨h2rec, h2rec', h2res⟩ := advance_false r2 r' hFalse
        rcases receive_conforming r1 r2 hc1 hcond.2 hr with hne | ⟨hres, _⟩
        · exact absurd h2rec hne
        · exact Or.inr ⟨by rw [h2res, hres], h2rec'⟩
    · rename_i hcond
      simp only [Option.some.injEq] at hFalse
      obtain ⟨h1rec, h1rec', h1res⟩ := advance_false r1 r' hFalse
      refine Or.inr ⟨?_, h1rec'⟩
      rw [h1res]
      simp only [Bool.and_eq_true, Bool.not_eq_true', beq_iff_eq, List.length_eq_zero,
        not_and] at hcond
      by_contra hres
      exact hcond (by simpa using hres) h1rec

/-- Witness of C8: the run is acknowledged and the summary follows at once;
`Next` returns false on a complete result with an empty queue and no error. -/
theorem next_false_means_error_or_exhausted_witness :
    conforming ackThenSummary.runCompleted ackThenSummary.runner.replies = true
      ∧ ackThenSummary.Next
          = some (false, { keys := ["n"], runCompleted := true, resultCompleted := true,
                           runner := { replies := [], receives := 2 } })
      ∧ (Result.Err { keys := ["n"], runCompleted := true, resultCompleted := true,
                      runner := { replies := [], receives := 2 } } ≠ none
          ∨ ((({ keys := ["n"], runCompleted := true, resultCompleted := true,
                 runner := { replies := [], receives := 2 } } : Result).resultCompleted = true)
              ∧ ({ keys := ["n"], runCompleted := true, resultCompleted := true,
                   runner := { replies := [], receives := 2 } } : Result).records = [])) :=
  ⟨rfl, rfl, next_false_means_error_or_exhausted ackThenSummary _ rfl rfl⟩

/-! ### The domain types and the value encoder -/

/-- C3. Struct arity of the domain types: for every value of `Point2D`,
`Point3D`, `Date`, `Time`, `LocalTime`, `LocalDateTime` and `Duration`,
`SerializeNeo4j` calls `StructHeader` once, first, with tag `'X'`, `'Y'`, `'D'`,
`'T'`, `'t'`, `'d'`, `'E'` and field count 3, 4, 1, 2, 1, 2, 4 respectively, and
then makes exactly that many scalar packer calls and no other call. -/
theorem dbtype_struct_arity :
    (∀ p : Point2D, isStructOfScalars 'X' 3 p.SerializeNeo4j)
      ∧ (∀ p : Point3D, isStructOfScalars 'Y' 4 p.SerializeNeo4j)
      ∧ (∀ t : GoTime, isStructOfScalars 'D' 1 (Date.SerializeNeo4j t))
      ∧ (∀ t : GoTime, isStructOfScalars 'T' 2 (Time.SerializeNeo4j t))
      ∧ (∀ t : GoTime, isStructOfScalars 't' 1 (LocalTime.SerializeNeo4j t))
      ∧ (∀ t : GoTime, isStructOfScalars 'd' 2 (LocalDateTime.SerializeNeo4j t))
      ∧ (∀ d : Duration, isStructOfScalars 'E' 4 d.SerializeNeo4j) := by
  refine ⟨?_, ?_, ?_, ?_, ?_, ?_, ?_⟩
  · intro p
    exact ⟨_, rfl, rfl, by simp [PackCall.isScalar]⟩
  · intro p
    exact ⟨_, rfl, rfl, by simp [PackCall.isScalar]⟩
  · intro t
    exact ⟨_, rfl, rfl, by simp [PackCall.isScalar]⟩
  · intro t
    exact ⟨_, rfl, rfl, by simp [PackCall.isScalar]⟩
  · intro t
    exact ⟨_, rfl, rfl, by simp [PackCall.isScalar]⟩
  · intro t
    exact ⟨_, rfl, rfl, by simp [PackCall.isScalar]⟩
  · intro d
    exact ⟨_, rfl, rfl, by simp [PackCall.isScalar]⟩

/-- C9, the code at the failing input. For a nil pointer to any of the seven
serializable types of `dbtype`, `packX` makes no packer call, emits no `Nil`
and panics: the capability check succeeds for the pointer type, and the
value-receiver method is called through the nil pointer. -/
theorem packX_nil_dbtype_pointer_panics (t : DbType) :
    packX (GoValue.nilPtr (GoType.dbtype t)) = { events := [], panicked := true } := by
  simp [packX, GoType.declaresSerializeNeo4j, Trace.panic]

theorem kind_withName (name : Option String) (t : GoType) : (withName name t).kind = t.kind := by
  cases name <;> rfl

/-- C10, counterexample. A `time.Time` is of struct kind and has no
`SerializeNeo4j` method, yet `packX` reports no error for it and makes a
packer call, `Time`. -/
theorem packX_time_is_packed :
    (GoValue.time { unix := 0, nsec := 0, offset := 0 }).kind = some GoKind.struct
      ∧ (GoValue.time { unix := 0, nsec := 0, offset := 0 }).declaredSerializeNeo4j = none
      ∧ packErrors (packX (GoValue.time { unix := 0, nsec := 0, offset := 0 })).events = []
      ∧ packCalls (packX (GoValue.time { unix := 0, nsec := 0, offset := 0 })).events
          = [PackCall.time { unix := 0, nsec := 0, offset := 0 }] := by
  decide

/-- C10, amended. For every struct-kind value that has no `SerializeNeo4j`
method and is not a `time.Time`, `packX` hands one `UnsupportedTypeError` with
the type of the value to `onPackErr` and makes no packer call; a `time.Time` is
written by the `Time` method of the packer and no error is reported. -/
theorem packX_struct_unsupported (x : GoValue) (hKind : x.kind = some GoKind.struct)
    (hNoMethod : x.declaredSerializeNeo4j = none) (hNotTime : ∀ t, x ≠ GoValue.time t) :
    packX x = Trace.emit (Event.onPackErr (PackError.unsupportedType x.typeOf))
      ∧ packCalls (packX x).events = []
      ∧ packErrors (packX x).events = [PackError.unsupportedType x.typeOf]
      ∧ ∀ t, packX (GoValue.time t) = Trace.call (PackCall.time t) := by
  have hTime : ∀ t, packX (GoValue.time t) = Trace.call (PackCall.time t) := by
    intro t; simp [packX]
  cases x with
  | struct name => simp [packX, GoValue.typeOf, Trace.emit, packCalls, packErrors]
  | other t => simp [packX, GoValue.typeOf, Trace.emit, packCalls, packErrors]
  | time t => exact absurd rfl (hNotTime t)
  | dbtype d => simp [GoValue.declaredSerializeNeo4j] at hNoMethod
  | custom name kind calls => simp [GoValue.declaredSerializeNeo4j] at hNoMethod
  | ptrTo target =>
      exfalso
      simp only [GoValue.kind, GoValue.typeOf] at hKind
      split at hKind <;> simp [GoType.kind] at hKind
  | int name w i =>
      cases w <;> simp [GoValue.kind, GoValue.typeOf, kind_withName, GoType.kind] at hKind
  | uint name w n =>
      cases w <;> simp [GoValue.kind, GoValue.typeOf, kind_withName, GoType.kind] at hKind
  | float name w f =>
      cases w <;> simp [GoValue.kind, GoValue.typeOf, kind_withName, GoType.kind] at hKind
  | _ => simp [GoValue.kind, GoValue.typeOf, kind_withName, GoType.kind] at hKind

/-- Witness of the amended C10: a struct of the caller without the method. -/
theorem packX_struct_unsupported_witness :
    (GoValue.struct "main.Person").kind = some GoKind.struct
      ∧ packX (GoValue.struct "main.Person")
          = Trace.emit (Event.onPackErr
              (PackError.unsupportedType (some (GoType.struct "main.Person")))) :=
  ⟨rfl, (packX_struct_unsupported (GoValue.struct "main.Person") rfl rfl
    (fun _ h => GoValue.noConfusion h)).1⟩

/-! ### Count agreement -/

theorem remaining_append (cs : List PackCall) (s s' u : List Expect) (ds : List PackCall)
    (h : remaining s cs = some s') : remaining (s ++ u) (cs ++ ds) = remaining (s' ++ u) ds := by
  induction cs generalizing s with
  | nil =>
      simp only [remaining, Option.some.injEq] at h
      subst h
      rfl
  | cons c cs ih =>
      cases s with
      | nil => simp [remaining] at h
      | cons e t =>
          cases e with
          | key =>
              cases c <;> simp only [remaining] at h <;> first
                | cases h
                | (simp only [List.cons_append, remaining]; exact ih t h)
          | value =>
              simp only [remaining] at h
              have h2 := ih _ h
              rw [List.append_assoc] at h2
              simpa only [List.cons_append, remaining] using h2

theorem packCalls_append (a b : List Event) : packCalls (a ++ b) = packCalls a ++ packCalls b := by
  induction a with
  | nil => rfl
  | cons e rest ih => cases e <;> simp [packCalls, ih]

theorem packErrors_append (a b : List Event) :
    packErrors (a ++ b) = packErrors a ++ packErrors b := by
  induction a with
  | nil => rfl
  | cons e rest ih => cases e <;> simp [packErrors, ih]

theorem packCalls_map_pack (cs : List PackCall) : packCalls (cs.map Event.pack) = cs := by
  induction cs with
  | nil => rfl
  | cons c rest ih => simp [packCalls, ih]

theorem packErrors_map_pack (cs : List PackCall) : packErrors (cs.map Event.pack) = [] := by
  induction cs with
  | nil => rfl
  | cons c rest ih => simp [packErrors, ih]

theorem andThen_of_panicked (a b : Trace) (h : a.panicked = true) : a.andThen b = a := by
  simp [Trace.andThen, h]

theorem andThen_of_returned (a b : Trace) (h : a.panicked = false) :
    a.andThen b = { events := a.events ++ b.events, panicked := b.panicked } := by
  simp [Trace.andThen, h]

theorem call_andThen (c : PackCall) (b : Trace) :
    (Trace.call c).andThen b = { events := Event.pack c :: b.events, panicked := b.panicked } := by
  simp [Trace.andThen, Trace.call, Trace.emit]

theorem dbtype_complete (d : DbValue) : remaining [Expect.value] d.SerializeNeo4j = some [] := by
  cases d <;> rfl

/-- A non-nil pointer is packed as the value it points to. -/
theorem packX_ptrTo (target : GoValue) : packX (GoValue.ptrTo target) = packX target := by
  cases target <;> simp [packX, GoValue.declaredSerializeNeo4j]

theorem andThen_complete (a b : Trace) (s : List Expect)
    (hErr : packErrors (a.andThen b).events = [])
    (ha : packErrors a.events = [] →
      a.panicked = false ∧ remaining [Expect.value] (packCalls a.events) = some [])
    (hb : packErrors b.events = [] →
      b.panicked = false ∧ remaining s (packCalls b.events) = some []) :
    (a.andThen b).panicked = false
      ∧ remaining (Expect.value :: s) (packCalls (a.andThen b).events) = some [] := by
  by_cases hp : a.panicked = true
  · rw [andThen_of_panicked a b hp] at hErr
    have := (ha hErr).1
    rw [hp] at this
    cases this
  · have hp' : a.panicked = false := by simpa using hp
    rw [andThen_of_returned a b hp'] at hErr ⊢
    simp only [packErrors_append, List.append_eq_nil] at hErr
    obtain ⟨_, h1⟩ := ha hErr.1
    obtain ⟨h2, h3⟩ := hb hErr.2
    refine ⟨h2, ?_⟩
    simp only [packCalls_append]
    have := remaining_append _ [Expect.value] [] s (packCalls b.events) h1
    simpa using this.trans h3

mutual
/-- When no nil pointer or misbehaving method is met and no error is reported,
`packX` returns and its calls are one complete value. -/
theorem packX_complete : ∀ x : GoValue, x.serializersComplete = true →
    packErrors (packX x).events = [] →
    (packX x).panicked = false ∧ remaining [Expect.value] (packCalls (packX x).events) = some []
  | GoValue.nil, _, _ => by simp [packX, Trace.call, Trace.emit, packCalls, remaining, PackCall.opens]
  | GoValue.bool _ _, _, _ => by
      simp [packX, Trace.call, Trace.emit, packCalls, remaining, PackCall.opens]
  | GoValue.int _ _ _, _, _ => by
      simp [packX, Trace.call, Trace.emit, packCalls, remaining, PackCall.opens]
  | GoValue.uint _ w _, _, _ => by
      cases w <;> simp [packX, Trace.call, Trace.emit, packCalls, remaining, PackCall.opens]
  | GoValue.float _ _ _, _, _ => by
      simp [packX, Trace.call, Trace.emit, packCalls, remaining, PackCall.opens]
  | GoValue.string _ _, _, _ => by
      simp [packX, Trace.call, Trace.emit, packCalls, remaining, PackCall.opens]
  | GoValue.nilPtr elem, hs, _ => by
      have hd : elem.declaresSerializeNeo4j = false := by
        simpa [GoValue.serializersComplete] using hs
      simp [packX, hd, Trace.call, Trace.emit, packCalls, remaining, PackCall.opens]
  | GoValue.ptrTo target, hs, he => by
      rw [packX_ptrTo] at he ⊢
      exact packX_complete target (by simpa [GoValue.serializersComplete] using hs) he
  | GoValue.time _, _, _ => by
      simp [packX, Trace.call, Trace.emit, packCalls, remaining, PackCall.opens]
  | GoValue.struct _, _, he => by simp [packX, Trace.emit, packErrors] at he
  | GoValue.dbtype d, _, _ => by
      simp [packX, Trace.calls, packCalls_map_pack, dbtype_complete]
  | GoValue.custom _ _ calls, hs, _ => by
      have hc : remaining [Expect.value] calls = some [] := by
        simpa [GoValue.serializersComplete] using hs
      simp [packX, Trace.calls, packCalls_map_pack, hc]
  | GoValue.bytes _, _, _ => by
      simp [packX, Trace.call, Trace.emit, packCalls, remaining, PackCall.opens]
  | GoValue.ints _, _, _ => by
      simp [packX, Trace.call, Trace.emit, packCalls, remaining, PackCall.opens]
  | GoValue.int64s _, _, _ => by
      simp [packX, Trace.call, Trace.emit, packCalls, remaining, PackCall.opens]
  | GoValue.strings _, _, _ => by
      simp [packX, Trace.call, Trace.emit, packCalls, remaining, PackCall.opens]
  | GoValue.float64s _, _, _ => by
      simp [packX, Trace.call, Trace.emit, packCalls, remaining, PackCall.opens]
  | GoValue.anys s, hs, he => by
      simp only [packX, call_andThen, packErrors] at he ⊢
      have ih := packXs_complete s (by simpa [GoValue.serializersComplete] using hs) he
      exact ⟨ih.1, by simpa [packCalls, remaining, PackCall.opens] using ih.2⟩
  | GoValue.slice _ _ s, hs, he => by
      simp only [packX, call_andThen, packErrors] at he ⊢
      have ih := packXs_complete s (by simpa [GoValue.serializersComplete] using hs) he
      exact ⟨ih.1, by simpa [packCalls, remaining, PackCall.opens] using ih.2⟩
  | GoValue.intMap _, _, _ => by
      simp [packX, Trace.call, Trace.emit, packCalls, remaining, PackCall.opens]
  | GoValue.stringMap _, _, _ => by
      simp [packX, Trace.call, Trace.emit, packCalls, remaining, PackCall.opens]
  | GoValue.anyMap m, hs, he => by
      simp only [packX, call_andThen, packErrors] at he ⊢
      have ih := packEntries_complete m (by simpa [GoValue.serializersComplete] using hs) he
      exact ⟨ih.1, by simpa [packCalls, remaining, PackCall.opens] using ih.2⟩
  | GoValue.map _ key _ m, hs, he => by
      by_cases hk : key.kind = GoKind.string
      · simp only [packX, hk, ne_eq, not_true_eq_false, ↓reduceIte, call_andThen,
          packErrors] at he ⊢
        have ih := packEntries_complete m (by simpa [GoValue.serializersComplete] using hs) he
        exact ⟨ih.1, by simpa [packCalls, remaining, PackCall.opens] using ih.2⟩
      · simp [packX, hk, Trace.emit, packErrors] at he
  | GoValue.other _, _, he => by simp [packX, Trace.emit, packErrors] at he
/-- The elements of a slice, likewise: as many complete values as elements. -/
theorem packXs_complete : ∀ xs : List GoValue, serializersCompleteList xs = true →
    packErrors (packXs xs).events = [] →
    (packXs xs).panicked = false
      ∧ remaining (List.replicate xs.length Expect.value) (packCalls (packXs xs).events) = some []
  | [], _, _ => by simp [packXs, packCalls, remaining]
  | e :: rest, hs, he => by
      have hs' : e.serializersComplete = true ∧ serializersCompleteList rest = true := by
        simpa [serializersCompleteList] using hs
      simp only [packXs] at he ⊢
      simp only [List.length_cons, List.replicate_succ]
      exact andThen_complete _ _ _ he (packX_complete e hs'.1) (packXs_complete rest hs'.2)
/-- The entries of a map, likewise: as many key and value pairs as entries. -/
theorem packEntries_complete : ∀ m : List (String × GoValue),
    serializersCompleteEntries m = true →
    packErrors (packEntries m).events = [] →
    (packEntries m).panicked = false
      ∧ remaining (entryExpect m.length) (packCalls (packEntries m).events) = some []
  | [], _, _ => by simp [packEntries, packCalls, remaining, entryExpect]
  | (k, v) :: rest, hs, he => by
      have hs' : v.serializersComplete = true ∧ serializersCompleteEntries rest = true := by
        simpa [serializersCompleteEntries] using hs
      simp only [packEntries] at he ⊢
      simp only [List.length_cons, entryExpect]
      by_cases hp : (packX v).panicked = true
      · have hkv : (Trace.call (PackCall.string k)).andThen (packX v)
            = { events := Event.pack (PackCall.string k) :: (packX v).events, panicked := true } := by
          rw [call_andThen, hp]
        rw [hkv, andThen_of_panicked _ _ rfl] at he
        simp only [packErrors] at he
        have := (packX_complete v hs'.1 he).1
        rw [hp] at this
        cases this
      · have hp' : (packX v).panicked = false := by simpa using hp
        have hall : ((Trace.call (PackCall.string k)).andThen (packX v)).andThen (packEntries rest)
            = { events := Event.pack (PackCall.string k)
                  :: ((packX v).events ++ (packEntries rest).events),
                panicked := (packEntries rest).panicked } := by
          simp [Trace.andThen, Trace.call, Trace.emit, hp']
        rw [hall] at he ⊢
        simp only [packErrors, packErrors_append, List.append_eq_nil] at he
        obtain ⟨_, h1⟩ := packX_complete v hs'.1 he.1
        obtain ⟨h2, h3⟩ := packEntries_complete rest hs'.2 he.2
        refine ⟨h2, ?_⟩
        simp only [packCalls, packCalls_append, remaining]
        have := remaining_append _ [Expect.value] [] (entryExpect rest.length)
          (packCalls (packEntries rest).events) h1
        simpa using this.trans h3
end

/-- C5. Count agreement in `packX`: when every `SerializeNeo4j` call made for
the value writes one complete value (the packer's fast-path methods count as
one value each) and `packX` reports no encode error, `packX` returns and its
packer calls form exactly one complete wire value, in which every
`ArrayHeader(n)` is followed by exactly `n` complete values and every
`MapHeader(n)` by exactly `n` pairs of a string key and a value. Equivalently:
when a declared count disagrees with what was written, `onPackErr` was invoked. -/
theorem packX_counts_agree (x : GoValue) (hSerializers : x.serializersComplete = true) :
    (packErrors (packX x).events = [] →
        (packX x).panicked = false ∧ completeValues 1 (packCalls (packX x).events))
      ∧ (¬ completeValues 1 (packCalls (packX x).events) → packErrors (packX x).events ≠ []) := by
  have h := packX_complete x hSerializers
  refine ⟨fun he => ⟨(h he).1, (h he).2⟩, fun hn he => hn (h he).2⟩

/-- Witness of C5: a list of an integer, a pointer to a point and a
dictionary is written as one complete value. -/
theorem packX_counts_agree_witness :
    sampleValue.serializersComplete = true
      ∧ packErrors (packX sampleValue).events = []
      ∧ (packX sampleValue).panicked = false
      ∧ completeValues 1 (packCalls (packX sampleValue).events) :=
  ⟨rfl, rfl, (packX_counts_agree sampleValue rfl).1 rfl⟩

/-! ### The message builders -/

theorem run_run (o : Outgoing) (a b : Trace) : (o.run a).run b = o.run (a.andThen b) := by
  by_cases ho : o.panicked = true
  · simp [Outgoing.run, ho]
  · by_cases ha : a.panicked = true
    · simp [Outgoing.run, ho, ha, Trace.andThen]
    · simp [Outgoing.run, ho, ha, Trace.andThen, packCalls_append, List.append_assoc]

theorem andThen_assoc (a b c : Trace) : (a.andThen b).andThen c = a.andThen (b.andThen c) := by
  by_cases ha : a.panicked = true
  · simp [Trace.andThen, ha]
  · by_cases hb : b.panicked = true
    · simp [Trace.andThen, ha, hb]
    · simp [Trace.andThen, ha, hb, List.append_assoc]

theorem call_andThen_calls (c : PackCall) (cs : List PackCall) :
    (Trace.call c).andThen (Trace.calls cs) = Trace.calls (c :: cs) := by
  simp [Trace.andThen, Trace.call, Trace.emit, Trace.calls]

theorem calls_andThen_calls (as bs : List PackCall) :
    (Trace.calls as).andThen (Trace.calls bs) = Trace.calls (as ++ bs) := by
  simp [Trace.andThen, Trace.calls]

theorem call_eq_calls (c : PackCall) : Trace.call c = Trace.calls [c] := rfl

theorem calls_andThen_calls_andThen (as bs : List PackCall) (t : Trace) :
    (Trace.calls as).andThen ((Trace.calls bs).andThen t) = (Trace.calls (as ++ bs)).andThen t := by
  rw [← andThen_assoc, calls_andThen_calls]

/-- Every builder is the shared frame around its struct header and fields. -/
theorem append_eq_message (c : Constants) (o : Outgoing) (msg : Message) :
    o.append c msg
      = o.message msg.format
          ((Trace.call (PackCall.structHeader (msg.tag c) msg.arity)).andThen (msg.fields c)) := by
  cases msg <;>
    simp only [Outgoing.append, Outgoing.message, Message.format, Message.tag, Message.arity,
      Message.fields, Outgoing.appendHello, Outgoing.appendLogon, Outgoing.appendLogoff,
      Outgoing.appendBegin, Outgoing.appendCommit, Outgoing.appendRollback, Outgoing.appendRun,
      Outgoing.appendPullN, Outgoing.appendPullNQid, Outgoing.appendDiscardN,
      Outgoing.appendDiscardNQid, Outgoing.appendPullAll, Outgoing.appendRouteToV43,
      Outgoing.appendRoute, Outgoing.appendReset, Outgoing.appendGoodbye,
      Outgoing.appendTelemetry, Outgoing.pack, run_run, andThen_assoc, call_andThen_calls,
      calls_andThen_calls, calls_andThen_calls_andThen, call_eq_calls, List.cons_append,
      List.nil_append, List.append_assoc]

/-- What the shared frame does, on an `outgoing` that has not panicked. -/
theorem message_events (o : Outgoing) (format : String) (body : Trace)
    (ho : o.panicked = false) :
    (o.message format body).panicked = body.panicked
      ∧ (o.message format body).events
          = o.events ++ (if o.boltLogger then [Event.logClientMessage format] else [])
            ++ [Event.beginMessage, Event.packerBegin] ++ body.events
            ++ (if body.panicked then []
                else [Event.packerEnd, Event.endMessage]
                  ++ (match o.packerErr (packCalls body.events) with
                      | some e => [Event.onPackErr e]
                      | none => [])) := by
  by_cases hl : o.boltLogger = true <;> by_cases hb : body.panicked = true <;>
    cases hp : o.packerErr (packCalls body.events) <;>
    simp [Outgoing.message, Outgoing.logClientMessage, Outgoing.begin, Outgoing.run,
      Outgoing.end', Trace.emit, packCalls, ho, hl, hb, hp]

theorem writes_call (c : PackCall) (s : List Expect) :
    (Trace.call c).writes (Expect.value :: s) (c.opens ++ s) := by
  intro _
  refine ⟨rfl, fun u ds => ?_⟩
  simp [Trace.call, Trace.emit, packCalls, remaining]

theorem writes_calls (cs : List PackCall) (s s' : List Expect) (h : remaining s cs = some s') :
    (Trace.calls cs).writes s s' := by
  intro _
  refine ⟨rfl, fun u ds => ?_⟩
  simp only [Trace.calls, packCalls_map_pack]
  exact remaining_append cs s s' u ds h

theorem writes_andThen (a b : Trace) (s s' s'' : List Expect) (ha : a.writes s s')
    (hb : b.writes s' s'') : (a.andThen b).writes s s'' := by
  intro he
  by_cases hp : a.panicked = true
  · rw [andThen_of_panicked a b hp] at he
    have := (ha he).1
    rw [hp] at this
    cases this
  · have hp' : a.panicked = false := by simpa using hp
    rw [andThen_of_returned a b hp'] at he ⊢
    simp only [packErrors_append, List.append_eq_nil] at he
    obtain ⟨_, h1⟩ := ha he.1
    obtain ⟨h2, h3⟩ := hb he.2
    refine ⟨h2, fun u ds => ?_⟩
    simp only [packCalls_append, List.append_assoc]
    rw [h1, h3]

theorem writes_packMap (m : List (String × GoValue)) (s : List Expect)
    (hs : serializersCompleteEntries m = true) : (packMap m).writes (Expect.value :: s) s := by
  intro he
  simp only [packMap, call_andThen, packErrors] at he ⊢
  obtain ⟨h1, h2⟩ := packEntries_complete m hs he
  refine ⟨h1, fun u ds => ?_⟩
  simp only [packCalls, List.cons_append, remaining, PackCall.opens]
  have := remaining_append _ (entryExpect m.length) [] (s ++ u) ds h2
  simpa using this

theorem remaining_stringEntryCalls (context : List (String × String)) (s : List Expect)
    (cs : List PackCall) :
    remaining (entryExpect context.length ++ s) (stringEntryCalls context ++ cs)
      = remaining s cs := by
  induction context with
  | nil => simp [entryExpect, stringEntryCalls]
  | cons kv rest ih =>
      obtain ⟨k, v⟩ := kv
      simp [entryExpect, stringEntryCalls, remaining, PackCall.opens, ih]

theorem remaining_stringCalls (bookmarks : List String) (s : List Expect) (cs : List PackCall) :
    remaining (List.replicate bookmarks.length Expect.value ++ s) (stringCalls bookmarks ++ cs)
      = remaining s cs := by
  induction bookmarks with
  | nil => simp [stringCalls]
  | cons b rest ih =>
      simp [List.replicate_succ, stringCalls, remaining, PackCall.opens, ih]

/-- The fields of every builder are as many complete values as its arity. -/
theorem fields_writes (c : Constants) (msg : Message) (hs : msg.serializersComplete = true) :
    (msg.fields c).writes (List.replicate msg.arity Expect.value) [] := by
  cases msg with
  | hello m => exact writes_packMap m [] hs
  | logon m => exact writes_packMap m [] hs
  | begin m => exact writes_packMap m [] hs
  | run cypher params metadata =>
      have hs' : serializersCompleteEntries params = true
          ∧ serializersCompleteEntries metadata = true := by
        simpa [Message.serializersComplete] using hs
      exact writes_andThen _ _ _ _ _ (writes_call (PackCall.string cypher) _)
        (writes_andThen _ _ _ _ _ (writes_packMap params _ hs'.1) (writes_packMap metadata _ hs'.2))
  | routeToV43 context bookmarks database =>
      apply writes_calls
      simp only [Message.arity, List.replicate, remaining, PackCall.opens, List.cons_append,
        List.append_eq, List.append_assoc]
      rw [remaining_stringEntryCalls]
      simp only [remaining, PackCall.opens]
      rw [remaining_stringCalls]
      split <;> rfl
  | route context bookmarks what =>
      refine writes_andThen _ _ _ [Expect.value] _ (writes_calls _ _ _ ?_)
        (writes_packMap what [] hs)
      simp only [Message.arity, List.replicate, remaining, PackCall.opens, List.cons_append,
        List.append_eq, List.append_assoc]
      rw [remaining_stringEntryCalls]
      simp only [remaining, PackCall.opens]
      have := remaining_stringCalls bookmarks [Expect.value] []
      simpa using this
  | pullN n => exact writes_calls _ _ _ rfl
  | pullNQid n qid => exact writes_calls _ _ _ rfl
  | discardN n => exact writes_calls _ _ _ rfl
  | discardNQid n qid => exact writes_calls _ _ _ rfl
  | telemetry api => exact writes_calls _ _ _ rfl
  | logoff => exact writes_calls _ _ _ rfl
  | commit => exact writes_calls _ _ _ rfl
  | rollback => exact writes_calls _ _ _ rfl
  | pullAll => exact writes_calls _ _ _ rfl
  | reset => exact writes_calls _ _ _ rfl
  | goodbye => exact writes_calls _ _ _ rfl

theorem allPacking_andThen (a b : Trace) (ha : a.events.all Event.isPacking = true)
    (hb : b.events.all Event.isPacking = true) :
    (a.andThen b).events.all Event.isPacking = true := by
  by_cases hp : a.panicked = true
  · rw [andThen_of_panicked a b hp]; exact ha
  · have hp' : a.panicked = false := by simpa using hp
    rw [andThen_of_returned a b hp']
    simp only [List.all_append, ha, hb, Bool.and_self]

theorem allPacking_calls (cs : List PackCall) :
    (Trace.calls cs).events.all Event.isPacking = true := by
  simp [Trace.calls, Event.isPacking]

theorem allPacking_call (c : PackCall) : (Trace.call c).events.all Event.isPacking = true := by
  simp [Trace.call, Trace.emit, Event.isPacking]

mutual
/-- All that `packX` does is to call the packer and `onPackErr`. -/
theorem packX_allPacking : ∀ x : GoValue, (packX x).events.all Event.isPacking = true
  | GoValue.nil => by simp [packX, Trace.call, Trace.emit, Event.isPacking]
  | GoValue.bool _ _ => by simp [packX, Trace.call, Trace.emit, Event.isPacking]
  | GoValue.int _ _ _ => by simp [packX, Trace.call, Trace.emit, Event.isPacking]
  | GoValue.uint _ w _ => by cases w <;> simp [packX, Trace.call, Trace.emit, Event.isPacking]
  | GoValue.float _ _ _ => by simp [packX, Trace.call, Trace.emit, Event.isPacking]
  | GoValue.string _ _ => by simp [packX, Trace.call, Trace.emit, Event.isPacking]
  | GoValue.nilPtr elem => by
      cases h : elem.declaresSerializeNeo4j <;>
        simp [packX, h, Trace.call, Trace.emit, Trace.panic, Event.isPacking]
  | GoValue.ptrTo target => by
      rw [packX_ptrTo]
      exact packX_allPacking target
  | GoValue.time _ => by simp [packX, Trace.call, Trace.emit, Event.isPacking]
  | GoValue.struct _ => by simp [packX, Trace.emit, Event.isPacking]
  | GoValue.dbtype d => by simp [packX, allPacking_calls]
  | GoValue.custom _ _ calls => by simp [packX, allPacking_calls]
  | GoValue.bytes _ => by simp [packX, Trace.call, Trace.emit, Event.isPacking]
  | GoValue.ints _ => by simp [packX, Trace.call, Trace.emit, Event.isPacking]
  | GoValue.int64s _ => by simp [packX, Trace.call, Trace.emit, Event.isPacking]
  | GoValue.strings _ => by simp [packX, Trace.call, Trace.emit, Event.isPacking]
  | GoValue.float64s _ => by simp [packX, Trace.call, Trace.emit, Event.isPacking]
  | GoValue.anys s => by
      simp only [packX]
      exact allPacking_andThen _ _ (allPacking_call _) (packXs_allPacking s)
  | GoValue.slice _ _ s => by
      simp only [packX]
      exact allPacking_andThen _ _ (allPacking_call _) (packXs_allPacking s)
  | GoValue.intMap _ => by simp [packX, Trace.call, Trace.emit, Event.isPacking]
  | GoValue.stringMap _ => by simp [packX, Trace.call, Trace.emit, Event.isPacking]
  | GoValue.anyMap m => by
      simp only [packX]
      exact allPacking_andThen _ _ (allPacking_call _) (packEntries_allPacking m)
  | GoValue.map _ key _ m => by
      by_cases hk : key.kind = GoKind.string
      · simp only [packX, hk, ne_eq, not_true_eq_false, ↓reduceIte]
        exact allPacking_andThen _ _ (allPacking_call _) (packEntries_allPacking m)
      · simp [packX, hk, Trace.emit, Event.isPacking]
  | GoValue.other _ => by simp [packX, Trace.emit, Event.isPacking]
/-- The elements of a slice, likewise. -/
theorem packXs_allPacking : ∀ xs : List GoValue, (packXs xs).events.all Event.isPacking = true
  | [] => by simp [packXs]
  | e :: rest => by
      simp only [packXs]
      exact allPacking_andThen _ _ (packX_allPacking e) (packXs_allPacking rest)
/-- The entries of a map, likewise. -/
theorem packEntries_allPacking : ∀ m : List (String × GoValue),
    (packEntries m).events.all Event.isPacking = true
  | [] => by simp [packEntries]
  | (k, v) :: rest => by
      simp only [packEntries]
      exact allPacking_andThen _ _
        (allPacking_andThen _ _ (allPacking_call _) (packX_allPacking v))
        (packEntries_allPacking rest)
end

theorem packMap_allPacking (m : List (String × GoValue)) :
    (packMap m).events.all Event.isPacking = true :=
  allPacking_andThen _ _ (allPacking_call _) (packEntries_allPacking m)

theorem fields_allPacking (c : Constants) (msg : Message) :
    (msg.fields c).events.all Event.isPacking = true := by
  cases msg <;> simp only [Message.fields] <;>
    first
    | exact packMap_allPacking _
    | exact allPacking_calls _
    | exact allPacking_andThen _ _ (allPacking_call _)
        (allPacking_andThen _ _ (packMap_allPacking _) (packMap_allPacking _))
    | exact allPacking_andThen _ _ (allPacking_calls _) (packMap_allPacking _)

/-- Events that are packer calls or error reports, with no error report among
them, are the packer calls among them. -/
theorem events_eq_map_pack (events : List Event) (hp : events.all Event.isPacking = true)
    (he : packErrors events = []) : events = (packCalls events).map Event.pack := by
  induction events with
  | nil => rfl
  | cons e rest ih =>
      rw [List.all_cons, Bool.and_eq_true] at hp
      cases e <;> simp only [Event.isPacking, packErrors, packCalls, List.map_cons] at hp he ⊢ <;>
        first
        | exact absurd hp.1 (by decide)
        | exact absurd he (by simp)
        | (rw [← ih hp.2 he])

/-- When the frame reports no encode error, its body reported none, and if
the body returned, the frame ended the message and did nothing more. -/
theorem message_no_error (o : Outgoing) (format : String) (body : Trace)
    (ho : o.panicked = false)
    (hNoErr : packErrors ((o.message format body).events.drop o.events.length) = []) :
    packErrors body.events = []
      ∧ (body.panicked = false →
          (o.message format body).events
            = o.events ++ (if o.boltLogger then [Event.logClientMessage format] else [])
              ++ [Event.beginMessage, Event.packerBegin] ++ body.events
              ++ [Event.packerEnd, Event.endMessage]) := by
  obtain ⟨_, hev⟩ := message_events o format body ho
  rw [hev] at hNoErr ⊢
  simp only [List.append_assoc, List.drop_left, packErrors_append, List.append_eq_nil] at hNoErr
  obtain ⟨_, _, hB, hTail⟩ := hNoErr
  refine ⟨hB, fun hret => ?_⟩
  rw [hret] at hTail ⊢
  simp only [Bool.false_eq_true, ↓reduceIte] at hTail ⊢
  cases hpe : o.packerErr (packCalls body.events) with
  | some e => simp [hpe, packErrors] at hTail
  | none => simp

/-- C4, counterexample. `appendHello` with a dictionary whose value is of a type
of the caller whose `SerializeNeo4j` writes nothing: no encode error is
reported and the builder returns, yet what follows `StructHeader(HELLO, 1)`
between begin and end is `MapHeader(1)`, `String("a")`, which is not one
complete value. -/
theorem hello_fields_incomplete :
    packErrors (Outgoing.appendHello boltConstants {} helloWithSilentSerializer).events = []
      ∧ (Outgoing.appendHello boltConstants {} helloWithSilentSerializer).panicked = false
      ∧ (Outgoing.appendHello boltConstants {} helloWithSilentSerializer).events
          = [Event.beginMessage, Event.packerBegin,
             Event.pack (PackCall.structHeader 1 1),
             Event.pack (PackCall.mapHeader 1), Event.pack (PackCall.string "a"),
             Event.packerEnd, Event.endMessage]
      ∧ ¬ completeValues 1 [PackCall.mapHeader 1, PackCall.string "a"] := by
  refine ⟨rfl, rfl, rfl, ?_⟩
  unfold completeValues
  decide

/-- C4, amended. Builder arity: for every outgoing message builder and all
arguments for which every `SerializeNeo4j` call writes one complete value and
no encode error is reported, the builder returns and what it does is: the log
call if a logger is set, one begin, the packer calls `StructHeader(tag, k)`
followed by exactly `k` complete wire values, one end, and nothing else; `k` is
0 for LOGOFF, COMMIT, ROLLBACK, PULL ALL, RESET and GOODBYE, 1 for HELLO, LOGON,
BEGIN, PULL, DISCARD and TELEMETRY, 3 for RUN and both ROUTE variants. -/
theorem builder_arity (c : Constants) (o : Outgoing) (msg : Message)
    (hReady : o.panicked = false) (hSerializers : msg.serializersComplete = true)
    (hNoErr : packErrors ((o.append c msg).events.drop o.events.length) = []) :
    ∃ body : List PackCall,
      (o.append c msg).panicked = false
        ∧ (o.append c msg).events
            = o.events ++ (if o.boltLogger then [Event.logClientMessage msg.format] else [])
              ++ [Event.beginMessage, Event.packerBegin]
              ++ (PackCall.structHeader (msg.tag c) msg.arity :: body).map Event.pack
              ++ [Event.packerEnd, Event.endMessage]
        ∧ completeValues msg.arity body := by
  rw [append_eq_message] at hNoErr ⊢
  obtain ⟨hB, hshape⟩ := message_no_error o msg.format _ hReady hNoErr
  rw [call_andThen] at hB
  have hF : packErrors (msg.fields c).events = [] := by simpa [packErrors] using hB
  obtain ⟨hret, hrem⟩ := fields_writes c msg hSerializers hF
  have hbody := events_eq_map_pack _ (fields_allPacking c msg) hF
  have hpan : ((Trace.call (PackCall.structHeader (msg.tag c) msg.arity)).andThen
      (msg.fields c)).panicked = false := by
    rw [call_andThen]; exact hret
  refine ⟨packCalls (msg.fields c).events, ?_, ?_, ?_⟩
  · rw [(message_events o msg.format _ hReady).1, hpan]
  · rw [hshape hpan, call_andThen, List.map_cons, ← hbody]
  · have := hrem [] []
    simpa [completeValues] using this

/-- Witness of the amended C4: a RUN message with a parameter, on an `outgoing`
with a logger. -/
theorem builder_arity_witness :
    ∃ body : List PackCall,
      (Outgoing.append boltConstants { boltLogger := true }
          (Message.run "RETURN $x" [("x", GoValue.int none IntWidth.int 1)] [])).panicked = false
        ∧ (Outgoing.append boltConstants { boltLogger := true }
            (Message.run "RETURN $x" [("x", GoValue.int none IntWidth.int 1)] [])).events
            = [] ++ (if true then [Event.logClientMessage "RUN %q %s %s"] else [])
              ++ [Event.beginMessage, Event.packerBegin]
              ++ (PackCall.structHeader 16 3 :: body).map Event.pack
              ++ [Event.packerEnd, Event.endMessage]
        ∧ completeValues 3 body :=
  builder_arity boltConstants { boltLogger := true }
    (Message.run "RETURN $x" [("x", GoValue.int none IntWidth.int 1)] []) rfl rfl rfl

/-! ### Dispatch of `packX` by kind -/

theorem mapKey_withName (name : Option String) (t : GoType) :
    (withName name t).mapKey = t.mapKey := by
  cases name <;> rfl

theorem packEntries_ints_no_error (m : List (String × Int)) :
    packErrors (packEntries
      (m.map (fun kv => (kv.1, GoValue.int none IntWidth.int kv.2)))).events = [] := by
  induction m with
  | nil => rfl
  | cons kv rest ih =>
      simp only [List.map_cons, packEntries, packX, call_andThen_calls, call_eq_calls,
        calls_andThen_calls]
      rw [andThen_of_returned _ _ rfl]
      simp [packErrors_append, ih, Trace.calls, packErrors]

theorem packEntries_strings_no_error (m : List (String × String)) :
    packErrors (packEntries
      (m.map (fun kv => (kv.1, GoValue.string none kv.2)))).events = [] := by
  induction m with
  | nil => rfl
  | cons kv rest ih =>
      simp only [List.map_cons, packEntries, packX, call_andThen_calls, call_eq_calls,
        calls_andThen_calls]
      rw [andThen_of_returned _ _ rfl]
      simp [packErrors_append, ih, Trace.calls, packErrors]

/-- C11. Map-key rejection: for every map value whose key type is not of string
kind, `packX` hands one `UnsupportedTypeError` carrying the type of the map to
`onPackErr` and makes no packer call, so no `MapHeader` and no entry is written.
For every map whose key type is of string kind a packer call is made and the
only errors reported are those of packing its values: none for the key type. -/
theorem packX_map_key (x : GoValue) (key : GoType)
    (hKey : x.typeOf.bind GoType.mapKey = some key) :
    (key.kind ≠ GoKind.string →
        packX x = Trace.emit (Event.onPackErr (PackError.unsupportedType x.typeOf))
          ∧ packCalls (packX x).events = []
          ∧ packErrors (packX x).events = [PackError.unsupportedType x.typeOf])
      ∧ (key.kind = GoKind.string → ∀ m, x.entries = some m →
          packErrors (packX x).events = packErrors (packEntries m).events
            ∧ ∃ first rest, packCalls (packX x).events = first :: rest) := by
  cases x with
  | map name k elem m =>
      have hk : k = key := by
        simpa [GoValue.typeOf, mapKey_withName, GoType.mapKey] using hKey
      subst hk
      refine ⟨fun hne => ?_, fun heq m' hm => ?_⟩
      · simp [packX, hne, GoValue.typeOf, Trace.emit, packCalls, packErrors]
      · simp only [GoValue.entries, Option.some.injEq] at hm
        subst hm
        simp [packX, heq, call_andThen, packErrors, packCalls]
  | intMap m0 =>
      have hk : GoType.string = key := by
        simpa [GoValue.typeOf, GoType.mapKey] using hKey
      subst hk
      refine ⟨fun hne => absurd rfl hne, fun _ m' hm => ?_⟩
      simp only [GoValue.entries, Option.some.injEq] at hm
      subst hm
      rw [packEntries_ints_no_error]
      simp [packX, Trace.call, Trace.emit, packErrors, packCalls]
  | stringMap m0 =>
      have hk : GoType.string = key := by
        simpa [GoValue.typeOf, GoType.mapKey] using hKey
      subst hk
      refine ⟨fun hne => absurd rfl hne, fun _ m' hm => ?_⟩
      simp only [GoValue.entries, Option.some.injEq] at hm
      subst hm
      rw [packEntries_strings_no_error]
      simp [packX, Trace.call, Trace.emit, packErrors, packCalls]
  | anyMap m0 =>
      have hk : GoType.string = key := by
        simpa [GoValue.typeOf, GoType.mapKey] using hKey
      subst hk
      refine ⟨fun hne => absurd rfl hne, fun _ m' hm => ?_⟩
      simp only [GoValue.entries, Option.some.injEq] at hm
      subst hm
      simp [packX, call_andThen, packErrors, packCalls]
  | other t =>
      refine ⟨fun _ => ?_, fun _ m' hm => ?_⟩
      · simp [packX, GoValue.typeOf, Trace.emit, packCalls, packErrors]
      · simp [GoValue.entries] at hm
  | ptrTo target =>
      exfalso
      simp only [GoValue.typeOf] at hKey
      split at hKey <;> simp [GoType.mapKey] at hKey
  | _ => simp [GoValue.typeOf, mapKey_withName, GoType.mapKey] at hKey

/-- Witness of C11: a `map[int]string` is rejected whole. -/
theorem packX_map_key_witness :
    intKeyedMap.typeOf.bind GoType.mapKey = some (GoType.int IntWidth.int)
      ∧ (GoType.int IntWidth.int).kind ≠ GoKind.string
      ∧ packX intKeyedMap
          = Trace.emit (Event.onPackErr (PackError.unsupportedType
              (some (GoType.map (GoType.int IntWidth.int) GoType.string)))) :=
  ⟨rfl, by decide, ((packX_map_key intKeyedMap (GoType.int IntWidth.int) rfl).1 (by decide)).1⟩

/-- C12. Unsupported kinds: for every non-nil value that has no `SerializeNeo4j`
method and whose kind is none of bool, signed integer, uint8/16/32/64/uint,
float32/64, string, pointer, struct, slice or map, `packX` invokes `onPackErr`
exactly once, with an `UnsupportedTypeError` whose `Type` is the run-time type
of the value, and makes no packer call. -/
theorem packX_unlisted_kind (x : GoValue) (k : GoKind) (hKind : x.kind = some k)
    (hUnlisted : k.listed = false) (hNoMethod : x.declaredSerializeNeo4j = none) :
    packX x = Trace.emit (Event.onPackErr (PackError.unsupportedType x.typeOf))
      ∧ (packX x).events = [Event.onPackErr (PackError.unsupportedType x.typeOf)]
      ∧ packCalls (packX x).events = []
      ∧ packErrors (packX x).events = [PackError.unsupportedType x.typeOf]
      ∧ (packX x).panicked = false := by
  cases x with
  | other t => simp [packX, GoValue.typeOf, Trace.emit, packCalls, packErrors]
  | dbtype d => simp [GoValue.declaredSerializeNeo4j] at hNoMethod
  | custom name kind calls => simp [GoValue.declaredSerializeNeo4j] at hNoMethod
  | nil => simp [GoValue.kind, GoValue.typeOf] at hKind
  | ptrTo target =>
      exfalso
      simp only [GoValue.kind, GoValue.typeOf] at hKind
      split at hKind <;>
        (simp only [Option.map_some', Option.some.injEq, GoType.kind] at hKind
         subst hKind
         simp [GoKind.listed] at hUnlisted)
  | int name w i =>
      exfalso
      cases w <;>
        (simp only [GoValue.kind, GoValue.typeOf, Option.map_some', Option.some.injEq,
          kind_withName, GoType.kind] at hKind
         subst hKind
         simp [GoKind.listed] at hUnlisted)
  | uint name w n =>
      exfalso
      cases w <;>
        (simp only [GoValue.kind, GoValue.typeOf, Option.map_some', Option.some.injEq,
          kind_withName, GoType.kind] at hKind
         subst hKind
         simp [GoKind.listed] at hUnlisted)
  | float name w f =>
      exfalso
      cases w <;>
        (simp only [GoValue.kind, GoValue.typeOf, Option.map_some', Option.some.injEq,
          kind_withName, GoType.kind] at hKind
         subst hKind
         simp [GoKind.listed] at hUnlisted)
  | _ =>
      exfalso
      simp only [GoValue.kind, GoValue.typeOf, Option.map_some', Option.some.injEq,
        kind_withName, GoType.kind] at hKind
      subst hKind
      simp [GoKind.listed] at hUnlisted

/-- Witness of C12: a function value. -/
theorem packX_unlisted_kind_witness :
    (GoValue.other (GoType.func "func()")).kind = some GoKind.func
      ∧ GoKind.func.listed = false
      ∧ (packX (GoValue.other (GoType.func "func()"))).events
          = [Event.onPackErr (PackError.unsupportedType (some (GoType.func "func()")))] :=
  ⟨rfl, rfl, (packX_unlisted_kind (GoValue.other (GoType.func "func()")) GoKind.func
    rfl rfl rfl).2.1⟩

/-- C13, counterexample. `appendHello` with a dictionary holding a function
value: `packX` hands an `UnsupportedTypeError` to `onPackErr`, and `end` still
calls `packer.End` and `chunker.endMessage` for the message; the `send` that
follows calls `chunker.send`. -/
theorem encode_error_message_still_framed :
    ((Outgoing.appendHello boltConstants {} helloWithFunction).send).events
      = [Event.beginMessage, Event.packerBegin,
         Event.pack (PackCall.structHeader 1 1),
         Event.pack (PackCall.mapHeader 1), Event.pack (PackCall.string "f"),
         Event.onPackErr (PackError.unsupportedType (some (GoType.func "func()"))),
         Event.packerEnd, Event.endMessage, Event.send] := by
  decide

/-- C13, amended. An encode error does not keep a message from the framer:
every builder that returns has called `packer.End` and then
`chunker.endMessage` for its message, whatever `packX` handed to `onPackErr`
before, and hands the error of `packer.End`, if any, to `onPackErr` only after
that; a following `send` calls `chunker.send` whether or not an encode error was
reported. -/
theorem builder_frames_despite_errors (c : Constants) (o : Outgoing) (msg : Message)
    (hReady : o.panicked = false) (hReturns : (o.append c msg).panicked = false) :
    ∃ body : List Event,
      (o.append c msg).events
          = o.events ++ (if o.boltLogger then [Event.logClientMessage msg.format] else [])
            ++ [Event.beginMessage, Event.packerBegin] ++ body
            ++ [Event.packerEnd, Event.endMessage]
            ++ (match o.packerErr (packCalls body) with
                | some e => [Event.onPackErr e]
                | none => [])
        ∧ ((o.append c msg).send).events
            = (o.append c msg).events
              ++ Event.send :: (match (o.append c msg).sendErr with
                                | some err => [Event.onIoErr err]
                                | none => []) := by
  rw [append_eq_message] at hReturns ⊢
  obtain ⟨hp, hev⟩ := message_events o msg.format
    ((Trace.call (PackCall.structHeader (msg.tag c) msg.arity)).andThen (msg.fields c)) hReady
  rw [hp] at hReturns
  refine ⟨((Trace.call (PackCall.structHeader (msg.tag c) msg.arity)).andThen
    (msg.fields c)).events, ?_, ?_⟩
  · rw [hev, hReturns]
    simp only [Bool.false_eq_true, ↓reduceIte, List.append_assoc]
  · unfold Outgoing.send
    rw [hp, hReturns]
    cases (o.message msg.format
      ((Trace.call (PackCall.structHeader (msg.tag c) msg.arity)).andThen
        (msg.fields c))).sendErr <;> simp

/-- Witness of the amended C13: the HELLO message with a function value. -/
theorem builder_frames_despite_errors_witness :
    ∃ body : List Event,
      (Outgoing.append boltConstants {} (Message.hello helloWithFunction)).events
          = [] ++ (if false then [Event.logClientMessage "HELLO %s"] else [])
            ++ [Event.beginMessage, Event.packerBegin] ++ body
            ++ [Event.packerEnd, Event.endMessage]
            ++ (match (none : Option PackError) with
                | some e => [Event.onPackErr e]
                | none => [])
        ∧ ((Outgoing.append boltConstants {} (Message.hello helloWithFunction)).send).events
            = (Outgoing.append boltConstants {} (Message.hello helloWithFunction)).events
              ++ Event.send :: (match (none : Option GoError) with
                                | some err => [Event.onIoErr err]
                                | none => []) :=
  builder_frames_despite_errors boltConstants {} (Message.hello helloWithFunction) rfl rfl

theorem packXs_of_returns (s : List GoValue) (h : ∀ e ∈ s, (packX e).panicked = false) :
    packXs s = { events := eventsOfValues s, panicked := false } := by
  induction s with
  | nil => rfl
  | cons e rest ih =>
      have he := h e (List.mem_cons_self _ _)
      have hr := ih (fun x hx => h x (List.mem_cons_of_mem _ hx))
      rw [packXs, andThen_of_returned _ _ he, hr]
      rfl

theorem packEntries_of_returns (m : List (String × GoValue))
    (h : ∀ kv ∈ m, (packX kv.2).panicked = false) :
    packEntries m = { events := eventsOfEntries m, panicked := false } := by
  induction m with
  | nil => rfl
  | cons kv rest ih =>
      obtain ⟨k, v⟩ := kv
      have he : (packX v).panicked = false := h (k, v) (List.mem_cons_self _ _)
      have hr := ih (fun x hx => h x (List.mem_cons_of_mem _ hx))
      rw [packEntries, call_andThen, he, andThen_of_returned _ _ rfl, hr]
      rfl

/-- Encode errors alone do not stop the encoding of a collection. For a
`[]any` value whose elements all return, `packX` emits `ArrayHeader` with the
full length and then encodes every element in turn, and for a `map[string]any`
value whose entries all return `MapHeader` with the full length and then every
entry in turn, whatever errors the elements report; an element of unsupported
kind makes `packX` invoke `onPackErr` once and make no packer call, and
encoding goes on with the next element. -/
theorem errors_do_not_abort :
    (∀ s : List GoValue, (∀ e ∈ s, (packX e).panicked = false) →
        packX (GoValue.anys s)
          = { events := Event.pack (PackCall.arrayHeader s.length) :: eventsOfValues s,
              panicked := false })
      ∧ (∀ m : List (String × GoValue), (∀ kv ∈ m, (packX kv.2).panicked = false) →
        packX (GoValue.anyMap m)
          = { events := Event.pack (PackCall.mapHeader m.length) :: eventsOfEntries m,
              panicked := false })
      ∧ (∀ (e : GoValue) (k : GoKind), e.kind = some k → k.listed = false →
          e.declaredSerializeNeo4j = none →
          packX e = { events := [Event.onPackErr (PackError.unsupportedType e.typeOf)],
                      panicked := false }) := by
  refine ⟨fun s h => ?_, fun m h => ?_, fun e k hk hu hm => ?_⟩
  · rw [packX, call_andThen, packXs_of_returns s h]
  · rw [packX, call_andThen, packEntries_of_returns m h]
  · rw [(packX_unlisted_kind e k hk hu hm).1]
    rfl

/-- In a list of an integer, a function value and a string the function value
is reported and the string after it is still written. -/
theorem errors_do_not_abort_witness :
    (∀ e ∈ listWithFunction, (packX e).panicked = false)
      ∧ packX (GoValue.anys listWithFunction)
          = { events := [Event.pack (PackCall.arrayHeader 3),
                Event.pack (PackCall.int64 1),
                Event.onPackErr (PackError.unsupportedType (some (GoType.func "func()"))),
                Event.pack (PackCall.string "a")],
              panicked := false } :=
  ⟨by decide, errors_do_not_abort.1 listWithFunction (by decide)⟩

/-- C14, the code at the failing input. For the `[]any` value of an integer, a
nil pointer to a `Duration` and the string `"a"`, `packX` writes
`ArrayHeader(3)` and `Int64(1)` and then panics in the call of `SerializeNeo4j`
through the nil pointer: the string, a supported element that `packX` alone
writes as `String("a")`, is never encoded, and no error is reported. The same
happens in a `map[string]any` after the key of the nil pointer. -/
theorem packX_stops_at_nil_pointer :
    packX (GoValue.anys listWithNilPointer)
        = { events := [Event.pack (PackCall.arrayHeader 3), Event.pack (PackCall.int64 1)],
            panicked := true }
      ∧ packX (GoValue.string none "a")
        = { events := [Event.pack (PackCall.string "a")], panicked := false }
      ∧ Event.pack (PackCall.string "a") ∉ (packX (GoValue.anys listWithNilPointer)).events
      ∧ packErrors (packX (GoValue.anys listWithNilPointer)).events = []
      ∧ packX (GoValue.anyMap
            [("p", GoValue.nilPtr (GoType.dbtype DbType.duration)),
             ("s", GoValue.string none "a")])
        = { events := [Event.pack (PackCall.mapHeader 2), Event.pack (PackCall.string "p")],
            panicked := true } := by
  decide

/-- C15. Capability precedence: for every value whose method set holds
`SerializeNeo4j`, `packX` does exactly what the call of that method does and
reports no error, whatever the kind of the value; for a value of a type that
declares the method and for a non-nil pointer to one, that is exactly the
packer calls of the method, after which `packX` returns. -/
theorem packX_delegates (x : GoValue) (t : Trace) (hMethod : x.SerializeNeo4j = some t) :
    packX x = t
      ∧ packErrors (packX x).events = []
      ∧ ((∀ elem, x ≠ GoValue.nilPtr elem) →
          (packX x).panicked = false
            ∧ (packX x).events = (packCalls (packX x).events).map Event.pack) := by
  cases x with
  | dbtype d =>
      simp only [GoValue.SerializeNeo4j, Option.some.injEq] at hMethod
      subst hMethod
      simp [packX, Trace.calls, packErrors_map_pack, packCalls_map_pack]
  | custom name kind calls =>
      simp only [GoValue.SerializeNeo4j, Option.some.injEq] at hMethod
      subst hMethod
      simp [packX, Trace.calls, packErrors_map_pack, packCalls_map_pack]
  | ptrTo target =>
      simp only [GoValue.SerializeNeo4j, Option.map_eq_some'] at hMethod
      obtain ⟨calls, hc, rfl⟩ := hMethod
      simp [packX, hc, Trace.calls, packErrors_map_pack, packCalls_map_pack]
  | nilPtr elem =>
      simp only [GoValue.SerializeNeo4j] at hMethod
      split at hMethod
      · rename_i hd
        simp only [Option.some.injEq] at hMethod
        subst hMethod
        simp [packX, hd, Trace.panic, packErrors]
      · cases hMethod
  | _ => simp [GoValue.SerializeNeo4j] at hMethod

/-- Witness of C15: a pointer to a `Duration` is written by the method of
`Duration`. -/
theorem packX_delegates_witness :
    durationPointer.SerializeNeo4j
        = some (Trace.calls [PackCall.structHeader 69 4, PackCall.int64 1, PackCall.int64 0,
            PackCall.int64 (-1), PackCall.int 500000000])
      ∧ packX durationPointer
        = Trace.calls [PackCall.structHeader 69 4, PackCall.int64 1, PackCall.int64 0,
            PackCall.int64 (-1), PackCall.int 500000000] :=
  ⟨rfl, (packX_delegates durationPointer _ rfl).1⟩

/-- C16. Scalar dispatch preserves the value: `packX` makes the single call
`Int64(v)` for every signed integer `v`, `Uint32(v)` for every `uint8`, `uint16`
or `uint32` value `v` (a value of the type, so below two to the number of its
bits), `Uint64(v)` for every `uint` or `uint64`, `Bool(b)` for every bool,
`String(s)` for every string and `Float64(f)` for every `float32` or `float64`,
each with the value unchanged, and reports no error. -/
theorem packX_scalars :
    (∀ name w i, packX (GoValue.int name w i)
        = { events := [Event.pack (PackCall.int64 i)], panicked := false })
      ∧ (∀ name w n, (w = UintWidth.uint8 ∨ w = UintWidth.uint16 ∨ w = UintWidth.uint32) →
          n < 2 ^ w.bits →
          packX (GoValue.uint name w n)
            = { events := [Event.pack (PackCall.uint32 n)], panicked := false })
      ∧ (∀ name w n, (w = UintWidth.uint ∨ w = UintWidth.uint64) →
          packX (GoValue.uint name w n)
            = { events := [Event.pack (PackCall.uint64 n)], panicked := false })
      ∧ (∀ name b, packX (GoValue.bool name b)
          = { events := [Event.pack (PackCall.bool b)], panicked := false })
      ∧ (∀ name s, packX (GoValue.string name s)
          = { events := [Event.pack (PackCall.string s)], panicked := false })
      ∧ (∀ name w f, packX (GoValue.float name w f)
          = { events := [Event.pack (PackCall.float64 f)], panicked := false }) := by
  refine ⟨?_, ?_, ?_, ?_, ?_, ?_⟩
  · intro name w i
    simp [packX, Trace.call, Trace.emit]
  · intro name w n hw hn
    have hlt : n < 4294967296 := by
      rcases hw with rfl | rfl | rfl <;> simp only [UintWidth.bits] at hn <;> omega
    rcases hw with rfl | rfl | rfl <;>
      simp [packX, Trace.call, Trace.emit, Nat.mod_eq_of_lt hlt]
  · intro name w n hw
    rcases hw with rfl | rfl <;> simp [packX, Trace.call, Trace.emit]
  · intro name b
    simp [packX, Trace.call, Trace.emit]
  · intro name s
    simp [packX, Trace.call, Trace.emit]
  · intro name w f
    simp [packX, Trace.call, Trace.emit]

/-- Witness of C16: the `uint8` value 255 is written by `Uint32(255)`. -/
theorem packX_scalars_witness :
    255 < 2 ^ UintWidth.uint8.bits
      ∧ packX (GoValue.uint none UintWidth.uint8 255)
          = { events := [Event.pack (PackCall.uint32 255)], panicked := false } :=
  ⟨by decide, packX_scalars.2.1 none UintWidth.uint8 255 (Or.inl rfl) (by decide)⟩

theorem packCalls_pack_cons (c : PackCall) (rest : List Event) :
    packCalls (Event.pack c :: rest) = c :: packCalls rest := rfl

/-- The builder `appendRun(cypher, params, meta)`, on an `outgoing` ready to
work and when the writing of the two maps returns, emits between begin and end
`StructHeader(RUN, 3)`, then `String(cypher)`, then `params` as `packMap`
writes a map (`MapHeader` with its length, then each entry), then `meta`
likewise, in that order and nothing else. -/
theorem appendRun_emits (c : Constants) (o : Outgoing) (cypher : String)
    (params metadata : List (String × GoValue)) (hReady : o.panicked = false)
    (hParams : (packMap params).panicked = false)
    (hMeta : (packMap metadata).panicked = false) :
    (o.appendRun c cypher params metadata).events
        = o.events ++ (if o.boltLogger then [Event.logClientMessage "RUN %q %s %s"] else [])
          ++ [Event.beginMessage, Event.packerBegin]
          ++ (Event.pack (PackCall.structHeader c.msgRun 3)
              :: Event.pack (PackCall.string cypher)
              :: ((packMap params).events ++ (packMap metadata).events))
          ++ [Event.packerEnd, Event.endMessage]
          ++ (match o.packerErr (PackCall.structHeader c.msgRun 3 :: PackCall.string cypher
                  :: (packCalls (packMap params).events
                      ++ packCalls (packMap metadata).events)) with
              | some e => [Event.onPackErr e]
              | none => [])
      ∧ (packMap params).events
          = Event.pack (PackCall.mapHeader params.length) :: (packEntries params).events
      ∧ (packMap metadata).events
          = Event.pack (PackCall.mapHeader metadata.length) :: (packEntries metadata).events
      ∧ packCalls (Outgoing.appendRun c {} "RETURN 1" [] []).events
          = [PackCall.structHeader c.msgRun 3, PackCall.string "RETURN 1",
             PackCall.mapHeader 0, PackCall.mapHeader 0] := by
  have hbody : ((Trace.call (PackCall.structHeader c.msgRun 3)).andThen
      ((Trace.call (PackCall.string cypher)).andThen
        ((packMap params).andThen (packMap metadata))))
      = { events := Event.pack (PackCall.structHeader c.msgRun 3)
            :: Event.pack (PackCall.string cypher)
            :: ((packMap params).events ++ (packMap metadata).events),
          panicked := false } := by
    rw [call_andThen, call_andThen, andThen_of_returned _ _ hParams, hMeta]
  refine ⟨?_, ?_, ?_, ?_⟩
  · have h := append_eq_message c o (Message.run cypher params metadata)
    simp only [Outgoing.append, Message.format, Message.tag, Message.arity,
      Message.fields] at h
    rw [h, (message_events o _ _ hReady).2, hbody]
    simp only [Bool.false_eq_true, ↓reduceIte]
    rw [packCalls_pack_cons, packCalls_pack_cons, packCalls_append]
    simp only [List.append_assoc]
  · rw [packMap, call_andThen]
  · rw [packMap, call_andThen]
  · have h := append_eq_message c {} (Message.run "RETURN 1" [] [])
    simp only [Outgoing.append, Message.format, Message.tag, Message.arity,
      Message.fields] at h
    rw [h, (message_events {} _ _ rfl).2]
    simp [packMap, packEntries, Trace.andThen, Trace.call, Trace.emit, packCalls]

/-- RUN `"RETURN 1"` with empty params and empty meta. -/
theorem appendRun_emits_witness :
    packCalls (Outgoing.appendRun boltConstants {} "RETURN 1" [] []).events
      = [PackCall.structHeader 16 3, PackCall.string "RETURN 1",
         PackCall.mapHeader 0, PackCall.mapHeader 0] :=
  (appendRun_emits boltConstants {} "RETURN 1" [] [] rfl rfl rfl).2.2.2

/-- C20, the code at the failing input. With the parameters
`{"a": (*dbtype.Duration)(nil)}`, `appendRun` begins the message, writes
`StructHeader(RUN, 3)`, `String(cypher)`, `MapHeader(1)` and `String("a")`, and
then panics in the call of `SerializeNeo4j` through the nil pointer: the
parameter map is left without its value, `meta` is never written and the
message is never ended. With empty params and empty meta and cypher
`"RETURN 1"` the packer calls are `StructHeader(RUN, 3)`, `String("RETURN 1")`,
`MapHeader(0)`, `MapHeader(0)`, as claimed. -/
theorem appendRun_stops_at_nil_pointer :
    (Outgoing.appendRun boltConstants {} "RETURN 1" paramsWithNilPointer
        [("mode", GoValue.string none "r")]).events
        = [Event.beginMessage, Event.packerBegin,
           Event.pack (PackCall.structHeader boltConstants.msgRun 3),
           Event.pack (PackCall.string "RETURN 1"),
           Event.pack (PackCall.mapHeader 1), Event.pack (PackCall.string "a")]
      ∧ (Outgoing.appendRun boltConstants {} "RETURN 1" paramsWithNilPointer
          [("mode", GoValue.string none "r")]).panicked = true
      ∧ (Outgoing.appendRun boltConstants {} "RETURN 1" [] []).events
        = [Event.beginMessage, Event.packerBegin,
           Event.pack (PackCall.structHeader boltConstants.msgRun 3),
           Event.pack (PackCall.string "RETURN 1"),
           Event.pack (PackCall.mapHeader 0), Event.pack (PackCall.mapHeader 0),
           Event.packerEnd, Event.endMessage] := by
  decide

/-! ### The temporal types -/

/-- C17. `Duration.String` sign normalization: for every `Duration` with
`0 <= Nanos < 10^9`, `String()` is `"P" Months "M" Days "DT" t "S"` where `t` is
the plain signed decimal of the exact value `Seconds + Nanos/10^9`, with no
fraction when `Nanos = 0` and nine fractional digits otherwise; when
`Seconds < 0` and `Nanos > 0` the integer part printed is `Seconds+1` and the
fraction `10^9 - Nanos`, with an explicit `"-"` when `Seconds+1 = 0`. -/
theorem duration_string (d : Duration) (hNanos0 : 0 ≤ d.Nanos)
    (hNanos1 : d.Nanos < 1000000000) :
    d.String
        = "P" ++ fmtInt d.Months ++ "M" ++ fmtInt d.Days ++ "DT"
          ++ decimalSeconds d.Seconds d.Nanos ++ "S"
      ∧ (d.Seconds < 0 → 0 < d.Nanos →
          d.String
            = "P" ++ fmtInt d.Months ++ "M" ++ fmtInt d.Days ++ "DT"
              ++ ((if d.Seconds + 1 = 0 then "-" else "") ++ fmtInt (d.Seconds + 1) ++ "."
                  ++ fmtInt09 (1000000000 - d.Nanos)) ++ "S") := by
  constructor
  · by_cases hS : d.Seconds < 0
    · by_cases hN : d.Nanos = 0
      · have hT : d.Seconds * 1000000000 < 0 := by omega
        have hW : (d.Seconds * 1000000000).natAbs / 1000000000 = d.Seconds.natAbs := by
          omega
        simp [Duration.String, decimalSeconds, hS, hN, hT, hW, fmtInt]
      · have hN' : 0 < d.Nanos := by omega
        have hT : d.Seconds * 1000000000 + d.Nanos < 0 := by omega
        have hW : (d.Seconds * 1000000000 + d.Nanos).natAbs / 1000000000
            = (d.Seconds + 1).natAbs := by omega
        have hF : (d.Seconds * 1000000000 + d.Nanos).natAbs % 1000000000
            = (1000000000 - d.Nanos).natAbs := by omega
        have hR : ¬ (1000000000 - d.Nanos = 0) := by omega
        have hR' : ¬ (1000000000 - d.Nanos < 0) := by omega
        by_cases hZ : d.Seconds + 1 = 0
        · simp [Duration.String, decimalSeconds, hS, hN, hN', hT, hW, hF, hR, hR', hZ,
            fmtInt, fmtInt09]
        · have hZ' : d.Seconds + 1 < 0 := by omega
          simp [Duration.String, decimalSeconds, hS, hN, hN', hT, hW, hF, hR, hR', hZ,
            hZ', fmtInt, fmtInt09]
    · have hS' : ¬ (d.Seconds * 1000000000 + d.Nanos < 0) := by omega
      have hW : (d.Seconds * 1000000000 + d.Nanos).natAbs / 1000000000 = d.Seconds.natAbs := by
        omega
      have hF : (d.Seconds * 1000000000 + d.Nanos).natAbs % 1000000000 = d.Nanos.natAbs := by
        omega
      have hR' : ¬ (d.Nanos < 0) := by omega
      by_cases hN : d.Nanos = 0
      · have hS0 : ¬ (d.Seconds * 1000000000 < 0) := by omega
        have hW0 : (d.Seconds * 1000000000).natAbs / 1000000000 = d.Seconds.natAbs := by
          omega
        simp [Duration.String, decimalSeconds, hS, hN, hS0, hW0, fmtInt]
      · simp [Duration.String, decimalSeconds, hS, hN, hS', hW, hF, hR', fmtInt, fmtInt09]
  · intro hS hN
    have hR : ¬ (1000000000 - d.Nanos = 0) := by omega
    simp [Duration.String, hS, hN, hR]

/-- Witness of C17: `Duration{Months:1, Days:0, Seconds:-1, Nanos:500000000}`
renders `"P1M0DT-0.500000000S"`. -/
theorem duration_string_witness :
    (0 : Int) ≤ 500000000 ∧ (500000000 : Int) < 1000000000
      ∧ Duration.String { Months := 1, Days := 0, Seconds := -1, Nanos := 500000000 }
          = "P1M0DT-0.500000000S" :=
  ⟨by decide, by decide,
    (duration_string { Months := 1, Days := 0, Seconds := -1, Nanos := 500000000 }
      (by decide) (by decide)).1.trans (by decide)⟩

/-- The year of the era that `civilFromDays` computes, and the day of that
year, which lies within the year. -/
theorem yearOfEra_spec (doe : Int) (h0 : 0 ≤ doe) (h1 : doe ≤ 146096) :
    ∃ yoe : Int, yoe = (doe - doe / 1460 + doe / 36524 - doe / 146096) / 365
      ∧ 0 ≤ yoe ∧ yoe ≤ 399
      ∧ 0 ≤ doe - (365 * yoe + yoe / 4 - yoe / 100)
      ∧ doe - (365 * yoe + yoe / 4 - yoe / 100) ≤ 365 := by
  refine ⟨_, rfl, ?_⟩
  by_cases hlast : doe = 146096
  · subst hlast
    decide
  · have hlt : doe < 146096 := by omega
    obtain ⟨f, hf⟩ : ∃ f : Int, f = doe / 36524 := ⟨_, rfl⟩
    obtain ⟨q, hq⟩ : ∃ q : Int, q = (doe - 36524 * f) / 1461 := ⟨_, rfl⟩
    obtain ⟨r, hr⟩ : ∃ r : Int, r = doe - 36524 * f - 1461 * q := ⟨_, rfl⟩
    have hf3 : 0 ≤ f ∧ f ≤ 3 := by omega
    have hq24 : 0 ≤ q ∧ q ≤ 24 := by omega
    have hr0 : 0 ≤ r ∧ r ≤ 1460 := by omega
    have hdoe : doe = 36524 * f + 1461 * q + r := by omega
    have hg : doe / 146096 = 0 := by omega
    obtain ⟨e, he⟩ : ∃ e : Int, e = doe / 1460 := ⟨_, rfl⟩
    have he' : (e = 25 * f + q ∧ 24 * f + q + r < 1460)
        ∨ (e = 25 * f + q + 1 ∧ 1460 ≤ 24 * f + q + r) := by omega
    obtain ⟨n, hn⟩ : ∃ n : Int, n = doe - doe / 1460 + doe / 36524 - doe / 146096 := ⟨_, rfl⟩
    rw [← hn]
    have hn' : n = 36500 * f + 1460 * q + r - (e - 25 * f - q) := by omega
    obtain ⟨y, hy⟩ : ∃ y : Int, y = n / 365 := ⟨_, rfl⟩
    rw [← hy]
    obtain ⟨t, ht⟩ : ∃ t : Int, t = y - 100 * f - 4 * q := ⟨_, rfl⟩
    have ht3 : 0 ≤ t ∧ t ≤ 3 := by omega
    have hy4 : y / 4 = 25 * f + q := by omega
    have hy100 : y / 100 = f := by omega
    rw [hy4, hy100]
    omega

/-- The day number of the civil date of a day number is that day number. -/
theorem daysFromCivil_civilFromDays (z : Int) :
    daysFromCivil (civilFromDays z).1 (civilFromDays z).2.1 (civilFromDays z).2.2 = z := by
  obtain ⟨era, hera⟩ : ∃ era : Int, era = (z + 719468) / 146097 := ⟨_, rfl⟩
  obtain ⟨doe, hdoe⟩ : ∃ doe : Int, doe = z + 719468 - era * 146097 := ⟨_, rfl⟩
  have hd0 : 0 ≤ doe ∧ doe ≤ 146096 := by omega
  obtain ⟨yoe, hyoe, hy0, hy1, hdoy0, hdoy1⟩ := yearOfEra_spec doe hd0.1 hd0.2
  obtain ⟨doy, hdoy⟩ : ∃ doy : Int, doy = doe - (365 * yoe + yoe / 4 - yoe / 100) := ⟨_, rfl⟩
  obtain ⟨mp, hmp⟩ : ∃ mp : Int, mp = (5 * doy + 2) / 153 := ⟨_, rfl⟩
  have hmp0 : 0 ≤ mp ∧ mp ≤ 11 := by omega
  have hciv : civilFromDays z
      = (if (if mp < 10 then mp + 3 else mp - 9) ≤ 2 then yoe + era * 400 + 1
          else yoe + era * 400,
         if mp < 10 then mp + 3 else mp - 9,
         doy - (153 * mp + 2) / 5 + 1) := by
    simp only [civilFromDays, ← hera, ← hdoe, ← hyoe, ← hdoy, ← hmp]
  rw [hciv]
  clear hciv hyoe
  have e1 : (yoe + era * 400) / 400 = era := by omega
  have e3 : yoe + era * 400 - era * 400 = yoe := by omega
  simp only [daysFromCivil]
  by_cases h10 : mp < 10
  · have hm : ¬ (mp + 3 ≤ 2) := by omega
    have hm' : mp + 3 > 2 := by omega
    have e2 : mp + 3 - 3 = mp := by omega
    simp only [h10, ↓reduceIte, hm, hm', e1, e2, e3]
    omega
  · have hm : mp - 9 ≤ 2 := by omega
    have hm' : ¬ (mp - 9 > 2) := by omega
    have e2 : mp - 9 + 9 = mp := by omega
    have e4 : yoe + era * 400 + 1 - 1 = yoe + era * 400 := by omega
    simp only [h10, ↓reduceIte, hm, hm', e4, e1, e2, e3]
    omega

/-- Two day numbers with the same civil date are equal. -/
theorem civilFromDays_injective (z w : Int) (h : civilFromDays z = civilFromDays w) : z = w := by
  rw [← daysFromCivil_civilFromDays z, ← daysFromCivil_civilFromDays w, h]

/-- Two times that show the same date, hour, minute and second have the same
absolute seconds of the wall clock. -/
theorem abs_of_reading (t u : GoTime) (hDate : t.civil = u.civil)
    (hHour : t.Hour = u.Hour) (hMinute : t.Minute = u.Minute) (hSecond : t.Second = u.Second) :
    t.abs = u.abs := by
  have hday : t.abs / 86400 - unixToAbsolute / 86400 = u.abs / 86400 - unixToAbsolute / 86400 :=
    civilFromDays_injective _ _ hDate
  simp only [GoTime.Hour, GoTime.Minute, GoTime.Second] at hHour hMinute hSecond
  omega

/-- The seconds of the wall clock, as `int64` sum of Unix seconds and offset,
are determined by the absolute seconds. -/
theorem wrap_of_abs (t u : GoTime) (h : t.abs = u.abs) :
    wrapInt64 (t.unix + t.offset) = wrapInt64 (u.unix + u.offset) := by
  simp only [GoTime.abs, unixToAbsolute] at h
  simp only [wrapInt64]
  norm_num at h ⊢
  omega

/-- The absolute seconds are a `uint64`. -/
theorem abs_range (t : GoTime) : 0 ≤ t.abs ∧ t.abs < 18446744073709551616 := by
  simp only [GoTime.abs]
  norm_num
  omega

/-- C18. Local temporal types discard the time zone: two values showing the
same year, month, day, hour, minute, second and nanosecond in their own zones
emit identical fields from `LocalDateTime.SerializeNeo4j` and from
`LocalTime.SerializeNeo4j`, whatever their UTC offsets. `LocalDateTime` emits
the `int64` sum of Unix seconds and zone offset (the plain sum when it fits an
`int64`) and the nanosecond of the second; `LocalTime` emits
`hour*3600*10^9 + minute*60*10^9 + second*10^9 + nanosecond`. -/
theorem local_types_discard_zone (t u : GoTime) (hDate : t.civil = u.civil)
    (hHour : t.Hour = u.Hour) (hMinute : t.Minute = u.Minute) (hSecond : t.Second = u.Second)
    (hNano : t.Nanosecond = u.Nanosecond) :
    LocalDateTime.SerializeNeo4j t = LocalDateTime.SerializeNeo4j u
      ∧ LocalTime.SerializeNeo4j t = LocalTime.SerializeNeo4j u
      ∧ LocalDateTime.SerializeNeo4j t
          = [PackCall.structHeader 'd'.toNat 2, PackCall.int64 (wrapInt64 (t.Unix + t.Zone)),
             PackCall.int t.Nanosecond]
      ∧ (-(2 ^ 63) ≤ t.Unix + t.Zone → t.Unix + t.Zone < 2 ^ 63 →
          wrapInt64 (t.Unix + t.Zone) = t.Unix + t.Zone)
      ∧ (t.nsec < 1000000000 →
          LocalTime.SerializeNeo4j t
            = [PackCall.structHeader 't'.toNat 1,
               PackCall.int64 (t.Hour * 3600 * 1000000000 + t.Minute * 60 * 1000000000
                 + t.Second * 1000000000 + t.Nanosecond)]) := by
  have hWall := wrap_of_abs t u (abs_of_reading t u hDate hHour hMinute hSecond)
  have habs := abs_range t
  refine ⟨?_, ?_, rfl, ?_, ?_⟩
  · have : wrapInt64 (t.Unix + t.Zone) = wrapInt64 (u.Unix + u.Zone) := hWall
    simp only [LocalDateTime.SerializeNeo4j, this, hNano]
  · simp only [LocalTime.SerializeNeo4j, hHour, hMinute, hSecond, hNano]
  · intro h0 h1
    unfold wrapInt64
    omega
  · intro hn
    have hh : 0 ≤ t.Hour ∧ t.Hour ≤ 23 := by
      simp only [GoTime.Hour]; omega
    have hm : 0 ≤ t.Minute ∧ t.Minute ≤ 59 := by
      simp only [GoTime.Minute]; omega
    have hs : 0 ≤ t.Second ∧ t.Second ≤ 59 := by
      simp only [GoTime.Second]; omega
    have hns : 0 ≤ t.Nanosecond ∧ t.Nanosecond < 1000000000 := by
      simp only [GoTime.Nanosecond]; omega
    have hw : wrapInt64 (3600000000000 * t.Hour + 60000000000 * t.Minute
        + 1000000000 * t.Second + t.Nanosecond)
        = t.Hour * 3600 * 1000000000 + t.Minute * 60 * 1000000000
          + t.Second * 1000000000 + t.Nanosecond := by
      unfold wrapInt64
      omega
    simp only [LocalTime.SerializeNeo4j, hw]

/-- Witness of C18: 12:30:15 on 2024-03-10 read in UTC and read two hours east
of UTC. And `time.Unix(-2^63, 0)` one second west of UTC, whose wall clock lies
before the absolute zero and reads 15:30:07. -/
theorem local_types_discard_zone_witness :
    GoTime.civil { unix := 1710073815, nsec := 7, offset := 0 }
        = GoTime.civil { unix := 1710066615, nsec := 7, offset := 7200 }
      ∧ LocalTime.SerializeNeo4j { unix := -9223372036854775808, nsec := 0, offset := -1 }
          = [PackCall.structHeader 't'.toNat 1, PackCall.int64 55807000000000]
      ∧ LocalDateTime.SerializeNeo4j { unix := 1710073815, nsec := 7, offset := 0 }
          = LocalDateTime.SerializeNeo4j { unix := 1710066615, nsec := 7, offset := 7200 }
      ∧ LocalTime.SerializeNeo4j { unix := 1710073815, nsec := 7, offset := 0 }
          = LocalTime.SerializeNeo4j { unix := 1710066615, nsec := 7, offset := 7200 } :=
  ⟨by decide, by decide,
   (local_types_discard_zone { unix := 1710073815, nsec := 7, offset := 0 }
      { unix := 1710066615, nsec := 7, offset := 7200 }
      (by decide) (by decide) (by decide) (by decide) (by decide)).1,
   (local_types_discard_zone { unix := 1710073815, nsec := 7, offset := 0 }
      { unix := 1710066615, nsec := 7, offset := 7200 }
      (by decide) (by decide) (by decide) (by decide) (by decide)).2.1⟩

/-- C19, the code at the failing input. Noon and midnight of 1969-12-31 (UTC)
are the same calendar day, one day before 1970-01-01, yet `Date.SerializeNeo4j`
emits day 0 for noon and day -1 for midnight: the division of the wall-clock
seconds by 86400 truncates toward zero instead of taking the floor. -/
theorem date_before_epoch_truncates :
    GoTime.civil { unix := -43200, nsec := 0, offset := 0 } = (1969, 12, 31)
      ∧ GoTime.civil { unix := -86400, nsec := 0, offset := 0 } = (1969, 12, 31)
      ∧ daysFromCivil 1969 12 31 = -1
      ∧ Date.SerializeNeo4j { unix := -43200, nsec := 0, offset := 0 }
          = [PackCall.structHeader 'D'.toNat 1, PackCall.int64 0]
      ∧ Date.SerializeNeo4j { unix := -86400, nsec := 0, offset := 0 }
          = [PackCall.structHeader 'D'.toNat 1, PackCall.int64 (-1)] := by
  decide

/-! ### Single builders -/

/-- A builder whose body is a fixed sequence of packer calls. -/
theorem message_calls (o : Outgoing) (format : String) (calls : List PackCall)
    (ho : o.panicked = false) :
    (o.message format (Trace.calls calls)).events = o.framed format calls
      ∧ (o.message format (Trace.calls calls)).panicked = false := by
  obtain ⟨hp, hev⟩ := message_events o format (Trace.calls calls) ho
  refine ⟨?_, by rw [hp]; rfl⟩
  rw [hev]
  simp only [Trace.calls, packCalls_map_pack, Bool.false_eq_true, ↓reduceIte,
    Outgoing.framed, Outgoing.endReport, List.append_assoc]

/-- C21. Default-database convention: `appendRouteToV43(context, bookmarks,
database)` writes as its third field `Nil` if and only if `database` equals
`DefaultDatabase`, and `String(database)` otherwise; the struct header and the
first two fields, the context map and the bookmark list, do not depend on
`database`. -/
theorem route_default_database (c : Constants) (o : Outgoing)
    (context : List (String × String)) (bookmarks : List String) (database : String)
    (hReady : o.panicked = false) :
    ∃ third : PackCall,
      (o.appendRouteToV43 c context bookmarks database).events
          = o.framed "ROUTE %s %s %q"
              ((PackCall.structHeader c.msgRoute 3
                  :: PackCall.mapHeader context.length :: stringEntryCalls context
                  ++ PackCall.arrayHeader bookmarks.length :: stringCalls bookmarks)
                ++ [third])
        ∧ (third = PackCall.nil ↔ database = c.DefaultDatabase)
        ∧ (database ≠ c.DefaultDatabase → third = PackCall.string database) := by
  have h := append_eq_message c o (Message.routeToV43 context bookmarks database)
  simp only [Outgoing.append, Message.format, Message.tag, Message.arity, Message.fields,
    call_andThen_calls] at h
  refine ⟨if database = c.DefaultDatabase then PackCall.nil else PackCall.string database,
    ?_, ?_, ?_⟩
  · rw [h, (message_calls o _ _ hReady).1]
    simp only [List.cons_append, List.append_assoc]
  · by_cases hd : database = c.DefaultDatabase <;> simp [hd]
  · intro hd
    simp [hd]

/-- Witness of C21: the default database and a named one, with the empty
string as the sentinel. -/
theorem route_default_database_witness :
    packCalls (Outgoing.appendRouteToV43 boltConstants {} [("a", "b")] ["bm"] "").events
        = [PackCall.structHeader 102 3, PackCall.mapHeader 1, PackCall.string "a",
           PackCall.string "b", PackCall.arrayHeader 1, PackCall.string "bm", PackCall.nil]
      ∧ packCalls (Outgoing.appendRouteToV43 boltConstants {} [("a", "b")] ["bm"] "neo4j").events
        = [PackCall.structHeader 102 3, PackCall.mapHeader 1, PackCall.string "a",
           PackCall.string "b", PackCall.arrayHeader 1, PackCall.string "bm",
           PackCall.string "neo4j"]
      ∧ ∃ third : PackCall,
          (Outgoing.appendRouteToV43 boltConstants {} [("a", "b")] ["bm"] "neo4j").events
              = Outgoing.framed {} "ROUTE %s %s %q"
                  ((PackCall.structHeader 102 3 :: PackCall.mapHeader 1
                      :: stringEntryCalls [("a", "b")]
                      ++ PackCall.arrayHeader 1 :: stringCalls ["bm"]) ++ [third])
            ∧ (third = PackCall.nil ↔ "neo4j" = "")
            ∧ ("neo4j" ≠ "" → third = PackCall.string "neo4j") :=
  ⟨by decide, by decide,
    route_default_database boltConstants {} [("a", "b")] ["bm"] "neo4j" rfl⟩

/-- C22. PULL and DISCARD metadata: `appendPullN(n)` and `appendDiscardN(n)`
write a struct of one field, a map with the single entry `"n"` to `Int(n)`;
`appendPullNQid(n, qid)` and `appendDiscardNQid(n, qid)` write a map with the
two entries `"n"` to `Int(n)` and `"qid"` to `Int64(qid)`. The count in
`MapHeader` is the number of entries written, and the PULL and DISCARD variants
differ in the struct tag only (and in the word handed to the logger). -/
theorem pull_discard_metadata (c : Constants) (o : Outgoing) (n qid : Int)
    (hReady : o.panicked = false) :
    (o.appendPullN c n).events
        = o.framed "PULL %s"
            (PackCall.structHeader c.msgPullN 1
              :: [PackCall.mapHeader 1, PackCall.string "n", PackCall.int n])
      ∧ (o.appendDiscardN c n).events
        = o.framed "DISCARD %s"
            (PackCall.structHeader c.msgDiscardN 1
              :: [PackCall.mapHeader 1, PackCall.string "n", PackCall.int n])
      ∧ (o.appendPullNQid c n qid).events
        = o.framed "PULL %s"
            (PackCall.structHeader c.msgPullN 1
              :: [PackCall.mapHeader 2, PackCall.string "n", PackCall.int n,
                  PackCall.string "qid", PackCall.int64 qid])
      ∧ (o.appendDiscardNQid c n qid).events
        = o.framed "DISCARD %s"
            (PackCall.structHeader c.msgDiscardN 1
              :: [PackCall.mapHeader 2, PackCall.string "n", PackCall.int n,
                  PackCall.string "qid", PackCall.int64 qid])
      ∧ completeValues 1 [PackCall.mapHeader 1, PackCall.string "n", PackCall.int n]
      ∧ completeValues 1 [PackCall.mapHeader 2, PackCall.string "n", PackCall.int n,
          PackCall.string "qid", PackCall.int64 qid] := by
  refine ⟨?_, ?_, ?_, ?_, rfl, rfl⟩
  · have h := append_eq_message c o (Message.pullN n)
    simp only [Outgoing.append, Message.format, Message.tag, Message.arity, Message.fields,
      call_andThen_calls] at h
    rw [h, (message_calls o _ _ hReady).1]
  · have h := append_eq_message c o (Message.discardN n)
    simp only [Outgoing.append, Message.format, Message.tag, Message.arity, Message.fields,
      call_andThen_calls] at h
    rw [h, (message_calls o _ _ hReady).1]
  · have h := append_eq_message c o (Message.pullNQid n qid)
    simp only [Outgoing.append, Message.format, Message.tag, Message.arity, Message.fields,
      call_andThen_calls] at h
    rw [h, (message_calls o _ _ hReady).1]
  · have h := append_eq_message c o (Message.discardNQid n qid)
    simp only [Outgoing.append, Message.format, Message.tag, Message.arity, Message.fields,
      call_andThen_calls] at h
    rw [h, (message_calls o _ _ hReady).1]

/-- Witness of C22: PULL of 100 records of query 7. -/
theorem pull_discard_metadata_witness :
    (Outgoing.appendPullNQid boltConstants {} 100 7).events
      = [Event.beginMessage, Event.packerBegin,
         Event.pack (PackCall.structHeader 63 1), Event.pack (PackCall.mapHeader 2),
         Event.pack (PackCall.string "n"), Event.pack (PackCall.int 100),
         Event.pack (PackCall.string "qid"), Event.pack (PackCall.int64 7),
         Event.packerEnd, Event.endMessage] :=
  (pull_discard_metadata boltConstants {} 100 7 rfl).2.2.1

/-- C26. Logging has no effect on the wire: for every builder and all
arguments, what is done to the packer, the chunker and the error sink is the
same whether `boltLogger` is nil or set; with a nil logger no
`LogClientMessage` call is made, with a logger exactly one, before begin. -/
theorem logging_leaves_wire_unchanged (c : Constants) (o : Outgoing) (msg : Message)
    (hReady : o.panicked = false) :
    ∃ wire : List Event,
      (∀ e ∈ wire, ∀ format, e ≠ Event.logClientMessage format)
        ∧ (Outgoing.append c { o with boltLogger := false } msg).events
            = o.events ++ Event.beginMessage :: Event.packerBegin :: wire
        ∧ (Outgoing.append c { o with boltLogger := true } msg).events
            = o.events ++ Event.logClientMessage msg.format
                :: Event.beginMessage :: Event.packerBegin :: wire
        ∧ (Outgoing.append c { o with boltLogger := false } msg).panicked
            = (Outgoing.append c { o with boltLogger := true } msg).panicked := by
  obtain ⟨body, hbody⟩ : ∃ body : Trace,
      body = (Trace.call (PackCall.structHeader (msg.tag c) msg.arity)).andThen (msg.fields c) :=
    ⟨_, rfl⟩
  have hpack : body.events.all Event.isPacking = true := by
    rw [hbody]
    exact allPacking_andThen _ _ (allPacking_call _) (fields_allPacking c msg)
  obtain ⟨hp0, he0⟩ := message_events { o with boltLogger := false } msg.format body hReady
  obtain ⟨hp1, he1⟩ := message_events { o with boltLogger := true } msg.format body hReady
  rw [append_eq_message, append_eq_message, ← hbody]
  refine ⟨body.events ++ (if body.panicked then []
      else [Event.packerEnd, Event.endMessage]
        ++ (match o.packerErr (packCalls body.events) with
            | some e => [Event.onPackErr e]
            | none => [])), ?_, ?_, ?_, ?_⟩
  · intro e he format hlog
    subst hlog
    rw [List.mem_append] at he
    rcases he with he | he
    · have := List.all_eq_true.mp hpack _ he
      simp [Event.isPacking] at this
    · split at he
      · simp at he
      · cases hpe : o.packerErr (packCalls body.events) <;> simp [hpe] at he
  · rw [he0]
    simp
  · rw [he1]
    simp
  · rw [hp0, hp1]

/-- Witness of C26: COMMIT with and without a logger. -/
theorem logging_leaves_wire_unchanged_witness :
    (Outgoing.append boltConstants { boltLogger := false } Message.commit).events
        = [Event.beginMessage, Event.packerBegin, Event.pack (PackCall.structHeader 18 0),
           Event.packerEnd, Event.endMessage]
      ∧ (Outgoing.append boltConstants { boltLogger := true } Message.commit).events
        = [Event.logClientMessage "COMMIT", Event.beginMessage, Event.packerBegin,
           Event.pack (PackCall.structHeader 18 0), Event.packerEnd, Event.endMessage]
      ∧ ∃ wire : List Event,
          (∀ e ∈ wire, ∀ format, e ≠ Event.logClientMessage format)
            ∧ (Outgoing.append boltConstants { boltLogger := false } Message.commit).events
                = [] ++ Event.beginMessage :: Event.packerBegin :: wire
            ∧ (Outgoing.append boltConstants { boltLogger := true } Message.commit).events
                = [] ++ Event.logClientMessage "COMMIT"
                    :: Event.beginMessage :: Event.packerBegin :: wire
            ∧ (Outgoing.append boltConstants { boltLogger := false } Message.commit).panicked
                = (Outgoing.append boltConstants { boltLogger := true } Message.commit).panicked :=
  ⟨by decide, by decide, logging_leaves_wire_unchanged boltConstants {} Message.commit rfl⟩

/-! ### The cursor once complete, and what metadata does -/

/-- C23. Keys, Summary and Consume are idempotent once their completion flag
is set: with `runCompleted`, `Keys()` returns `(keys, nil)`; with
`resultCompleted`, `Summary()` and `Consume()` return the cached summary and a
nil error. The result afterwards is the result before, so `receive` was not
invoked, and a repeated call returns the same value. -/
theorem completed_calls_idempotent (r : Result) :
    (r.runCompleted = true →
        r.Keys = some ((r.keys, none), r)
          ∧ ∀ out r', r.Keys = some (out, r') →
              r' = r ∧ r'.runner.receives = r.runner.receives ∧ r'.Keys = some (out, r'))
      ∧ (r.resultCompleted = true →
        r.Summary = some ((some r.summary, none), r)
          ∧ r.Consume = some ((some r.summary, none), r)
          ∧ (∀ out r', r.Summary = some (out, r') →
              r' = r ∧ r'.runner.receives = r.runner.receives ∧ r'.Summary = some (out, r'))
          ∧ ∀ out r', r.Consume = some (out, r') →
              r' = r ∧ r'.runner.receives = r.runner.receives ∧ r'.Consume = some (out, r')) := by
  refine ⟨fun hRun => ?_, fun hRes => ?_⟩
  · have hk : r.Keys = some ((r.keys, none), r) := by
      simp [Result.Keys, awaitRun_of_runCompleted _ r hRun]
    refine ⟨hk, ?_⟩
    intro out r' h
    rw [hk] at h
    simp only [Option.some.injEq, Prod.mk.injEq] at h
    obtain ⟨rfl, rfl⟩ := h
    exact ⟨rfl, rfl, hk⟩
  · have hs : r.Summary = some ((some r.summary, none), r) := by
      simp [Result.Summary, awaitResult_of_resultCompleted _ r hRes]
    have hc : r.Consume = some ((some r.summary, none), r) := by
      simp [Result.Consume, awaitResult_of_resultCompleted _ r hRes]
    refine ⟨hs, hc, ?_, ?_⟩
    · intro out r' h
      rw [hs] at h
      simp only [Option.some.injEq, Prod.mk.injEq] at h
      obtain ⟨rfl, rfl⟩ := h
      exact ⟨rfl, rfl, hs⟩
    · intro out r' h
      rw [hc] at h
      simp only [Option.some.injEq, Prod.mk.injEq] at h
      obtain ⟨rfl, rfl⟩ := h
      exact ⟨rfl, rfl, hc⟩

/-- Witness of C23, at a completed result with a record still queued. -/
theorem completed_calls_idempotent_witness :
    queuedResult.runCompleted = true ∧ queuedResult.resultCompleted = true
      ∧ queuedResult.Keys = some ((["n"], none), queuedResult)
      ∧ queuedResult.Summary = some ((some {}, none), queuedResult) :=
  ⟨rfl, rfl, ((completed_calls_idempotent queuedResult).1 rfl).1,
    ((completed_calls_idempotent queuedResult).2 rfl).1⟩

theorem collectFields_statementType (m : Dict) (r r' : Result) (h : collectFields m r = some r') :
    r'.summary = r.summary := by
  rw [collectFields_frame m r r' h]

theorem collectAvailableAfter_rest (m : Dict) (r r' : Result)
    (h : collectAvailableAfter m r = some r') :
    r'.summary.statementType = r.summary.statementType
      ∧ r'.summary.counters = r.summary.counters := by
  unfold collectAvailableAfter at h
  split at h
  · simp only [Option.map_eq_some'] at h
    obtain ⟨l, _, rfl⟩ := h
    exact ⟨rfl, rfl⟩
  · simp only [Option.some.injEq] at h
    subst h
    exact ⟨rfl, rfl⟩

theorem collectConsumedAfter_rest (m : Dict) (r r' : Result)
    (h : collectConsumedAfter m r = some r') :
    r'.summary.statementType = r.summary.statementType
      ∧ r'.summary.counters = r.summary.counters := by
  unfold collectConsumedAfter at h
  split at h
  · simp only [Option.map_eq_some'] at h
    obtain ⟨l, _, rfl⟩ := h
    exact ⟨rfl, rfl⟩
  · simp only [Option.some.injEq] at h
    subst h
    exact ⟨rfl, rfl⟩

theorem collectStats_statementType (m : Dict) (r r' : Result) (h : collectStats m r = some r') :
    r'.summary.statementType = r.summary.statementType := by
  unfold collectStats at h
  split at h
  · simp only [Option.map_eq_some'] at h
    obtain ⟨l, _, rfl⟩ := h
    rfl
  · simp only [Option.some.injEq] at h
    subst h
    rfl

theorem collectType_of_string (m : Dict) (r : Result) (s : String)
    (h : m.get "type" = some (Val.str s)) :
    collectType m r = some { r with
      summary := { r.summary with
        statementType := statementTypeOf s r.summary.statementType } } := by
  simp [collectType, h, Val.assertString]

/-- C24. Statement-type classification: `collectMetadata` sets the statement
type of the summary to ReadOnly, ReadWrite, WriteOnly and SchemaWrite for the
`"type"` strings `"r"`, `"rw"`, `"w"` and `"s"`; for every other string the
statement type is left as it was, no error is latched and the step does not
fail. -/
theorem statement_type_classification (m : Dict) (r : Result) (s : String)
    (hType : m.get "type" = some (Val.str s)) :
    collectType m r = some { r with
        summary := { r.summary with
          statementType := statementTypeOf s r.summary.statementType } }
      ∧ (∀ r', r.collectMetadata (some m) = some r' →
          r'.summary.statementType = statementTypeOf s r.summary.statementType
            ∧ r'.err = r.err)
      ∧ r.collectMetadata (some [("type", Val.str s)])
          = some { r with
              summary := { r.summary with
                statementType := statementTypeOf s r.summary.statementType } }
      ∧ (∀ old, statementTypeOf "r" old = StatementType.readOnly
          ∧ statementTypeOf "rw" old = StatementType.readWrite
          ∧ statementTypeOf "w" old = StatementType.writeOnly
          ∧ statementTypeOf "s" old = StatementType.schemaWrite)
      ∧ (s ≠ "r" → s ≠ "rw" → s ≠ "w" → s ≠ "s" →
          ∀ old, statementTypeOf s old = old) := by
  refine ⟨collectType_of_string m r s hType, ?_, ?_, ?_, ?_⟩
  · intro r' h
    have hf := collectMetadata_frame (some m) r r' h
    simp only [Result.collectMetadata, Option.bind_eq_bind, Option.bind_eq_some] at h
    obtain ⟨r1, h1, r2, h2, r3, h3, r4, h4, h5⟩ := h
    have e1 := collectFields_statementType m r r1 h1
    have e2 := (collectAvailableAfter_rest m r1 r2 h2).1
    have e3 := (collectConsumedAfter_rest m r2 r3 h3).1
    have e5 := collectStats_statementType m r4 r' h5
    rw [collectType_of_string m r3 s hType] at h4
    simp only [Option.some.injEq] at h4
    subst h4
    refine ⟨?_, by rw [hf]⟩
    rw [e5]
    show statementTypeOf s r3.summary.statementType = _
    rw [e3, e2, e1]
  · simp [Result.collectMetadata, collectFields, collectAvailableAfter, collectConsumedAfter,
      collectType, collectStats, Dict.get, Val.assertString]
  · intro old
    exact ⟨rfl, rfl, rfl, rfl⟩
  · intro h1 h2 h3 h4 old
    simp [statementTypeOf, h1, h2, h3, h4]

/-- Witness of C24: a schema write, and the unknown classification `"x"`. -/
theorem statement_type_classification_witness :
    Result.collectMetadata {} (some [("type", Val.str "s")])
        = some { summary := { statementType := StatementType.schemaWrite } }
      ∧ Result.collectMetadata latchedResult (some [("type", Val.str "x")])
        = some latchedResult
      ∧ statementTypeOf "x" StatementType.readOnly = StatementType.readOnly :=
  ⟨(statement_type_classification [("type", Val.str "s")] {} "s" rfl).2.2.1,
    (statement_type_classification [("type", Val.str "x")] latchedResult "x" rfl).2.2.1,
    (statement_type_classification [("type", Val.str "x")] {} "x" rfl).2.2.2.2
      (by decide) (by decide) (by decide) (by decide) _⟩

theorem Dict.get_mem (m : Dict) (key : String) (v : Val) (h : m.get key = some v) :
    (key, v) ∈ m := by
  induction m with
  | nil => simp [Dict.get] at h
  | cons kv rest ih =>
      obtain ⟨k, w⟩ := kv
      simp only [Dict.get] at h
      split at h
      · rename_i hk
        simp only [Option.some.injEq] at h
        subst hk
        subst h
        exact List.mem_cons_self _ _
      · exact List.mem_cons_of_mem _ (ih h)

theorem extractIntValue_of_allInt64 (stats : Dict) (key : String) (h : stats.allInt64) :
    extractIntValue stats key = some (storedCounter stats key) := by
  unfold extractIntValue storedCounter
  cases hg : Dict.get stats key with
  | none => rfl
  | some v =>
      obtain ⟨i, rfl⟩ := h key v (Dict.get_mem stats key v hg)
      rfl

theorem collectCounters_of_allInt64 (stats : Dict) (h : stats.allInt64) :
    collectCounters stats = some
      { nodesCreated := storedCounter stats "nodes-created"
        nodesDeleted := storedCounter stats "nodes-deleted"
        relationshipsCreated := storedCounter stats "relationships-created"
        relationshipsDeleted := storedCounter stats "relationships-deleted"
        propertiesSet := storedCounter stats "properties-set"
        labelsAdded := storedCounter stats "labels-added"
        labelsRemoved := storedCounter stats "labels-removed"
        indexesAdded := storedCounter stats "indexes-added"
        indexesRemoved := storedCounter stats "indexes-removed"
        constraintsAdded := storedCounter stats "constraints-added"
        constraintsRemoved := storedCounter stats "constraints-removed" } := by
  simp [collectCounters, extractIntValue_of_allInt64 stats _ h]

/-- C25. Summary counters: when the metadata carries a `"stats"` dictionary
with `int64` values, `collectMetadata` sets each of the eleven counters to the
integer stored under its key, and to 0 when that key is absent;
`extractIntValue` returns the stored value when the key is present and 0
otherwise. -/
theorem summary_counters (m stats : Dict) (r : Result)
    (hStats : m.get "stats" = some (Val.dict stats)) (hInts : stats.allInt64) :
    (∀ key i, stats.get key = some (Val.int64 i) → extractIntValue stats key = some i)
      ∧ (∀ key, stats.get key = none → extractIntValue stats key = some 0)
      ∧ collectStats m r = some { r with
          summary := { r.summary with
            counters :=
              { nodesCreated := storedCounter stats "nodes-created"
                nodesDeleted := storedCounter stats "nodes-deleted"
                relationshipsCreated := storedCounter stats "relationships-created"
                relationshipsDeleted := storedCounter stats "relationships-deleted"
                propertiesSet := storedCounter stats "properties-set"
                labelsAdded := storedCounter stats "labels-added"
                labelsRemoved := storedCounter stats "labels-removed"
                indexesAdded := storedCounter stats "indexes-added"
                indexesRemoved := storedCounter stats "indexes-removed"
                constraintsAdded := storedCounter stats "constraints-added"
                constraintsRemoved := storedCounter stats "constraints-removed" } } }
      ∧ (∀ r', r.collectMetadata (some m) = some r' →
          r'.summary.counters
            = { nodesCreated := storedCounter stats "nodes-created"
                nodesDeleted := storedCounter stats "nodes-deleted"
                relationshipsCreated := storedCounter stats "relationships-created"
                relationshipsDeleted := storedCounter stats "relationships-deleted"
                propertiesSet := storedCounter stats "properties-set"
                labelsAdded := storedCounter stats "labels-added"
                labelsRemoved := storedCounter stats "labels-removed"
                indexesAdded := storedCounter stats "indexes-added"
                indexesRemoved := storedCounter stats "indexes-removed"
                constraintsAdded := storedCounter stats "constraints-added"
                constraintsRemoved := storedCounter stats "constraints-removed" })
      ∧ ∃ r', r.collectMetadata (some [("stats", Val.dict stats)]) = some r' := by
  have hc := collectCounters_of_allInt64 stats hInts
  refine ⟨?_, ?_, ?_, ?_, ?_⟩
  · intro key i h
    simp [extractIntValue, h, Val.assertInt64]
  · intro key h
    simp [extractIntValue, h]
  · simp only [collectStats, hStats, hc, Option.map_some']
  · intro r' h
    simp only [Result.collectMetadata, Option.bind_eq_bind, Option.bind_eq_some] at h
    obtain ⟨r1, _, r2, _, r3, _, r4, _, h5⟩ := h
    simp only [collectStats, hStats, hc, Option.map_some', Option.some.injEq] at h5
    subst h5
    rfl
  · simp [Result.collectMetadata, collectFields, collectAvailableAfter, collectConsumedAfter,
      collectType, collectStats, Dict.get, hc]

/-- Witness of C25: two counters present, nine absent. -/
theorem summary_counters_witness :
    Result.collectMetadata {}
        (some [("stats", Val.dict [("nodes-created", Val.int64 2),
                                    ("properties-set", Val.int64 5)])])
      = some { summary := { counters := { nodesCreated := 2, propertiesSet := 5 } } }
      ∧ collectStats [("stats", Val.dict [("nodes-created", Val.int64 2),
                                           ("properties-set", Val.int64 5)])] {}
        = some { summary := { counters :=
            { nodesCreated := storedCounter [("nodes-created", Val.int64 2),
                  ("properties-set", Val.int64 5)] "nodes-created"
              nodesDeleted := storedCounter [("nodes-created", Val.int64 2),
                  ("properties-set", Val.int64 5)] "nodes-deleted"
              relationshipsCreated := storedCounter [("nodes-created", Val.int64 2),
                  ("properties-set", Val.int64 5)] "relationships-created"
              relationshipsDeleted := storedCounter [("nodes-created", Val.int64 2),
                  ("properties-set", Val.int64 5)] "relationships-deleted"
              propertiesSet := storedCounter [("nodes-created", Val.int64 2),
                  ("properties-set", Val.int64 5)] "properties-set"
              labelsAdded := storedCounter [("nodes-created", Val.int64 2),
                  ("properties-set", Val.int64 5)] "labels-added"
              labelsRemoved := storedCounter [("nodes-created", Val.int64 2),
                  ("properties-set", Val.int64 5)] "labels-removed"
              indexesAdded := storedCounter [("nodes-created", Val.int64 2),
                  ("properties-set", Val.int64 5)] "indexes-added"
              indexesRemoved := storedCounter [("nodes-created", Val.int64 2),
                  ("properties-set", Val.int64 5)] "indexes-removed"
              constraintsAdded := storedCounter [("nodes-created", Val.int64 2),
                  ("properties-set", Val.int64 5)] "constraints-added"
              constraintsRemoved := storedCounter [("nodes-created", Val.int64 2),
                  ("properties-set", Val.int64 5)] "constraints-removed" } } } :=
  ⟨rfl,
    (summary_counters
      [("stats", Val.dict [("nodes-created", Val.int64 2), ("properties-set", Val.int64 5)])]
      [("nodes-created", Val.int64 2), ("properties-set", Val.int64 5)] {} rfl
      (by
        intro k v h
        simp only [List.mem_cons, Prod.mk.injEq, List.mem_nil_iff, or_false] at h
        rcases h with ⟨_, rfl⟩ | ⟨_, rfl⟩
        · exact ⟨2, rfl⟩
        · exact ⟨5, rfl⟩)).2.2.1⟩

/-- C30. `collectMetadata` changes only the key list and the summary: for
every metadata map from which it returns, the record queue, the current slot,
`err`, `runCompleted`, `resultCompleted` and the runner are as before; and
`collectMetadata(nil)`, or a map with none of the keys `fields`,
`result_available_after`, `result_consumed_after`, `type` and `stats`,
returns with nothing changed at all. -/
theorem collectMetadata_touches_keys_and_summary (r : Result) :
    (∀ metadata r', r.collectMetadata metadata = some r' →
        r'.records = r.records ∧ r'.current = r.current ∧ r'.err = r.err
          ∧ r'.runCompleted = r.runCompleted ∧ r'.resultCompleted = r.resultCompleted
          ∧ r'.runner = r.runner)
      ∧ r.collectMetadata none = some r
      ∧ ∀ m : Dict, m.get "fields" = none → m.get "result_available_after" = none →
          m.get "result_consumed_after" = none → m.get "type" = none →
          m.get "stats" = none → r.collectMetadata (some m) = some r := by
  refine ⟨?_, rfl, ?_⟩
  · intro metadata r' h
    have hf := collectMetadata_frame metadata r r' h
    refine ⟨?_, ?_, ?_, ?_, ?_, ?_⟩ <;> rw [hf]
  · intro m h1 h2 h3 h4 h5
    simp [Result.collectMetadata, collectFields, collectAvailableAfter, collectConsumedAfter,
      collectType, collectStats, h1, h2, h3, h4, h5]

/-- Witness of C30: a metadata map with an unknown key only, on a result with
a queued record. -/
theorem collectMetadata_touches_keys_and_summary_witness :
    Result.collectMetadata queuedResult (some [("bookmark", Val.str "b1")])
        = some queuedResult
      ∧ ∀ r', Result.collectMetadata queuedResult (some [("fields", Val.strings ["a"])])
            = some r' → r'.records = queuedResult.records :=
  ⟨(collectMetadata_touches_keys_and_summary queuedResult).2.2
      [("bookmark", Val.str "b1")] rfl rfl rfl rfl rfl,
    fun r' h => ((collectMetadata_touches_keys_and_summary queuedResult).1 _ r' h).1⟩

/-! ### The error path of `Next` -/

/-- One delivered reply leaves the current slot alone. -/
theorem deliver_current (reply : Reply) (r r' : Result) (oe : Option GoError)
    (h : deliver reply r = some (r', oe)) : r'.current = r.current := by
  cases reply with
  | runAck metadata =>
      simp only [deliver, Option.map_eq_some', Prod.mk.injEq] at h
      obtain ⟨r1, h1, rfl, rfl⟩ := h
      show r1.current = r.current
      rw [collectMetadata_frame metadata r r1 h1]
  | record fields =>
      simp only [deliver, Option.some.injEq, Prod.mk.injEq] at h
      obtain ⟨rfl, rfl⟩ := h
      cases fields <;> rfl
  | summary metadata =>
      simp only [deliver, Option.map_eq_some', Prod.mk.injEq] at h
      obtain ⟨r1, h1, rfl, rfl⟩ := h
      show r1.current = r.current
      rw [collectMetadata_frame metadata r r1 h1]
  | failure e =>
      simp only [deliver, Option.some.injEq, Prod.mk.injEq] at h
      obtain ⟨rfl, rfl⟩ := h
      rfl

/-- A reply that is delivered with an error changes nothing but the latch. -/
theorem deliver_failure_frame (reply : Reply) (r r' : Result) (e : GoError)
    (h : deliver reply r = some (r', some e)) : r' = { r with err := some e } := by
  cases reply with
  | runAck metadata =>
      simp only [deliver, Option.map_eq_some', Prod.mk.injEq] at h
      obtain ⟨_, _, _, h2⟩ := h
      cases h2
  | record fields =>
      simp only [deliver, Option.some.injEq, Prod.mk.injEq] at h
      cases h.2
  | summary metadata =>
      simp only [deliver, Option.map_eq_some', Prod.mk.injEq] at h
      obtain ⟨_, _, _, h2⟩ := h
      cases h2
  | failure e' =>
      simp only [deliver, Option.some.injEq, Prod.mk.injEq] at h
      obtain ⟨rfl, rfl⟩ := h
      rfl

/-- A failing `receive` changes the latch and the runner only. -/
theorem receive_failure_frame (r r' : Result) (e : GoError)
    (h : receive r = some (r', some e)) :
    r' = { r with err := some e, runner := r'.runner } := by
  unfold receive at h
  split at h
  · simp only [Option.some.injEq, Prod.mk.injEq] at h
    obtain ⟨rfl, rfl⟩ := h
    rfl
  · rename_i reply rest _
    rw [deliver_failure_frame reply (r.consumed rest) r' e h]
    rfl

/-- The loop of `Keys` and `Next` leaves the current slot alone. -/
theorem awaitRun_current (pending : List Reply) (r r' : Result) (oe : Option GoError)
    (h : awaitRun pending r = some (r', oe)) : r'.current = r.current := by
  induction pending generalizing r with
  | nil =>
      unfold awaitRun at h
      split at h
      · simp only [Option.some.injEq, Prod.mk.injEq] at h
        obtain ⟨rfl, rfl⟩ := h
        rfl
      · simp only [Option.some.injEq, Prod.mk.injEq] at h
        obtain ⟨rfl, rfl⟩ := h
        rfl
  | cons reply rest ih =>
      unfold awaitRun at h
      split at h
      · simp only [Option.some.injEq, Prod.mk.injEq] at h
        obtain ⟨rfl, rfl⟩ := h
        rfl
      · split at h
        · cases h
        · rename_i r1 e1 hd
          simp only [Option.some.injEq, Prod.mk.injEq] at h
          obtain ⟨rfl, rfl⟩ := h
          exact deliver_current reply (r.consumed rest) _ _ hd
        · rename_i r1 hd
          rw [ih r1 h]
          exact deliver_current reply (r.consumed rest) _ _ hd

/-- The loop of `Next` when its first `receive` fails. -/
theorem awaitRun_of_receive_failure (r r1 : Result) (e : GoError)
    (hRun : r.runCompleted = false) (h : receive r = some (r1, some e)) :
    awaitRun r.runner.replies r = some (r1, some e) := by
  unfold receive at h
  cases hp : r.runner.replies with
  | nil =>
      rw [hp] at h
      simp only [awaitRun, hRun, Bool.false_eq_true, ↓reduceIte]
      exact h
  | cons reply rest =>
      rw [hp] at h
      simp only at h
      simp only [awaitRun, hRun, Bool.false_eq_true, ↓reduceIte, h]

/-- C28, the claim as stated fails. On a fresh result whose connection
acknowledges the run with the key `n` and then fails, `Next` returns false with
the error stored in `err`, and the key list is no longer the one before the
call: the acknowledgment received earlier in the same call has set it. -/
theorem next_error_after_ack_changes_keys :
    ∃ r', ackThenFailure.Next = some (false, r')
      ∧ r'.err = some "boom" ∧ ackThenFailure.keys = [] ∧ r'.keys = ["n"]
      ∧ r'.runCompleted = true :=
  ⟨_, rfl, rfl, rfl, rfl, rfl⟩

/-- C28, amended. When a `receive` call made inside `Next` returns an error,
`Next` returns false with that error stored in `err` and the current slot as
it was before the call, so `Record()` still returns the previous record. The
failing `receive` and `Next` itself change nothing of the result but `err`
(and the runner): keys, record queue and summary are as the `receive` calls
that succeeded earlier in the same `Next` left them, and unchanged when the
failing call is the first one that `Next` makes. -/
theorem next_error_path (r r1 : Result) (e : GoError) :
    (awaitRun r.runner.replies r = some (r1, some e) →
        r.Next = some (false, { r1 with err := some e })
          ∧ r1.current = r.current
          ∧ Result.Record { r1 with err := some e } = r.Record)
      ∧ (∀ r0, awaitRun r.runner.replies r = some (r0, none) →
          r0.resultCompleted = false → r0.records = [] → receive r0 = some (r1, some e) →
          r.Next = some (false, { r1 with err := some e })
            ∧ r1.current = r.current
            ∧ Result.Record { r1 with err := some e } = r.Record
            ∧ r1.keys = r0.keys ∧ r1.records = r0.records ∧ r1.summary = r0.summary)
      ∧ (receive r = some (r1, some e) →
          r.runCompleted = false ∨ (r.resultCompleted = false ∧ r.records = []) →
          r.Next = some (false, r1)
            ∧ r1 = { r with err := some e, runner := r1.runner }
            ∧ r1.Record = r.Record) := by
  refine ⟨?_, ?_, ?_⟩
  · intro h
    have hc := awaitRun_current _ r r1 _ h
    exact ⟨by simp [Result.Next, h], hc, hc⟩
  · intro r0 h hRes hRec hrecv
    have hc0 := awaitRun_current _ r r0 _ h
    have hf := receive_failure_frame r0 r1 e hrecv
    have hc : r1.current = r.current := by rw [hf]; exact hc0
    refine ⟨by simp [Result.Next, h, hRes, hRec, hrecv], hc, hc, ?_, ?_, ?_⟩ <;> rw [hf]
  · intro hrecv hfirst
    have hf := receive_failure_frame r r1 e hrecv
    have herr : r1.err = some e := by rw [hf]
    have heta : ({ r1 with err := some e } : Result) = r1 := by
      cases r1
      simp only at herr
      simp [herr]
    refine ⟨?_, hf, by rw [hf]; rfl⟩
    by_cases hRun : r.runCompleted = true
    · rcases hfirst with h | ⟨hRes, hRec⟩
      · rw [hRun] at h
        cases h
      · simp [Result.Next, awaitRun_of_runCompleted _ r hRun, hRes, hRec, hrecv, heta]
    · have hRun' : r.runCompleted = false := by simpa using hRun
      simp [Result.Next, awaitRun_of_receive_failure r r1 e hRun' hrecv, heta]

/-- Witness of the amended C28: after a delivered record the connection fails;
`Next` returns false, latches the error and the record stays current. On a
fresh result without replies the loop fails at once, and on the result of the
counterexample the failure comes after the acknowledgment. -/
theorem next_error_path_witness :
    deliveredThenFailure.Next
        = some (false, { deliveredThenFailure with
            err := some "boom", runner := { replies := [], receives := 1 } })
      ∧ Result.Next {}
          = some (false, { err := some errConnectionClosed,
                           runner := { replies := [], receives := 1 } })
      ∧ (ackThenFailure.Next
          = some (false, { keys := ["n"], runCompleted := true, err := some "boom",
                           runner := { replies := [], receives := 2 } })) :=
  ⟨((next_error_path deliveredThenFailure
        { deliveredThenFailure with
            err := some "boom", runner := { replies := [], receives := 1 } } "boom").2.2
      rfl (Or.inr ⟨rfl, rfl⟩)).1,
    ((next_error_path {}
        { err := some errConnectionClosed, runner := { replies := [], receives := 1 } }
        errConnectionClosed).1 rfl).1,
    ((next_error_path ackThenFailure
        { keys := ["n"], runCompleted := true, err := some "boom",
          runner := { replies := [], receives := 2 } } "boom").2.1
      { keys := ["n"], runCompleted := true,
        runner := { replies := [Reply.failure "boom"], receives := 1 } }
      rfl rfl rfl rfl).1⟩

/-! ### Time of day with a zone -/

/-- The seconds held by the midnight that `Time.SerializeNeo4j` builds: those of
the time less its seconds of the day, as an `int64`. -/
theorem midnight_sec (t : GoTime) :
    (GoTime.midnight t.civil.1 t.civil.2.1 t.civil.2.2 t.offset).sec
      = wrapInt64 (t.sec - t.abs % 86400) := by
  have hday : daysFromCivil t.civil.1 t.civil.2.1 t.civil.2.2
      = t.abs / 86400 - unixToAbsolute / 86400 :=
    daysFromCivil_civilFromDays _
  simp only [GoTime.sec, GoTime.midnight, hday, GoTime.abs, unixToAbsolute, unixToInternal,
    wrapInt64]
  norm_num
  omega

/-- The seconds of the day in hours, minutes and seconds. -/
theorem seconds_of_day (t : GoTime) :
    t.abs % 86400 = 3600 * t.Hour + 60 * t.Minute + t.Second
      ∧ 0 ≤ t.abs % 86400 ∧ t.abs % 86400 < 86400 := by
  simp only [GoTime.Hour, GoTime.Minute, GoTime.Second]
  omega

/-- C29, the claim as stated fails. The time `time.Unix(9223371974719179013, 0)`
in UTC holds the seconds `-2^63 + 5` and reads 15:30:13. The midnight of its day
lies before the least time, so the seconds `time.Date` computes wrap around to a
time far later, `Sub` is held at the least duration, and the first field is the
least `int64`, not the 55813 seconds since midnight that `LocalTime` emits. -/
theorem time_on_earliest_day :
    GoTime.sec { unix := 9223371974719179013, nsec := 0, offset := 0 }
        = -9223372036854775808 + 5
      ∧ GoTime.Hour { unix := 9223371974719179013, nsec := 0, offset := 0 } = 15
      ∧ GoTime.Minute { unix := 9223371974719179013, nsec := 0, offset := 0 } = 30
      ∧ GoTime.Second { unix := 9223371974719179013, nsec := 0, offset := 0 } = 13
      ∧ GoTime.sec (GoTime.midnight
            (GoTime.civil { unix := 9223371974719179013, nsec := 0, offset := 0 }).1
            (GoTime.civil { unix := 9223371974719179013, nsec := 0, offset := 0 }).2.1
            (GoTime.civil { unix := 9223371974719179013, nsec := 0, offset := 0 }).2.2 0)
          = 9223372036854720000
      ∧ Time.SerializeNeo4j { unix := 9223371974719179013, nsec := 0, offset := 0 }
          = [PackCall.structHeader 'T'.toNat 2, PackCall.int64 (-9223372036854775808),
             PackCall.int 0]
      ∧ LocalTime.SerializeNeo4j { unix := 9223371974719179013, nsec := 0, offset := 0 }
          = [PackCall.structHeader 't'.toNat 1, PackCall.int64 55813000000000] := by
  decide

/-- C29, amended. For every Time value in a fixed-offset zone whose local
midnight is itself a time (the seconds the value holds, less its seconds of the
day, do not fall below the least `int64`), `SerializeNeo4j` emits as first field
the nanoseconds elapsed since local midnight, which is
`hour*3600*10^9 + minute*60*10^9 + second*10^9 + nanosecond` of the wall-clock
reading, the value `LocalTime` emits for the same reading, and lies in
`[0, 86400*10^9)`; the second field is the offset of the zone from UTC in
seconds. -/
theorem time_serialization (t : GoTime) (hNsec : t.nsec < 1000000000)
    (hMidnight : -(2 ^ 63) ≤ t.sec - t.abs % 86400) :
    ∃ v : Int,
      Time.SerializeNeo4j t
          = [PackCall.structHeader 'T'.toNat 2, PackCall.int64 v, PackCall.int t.Zone]
        ∧ v = t.subNanoseconds (GoTime.midnight t.civil.1 t.civil.2.1 t.civil.2.2 t.offset)
        ∧ v = 3600 * 1000000000 * t.Hour + 60 * 1000000000 * t.Minute
              + 1000000000 * t.Second + t.Nanosecond
        ∧ LocalTime.SerializeNeo4j t = [PackCall.structHeader 't'.toNat 1, PackCall.int64 v]
        ∧ 0 ≤ v ∧ v < 86400 * 1000000000 := by
  obtain ⟨hday, hd0, hd1⟩ := seconds_of_day t
  have hn : ((t.nsec : Int)) < 1000000000 := by omega
  have hn0 : (0 : Int) ≤ (t.nsec : Int) := by omega
  have hsecRange : t.sec < 9223372036854775808 := by
    simp only [GoTime.sec, wrapInt64]
    norm_num
    omega
  have hmid : (GoTime.midnight t.civil.1 t.civil.2.1 t.civil.2.2 t.offset).sec
      = t.sec - t.abs % 86400 := by
    rw [midnight_sec]
    simp only [wrapInt64]
    norm_num at hMidnight ⊢
    omega
  have hsub : t.subNanoseconds (GoTime.midnight t.civil.1 t.civil.2.1 t.civil.2.2 t.offset)
      = t.abs % 86400 * 1000000000 + (t.nsec : Int) := by
    simp only [GoTime.subNanoseconds, hmid]
    have hnsec : (GoTime.midnight t.civil.1 t.civil.2.1 t.civil.2.2 t.offset).nsec = 0 := rfl
    rw [hnsec]
    have hw : t.sec - (t.sec - t.abs % 86400) = t.abs % 86400 := by omega
    rw [hw]
    simp only [Nat.cast_zero, sub_zero]
    rw [if_neg (by norm_num; omega), if_neg (by norm_num; omega)]
  have hread : t.abs % 86400 * 1000000000 + (t.nsec : Int)
      = 3600 * 1000000000 * t.Hour + 60 * 1000000000 * t.Minute
          + 1000000000 * t.Second + t.Nanosecond := by
    simp only [GoTime.Nanosecond]
    omega
  have h0 : 0 ≤ t.abs % 86400 * 1000000000 + (t.nsec : Int) := by omega
  have h1 : t.abs % 86400 * 1000000000 + (t.nsec : Int) < 86400 * 1000000000 := by
    omega
  refine ⟨t.abs % 86400 * 1000000000 + (t.nsec : Int), ?_, hsub.symm, hread, ?_,
    h0, h1⟩
  · simp only [Time.SerializeNeo4j, hsub]
  · have hwrap : wrapInt64 (3600000000000 * t.Hour + 60000000000 * t.Minute
        + 1000000000 * t.Second + t.Nanosecond)
        = t.abs % 86400 * 1000000000 + (t.nsec : Int) := by
      have e : (3600000000000 * t.Hour + 60000000000 * t.Minute
          + 1000000000 * t.Second + t.Nanosecond)
          = t.abs % 86400 * 1000000000 + (t.nsec : Int) := by
        rw [hread]
        ring
      rw [e]
      simp only [wrapInt64]
      norm_num
      omega
    simp only [LocalTime.SerializeNeo4j, hwrap]

/-- Witness of the amended C29: 1970-01-02 01:01:01.000000005 at one hour east
of UTC, that is 86461 seconds after the epoch. And `time.Unix(-2^63, 0)` one
second west of UTC, whose wall clock lies before the absolute zero and reads
15:30:07. -/
theorem time_serialization_witness :
    Time.SerializeNeo4j { unix := 86461, nsec := 5, offset := 3600 }
        = [PackCall.structHeader 'T'.toNat 2, PackCall.int64 3661000000005, PackCall.int 3600]
      ∧ Time.SerializeNeo4j { unix := -9223372036854775808, nsec := 0, offset := -1 }
        = [PackCall.structHeader 'T'.toNat 2, PackCall.int64 55807000000000, PackCall.int (-1)]
      ∧ ∃ v : Int,
          Time.SerializeNeo4j { unix := 86461, nsec := 5, offset := 3600 }
              = [PackCall.structHeader 'T'.toNat 2, PackCall.int64 v,
                 PackCall.int (GoTime.Zone { unix := 86461, nsec := 5, offset := 3600 })]
            ∧ v = GoTime.subNanoseconds { unix := 86461, nsec := 5, offset := 3600 }
                (GoTime.midnight
                  (GoTime.civil { unix := 86461, nsec := 5, offset := 3600 }).1
                  (GoTime.civil { unix := 86461, nsec := 5, offset := 3600 }).2.1
                  (GoTime.civil { unix := 86461, nsec := 5, offset := 3600 }).2.2 3600)
            ∧ v = 3600 * 1000000000 * GoTime.Hour { unix := 86461, nsec := 5, offset := 3600 }
                  + 60 * 1000000000 * GoTime.Minute { unix := 86461, nsec := 5, offset := 3600 }
                  + 1000000000 * GoTime.Second { unix := 86461, nsec := 5, offset := 3600 }
                  + GoTime.Nanosecond { unix := 86461, nsec := 5, offset := 3600 }
            ∧ LocalTime.SerializeNeo4j { unix := 86461, nsec := 5, offset := 3600 }
                = [PackCall.structHeader 't'.toNat 1, PackCall.int64 v]
            ∧ 0 ≤ v ∧ v < 86400 * 1000000000 :=
  ⟨by decide, by decide,
    time_serialization { unix := 86461, nsec := 5, offset := 3600 } (by decide) (by decide)⟩

/-! ### Injectivity of the rendering of a `Duration` -/

theorem digitChar_isDigit (k : Nat) (h : k < 10) :
    (Nat.digitChar k).toNat - 48 = k ∧ 48 ≤ (Nat.digitChar k).toNat
      ∧ (Nat.digitChar k).toNat ≤ 57 := by
  interval_cases k <;> decide

theorem toDigitsCore_digits (fuel n : Nat) (ds : List Char)
    (hds : ∀ c ∈ ds, 48 ≤ c.toNat ∧ c.toNat ≤ 57) :
    ∀ c ∈ Nat.toDigitsCore 10 fuel n ds, 48 ≤ c.toNat ∧ c.toNat ≤ 57 := by
  induction fuel generalizing n ds with
  | zero => simpa [Nat.toDigitsCore] using hds
  | succ fuel ih =>
      have hd := digitChar_isDigit (n % 10) (Nat.mod_lt _ (by decide))
      have hcons : ∀ c ∈ Nat.digitChar (n % 10) :: ds, 48 ≤ c.toNat ∧ c.toNat ≤ 57 := by
        intro c hc
        rcases List.mem_cons.mp hc with rfl | hc
        · exact hd.2
        · exact hds c hc
      simp only [Nat.toDigitsCore]
      split
      · exact hcons
      · exact ih _ _ hcons

theorem toDigitsCore_value (fuel n : Nat) (ds : List Char) (h : n < fuel) :
    (Nat.toDigitsCore 10 fuel n ds).foldl (fun acc c => acc * 10 + (c.toNat - 48)) 0
      = ds.foldl (fun acc c => acc * 10 + (c.toNat - 48)) n := by
  induction fuel generalizing n ds with
  | zero => omega
  | succ fuel ih =>
      have hd := (digitChar_isDigit (n % 10) (Nat.mod_lt _ (by decide))).1
      simp only [Nat.toDigitsCore]
      split
      · rename_i h0
        simp only [List.foldl_cons, hd]
        congr 1
        omega
      · rename_i h0
        rw [ih (n / 10) _ (by omega)]
        simp only [List.foldl_cons, hd]
        congr 1
        omega

theorem repr_data (n : Nat) : (Nat.repr n).data = Nat.toDigits 10 n := rfl

theorem digitsValue_repr (n : Nat) : digitsValue (Nat.repr n).data = n := by
  rw [repr_data]
  exact toDigitsCore_value (n + 1) n [] (by omega)

theorem repr_digits (n : Nat) : ∀ c ∈ (Nat.repr n).data, 48 ≤ c.toNat ∧ c.toNat ≤ 57 := by
  rw [repr_data]
  exact toDigitsCore_digits (n + 1) n [] (by simp)

theorem digitsValue_zeros (k : Nat) (cs : List Char) :
    digitsValue (List.replicate k '0' ++ cs) = digitsValue cs := by
  induction k with
  | zero => rfl
  | succ k ih =>
      rw [List.replicate_succ, List.cons_append]
      unfold digitsValue at *
      rw [List.foldl_cons]
      exact ih

/-- Two lists that agree after a separator occurring in neither prefix. -/
theorem split_at_separator (s : Char) (xs ys as bs : List Char) (hx : s ∉ xs) (hy : s ∉ ys)
    (h : xs ++ s :: as = ys ++ s :: bs) : xs = ys ∧ as = bs := by
  induction xs generalizing ys with
  | nil =>
      cases ys with
      | nil => simpa using h
      | cons y ys =>
          simp only [List.nil_append, List.cons_append, List.cons.injEq] at h
          exact absurd (h.1 ▸ List.mem_cons_self _ _) hy
  | cons x xs ih =>
      cases ys with
      | nil =>
          simp only [List.nil_append, List.cons_append, List.cons.injEq] at h
          exact absurd (h.1 ▸ List.mem_cons_self _ _) hx
      | cons y ys =>
          simp only [List.cons_append, List.cons.injEq] at h
          obtain ⟨rfl, h⟩ := h
          have := ih ys (fun hm => hx (List.mem_cons_of_mem _ hm))
            (fun hm => hy (List.mem_cons_of_mem _ hm)) h
          exact ⟨by rw [this.1], this.2⟩

/-- Two signed digit strings are equal only when the signs and the digits
are. -/
theorem signed_inj (p q : Prop) [Decidable p] [Decidable q] (a b : List Char)
    (ha : ∀ c ∈ a, 48 ≤ c.toNat ∧ c.toNat ≤ 57) (hb : ∀ c ∈ b, 48 ≤ c.toNat ∧ c.toNat ≤ 57)
    (h : (if p then ['-'] else []) ++ a = (if q then ['-'] else []) ++ b) :
    (p ↔ q) ∧ a = b := by
  by_cases hp : p <;> by_cases hq : q <;> simp only [hp, hq, ↓reduceIte] at h
  · simp only [List.cons_append, List.nil_append, List.cons.injEq, true_and] at h
    exact ⟨by simp [hp, hq], h⟩
  · simp only [List.cons_append, List.nil_append] at h
    have := hb '-' (h ▸ List.mem_cons_self _ _)
    exact absurd this (by decide)
  · simp only [List.cons_append, List.nil_append] at h
    have := ha '-' (h ▸ List.mem_cons_self _ _)
    exact absurd this (by decide)
  · simp only [List.nil_append] at h
    exact ⟨by simp [hp, hq], h⟩

theorem fmtInt_data (i : Int) :
    (fmtInt i).data = (if i < 0 then ['-'] else []) ++ (Nat.repr i.natAbs).data := by
  unfold fmtInt
  split <;> rfl

theorem fmtInt_chars (i : Int) :
    ∀ c ∈ (fmtInt i).data, c = '-' ∨ (48 ≤ c.toNat ∧ c.toNat ≤ 57) := by
  intro c hc
  rw [fmtInt_data, List.mem_append] at hc
  rcases hc with hc | hc
  · split at hc
    · exact Or.inl (by simpa using hc)
    · simp at hc
  · exact Or.inr (repr_digits _ c hc)

theorem repr_injective (a b : Nat) (h : (Nat.repr a).data = (Nat.repr b).data) : a = b := by
  rw [← digitsValue_repr a, ← digitsValue_repr b, h]

theorem fmtInt_injective (i j : Int) (h : (fmtInt i).data = (fmtInt j).data) : i = j := by
  rw [fmtInt_data, fmtInt_data] at h
  obtain ⟨hs, hd⟩ := signed_inj _ _ _ _ (repr_digits _) (repr_digits _) h
  have := repr_injective _ _ hd
  omega

theorem padZeros_data (w : Nat) (s : String) :
    (padZeros w s).data = List.replicate (w - s.length) '0' ++ s.data := rfl

theorem padZeros_chars (w n : Nat) :
    ∀ c ∈ (padZeros w (Nat.repr n)).data, 48 ≤ c.toNat ∧ c.toNat ≤ 57 := by
  intro c hc
  rw [padZeros_data, List.mem_append] at hc
  rcases hc with hc | hc
  · rw [List.mem_replicate] at hc
    rw [hc.2]
    decide
  · exact repr_digits _ c hc

theorem padZeros_injective (w a b : Nat)
    (h : (padZeros w (Nat.repr a)).data = (padZeros w (Nat.repr b)).data) : a = b := by
  have := congrArg digitsValue h
  rwa [padZeros_data, padZeros_data, digitsValue_zeros, digitsValue_zeros, digitsValue_repr,
    digitsValue_repr] at this

theorem decimalSeconds_data (seconds nanos : Int) :
    (decimalSeconds seconds nanos).data
      = ((if seconds * 1000000000 + nanos < 0 then ['-'] else [])
          ++ (Nat.repr ((seconds * 1000000000 + nanos).natAbs / 1000000000)).data)
        ++ (if nanos = 0 then []
            else '.' :: (padZeros 9
              (Nat.repr ((seconds * 1000000000 + nanos).natAbs % 1000000000))).data) := by
  have hminus : ("-" : String).data = ['-'] := rfl
  have hempty : ("" : String).data = [] := rfl
  have hpoint : ("." : String).data = ['.'] := rfl
  simp only [decimalSeconds]
  split_ifs <;>
    simp only [String.data_append, hminus, hempty, hpoint, List.append_nil, List.append_assoc,
      List.cons_append, List.nil_append]

theorem not_mem_signed (s : Char) (hs : s ≠ '-') (hd : ¬ (48 ≤ s.toNat ∧ s.toNat ≤ 57))
    (p : Prop) [Decidable p] (a : List Char) (ha : ∀ c ∈ a, 48 ≤ c.toNat ∧ c.toNat ≤ 57) :
    s ∉ (if p then ['-'] else []) ++ a := by
  intro hm
  rw [List.mem_append] at hm
  rcases hm with hm | hm
  · split at hm
    · exact hs (by simpa using hm)
    · simp at hm
  · exact hd (ha s hm)

theorem decimalSeconds_injective (s1 n1 s2 n2 : Int)
    (h10 : 0 ≤ n1) (h11 : n1 < 1000000000) (h20 : 0 ≤ n2) (h21 : n2 < 1000000000)
    (h : (decimalSeconds s1 n1).data = (decimalSeconds s2 n2).data) :
    s1 = s2 ∧ n1 = n2 := by
  rw [decimalSeconds_data, decimalSeconds_data] at h
  have hdot1 := not_mem_signed '.' (by decide) (by decide) (s1 * 1000000000 + n1 < 0) _
    (repr_digits ((s1 * 1000000000 + n1).natAbs / 1000000000))
  have hdot2 := not_mem_signed '.' (by decide) (by decide) (s2 * 1000000000 + n2 < 0) _
    (repr_digits ((s2 * 1000000000 + n2).natAbs / 1000000000))
  by_cases hn1 : n1 = 0 <;> by_cases hn2 : n2 = 0
  · simp only [hn1, hn2, ↓reduceIte, List.append_nil] at h
    obtain ⟨hs, hd⟩ := signed_inj _ _ _ _ (repr_digits _) (repr_digits _) h
    have hw := repr_injective _ _ hd
    subst hn1 hn2
    refine ⟨?_, rfl⟩
    simp only [add_zero] at hs hw
    omega
  · simp only [if_pos hn1, if_neg hn2, List.append_nil] at h
    refine absurd ?_ hdot1
    rw [h]
    exact List.mem_append_right _ (List.mem_cons_self _ _)
  · simp only [if_neg hn1, if_pos hn2, List.append_nil] at h
    refine absurd ?_ hdot2
    rw [← h]
    exact List.mem_append_right _ (List.mem_cons_self _ _)
  · simp only [hn1, hn2, ↓reduceIte] at h
    obtain ⟨hl, hr⟩ := split_at_separator '.' _ _ _ _ hdot1 hdot2 h
    obtain ⟨hs, hd⟩ := signed_inj _ _ _ _ (repr_digits _) (repr_digits _) hl
    have hw := repr_injective _ _ hd
    have hf := padZeros_injective _ _ _ hr
    omega

/-- The rendering of a normalized duration, with the time part as the plain
signed decimal of the number of seconds. -/
theorem string_eq_decimal (d : Duration) (hNanos0 : 0 ≤ d.Nanos)
    (hNanos1 : d.Nanos < 1000000000) :
    d.String
      = "P" ++ fmtInt d.Months ++ "M" ++ fmtInt d.Days ++ "DT"
        ++ decimalSeconds d.Seconds d.Nanos ++ "S" := by
  by_cases hS : d.Seconds < 0
  · by_cases hN : d.Nanos = 0
    · have hT : d.Seconds * 1000000000 < 0 := by omega
      have hW : (d.Seconds * 1000000000).natAbs / 1000000000 = d.Seconds.natAbs := by
        omega
      simp [Duration.String, decimalSeconds, hS, hN, hT, hW, fmtInt]
    · have hN' : 0 < d.Nanos := by omega
      have hT : d.Seconds * 1000000000 + d.Nanos < 0 := by omega
      have hW : (d.Seconds * 1000000000 + d.Nanos).natAbs / 1000000000
          = (d.Seconds + 1).natAbs := by omega
      have hF : (d.Seconds * 1000000000 + d.Nanos).natAbs % 1000000000
          = (1000000000 - d.Nanos).natAbs := by omega
      have hR : ¬ (1000000000 - d.Nanos = 0) := by omega
      have hR' : ¬ (1000000000 - d.Nanos < 0) := by omega
      by_cases hZ : d.Seconds + 1 = 0
      · simp [Duration.String, decimalSeconds, hS, hN, hN', hT, hW, hF, hR, hR', hZ,
          fmtInt, fmtInt09]
      · have hZ' : d.Seconds + 1 < 0 := by omega
        simp [Duration.String, decimalSeconds, hS, hN, hN', hT, hW, hF, hR, hR', hZ,
          hZ', fmtInt, fmtInt09]
  · have hS' : ¬ (d.Seconds * 1000000000 + d.Nanos < 0) := by omega
    have hW : (d.Seconds * 1000000000 + d.Nanos).natAbs / 1000000000 = d.Seconds.natAbs := by
      omega
    have hF : (d.Seconds * 1000000000 + d.Nanos).natAbs % 1000000000 = d.Nanos.natAbs := by
      omega
    have hR' : ¬ (d.Nanos < 0) := by omega
    by_cases hN : d.Nanos = 0
    · have hS0 : ¬ (d.Seconds * 1000000000 < 0) := by omega
      have hW0 : (d.Seconds * 1000000000).natAbs / 1000000000 = d.Seconds.natAbs := by
        omega
      simp [Duration.String, decimalSeconds, hS, hN, hS0, hW0, fmtInt]
    · simp [Duration.String, decimalSeconds, hS, hN, hS', hW, hF, hR', fmtInt, fmtInt09]

theorem not_mem_fmtInt (s : Char) (hs : s ≠ '-') (hd : ¬ (48 ≤ s.toNat ∧ s.toNat ≤ 57))
    (i : Int) : s ∉ (fmtInt i).data := by
  intro hm
  rcases fmtInt_chars i s hm with h | h
  · exact hs h
  · exact hd h

/-- C27. `Duration.String` is injective on normalized durations: for all
Durations `d1` and `d2` with `0 <= Nanos < 10^9`, `d1.String() = d2.String()`
if and only if `d1.Equal(d2)`, that is, all four fields are equal. -/
theorem duration_string_injective (d1 d2 : Duration)
    (h10 : 0 ≤ d1.Nanos) (h11 : d1.Nanos < 1000000000)
    (h20 : 0 ≤ d2.Nanos) (h21 : d2.Nanos < 1000000000) :
    (d1.String = d2.String ↔ d1.Equal d2 = true)
      ∧ (d1.Equal d2 = true ↔ d1 = d2) := by
  have hEq : d1.Equal d2 = true ↔ d1 = d2 := by
    cases d1
    cases d2
    simp [Duration.Equal, and_assoc]
  refine ⟨⟨fun h => ?_, fun h => by rw [hEq.mp h]⟩, hEq⟩
  rw [string_eq_decimal d1 h10 h11, string_eq_decimal d2 h20 h21, String.ext_iff] at h
  have hP : ("P" : String).data = ['P'] := rfl
  have hM : ("M" : String).data = ['M'] := rfl
  have hDT : ("DT" : String).data = ['D', 'T'] := rfl
  have hS : ("S" : String).data = ['S'] := rfl
  simp only [String.data_append, hP, hM, hDT, hS, List.append_assoc, List.cons_append,
    List.nil_append, List.cons.injEq, true_and] at h
  obtain ⟨hMonths, h⟩ := split_at_separator 'M' _ _ _ _
    (not_mem_fmtInt 'M' (by decide) (by decide) _)
    (not_mem_fmtInt 'M' (by decide) (by decide) _) h
  obtain ⟨hDays, h⟩ := split_at_separator 'D' _ _ _ _
    (not_mem_fmtInt 'D' (by decide) (by decide) _)
    (not_mem_fmtInt 'D' (by decide) (by decide) _) h
  simp only [List.cons.injEq, true_and] at h
  have hdec := List.append_cancel_right h
  obtain ⟨hSec, hNan⟩ := decimalSeconds_injective _ _ _ _ h10 h11 h20 h21 hdec
  rw [hEq]
  cases d1
  cases d2
  simp only at hSec hNan
  simp only [Duration.mk.injEq]
  exact ⟨fmtInt_injective _ _ hMonths, fmtInt_injective _ _ hDays, hSec, hNan⟩

/-- Witness of C27: minus half a second and half a second, rendered
`"P1M0DT-0.500000000S"` and `"P1M0DT0.500000000S"`. -/
theorem duration_string_injective_witness :
    (0 : Int) ≤ 500000000 ∧ (500000000 : Int) < 1000000000
      ∧ (Duration.String { Months := 1, Days := 0, Seconds := -1, Nanos := 500000000 }
            = Duration.String { Months := 1, Days := 0, Seconds := 0, Nanos := 500000000 }
          ↔ Duration.Equal { Months := 1, Days := 0, Seconds := -1, Nanos := 500000000 }
              { Months := 1, Days := 0, Seconds := 0, Nanos := 500000000 } = true)
      ∧ Duration.String { Months := 1, Days := 0, Seconds := -1, Nanos := 500000000 }
          ≠ Duration.String { Months := 1, Days := 0, Seconds := 0, Nanos := 500000000 } :=
  ⟨by decide, by decide,
    (duration_string_injective { Months := 1, Days := 0, Seconds := -1, Nanos := 500000000 }
      { Months := 1, Days := 0, Seconds := 0, Nanos := 500000000 }
      (by decide) (by decide) (by decide) (by decide)).1,
    by decide⟩

end Neo4j
